import Mathlib

/-!
# Holtek HT32F165x NOR flash driver

Shallow embedding of `src/flash/nor/ht32f165x.c`.

* Machine integers are natural numbers (`uint32_t`, `unsigned int`, `uint8_t`) or
  integers (`int`); 32-bit wraparound is written `% 2 ^ 32` where the C code can wrap.
* The debug adapter is an oracle: the n-th register write and the n-th register
  read of a run get their result from `Adapter`.  Every access is appended to a
  trace, so the order of the register traffic can be stated.
* The bank, the trace and the two access counters form the `World` that the
  driver functions pass along.
* `LOG_*` and `command_print` calls have no effect on this state and are left out.
-/

namespace HT32F165x

/-! ## Constants of the source file -/

def FMC_REG_BASE : Nat := 0x40080000
def FMC_REG_TADR : Nat := 0x00
def FMC_REG_WRDR : Nat := 0x04
def FMC_REG_OCMR : Nat := 0x0C
def FMC_REG_OPCR : Nat := 0x10
def FMC_REG_PPSR : Nat := 0x20
def FMC_REG_CPSR : Nat := 0x30

def FMC_CMD_WORD_PROG : Nat := 0x4
def FMC_CMD_PAGE_ERASE : Nat := 0x8
def FMC_CMD_MASS_ERASE : Nat := 0xA

def FMC_OPM_MASK : Nat := 0x1E
def FMC_COMMIT : Nat := 0xA <<< 1
def FMC_FINISHED : Nat := 0xE <<< 1

def FLASH_ERASE_TIMEOUT : Int := 1000

def OPT_BYTE : Nat := 0x1FF00000

/-! ## Declarations the file takes from headers -/

/-- Constants that `ht32f165x.c` uses by name and that are declared in headers
outside the translated file (`helper/log.h`, `target/target.h`, `flash/common.h`).
They are parameters of the model: no theorem depends on their numeric values. -/
structure Decls where
  ERROR_OK : Int
  ERROR_FAIL : Int
  ERROR_TARGET_NOT_HALTED : Int
  ERROR_FLASH_DST_BREAKS_ALIGNMENT : Int
  ERROR_FLASH_OPER_UNSUPPORTED : Int
  ERROR_COMMAND_SYNTAX_ERROR : Int
  TARGET_HALTED : Nat
deriving DecidableEq

/-! ## Data model -/

/-- One entry of `bank->sectors` (`struct flash_sector`). -/
structure flash_sector where
  offset : Nat
  size : Nat
  is_erased : Int
  is_protected : Int
deriving DecidableEq

/-- The part of `struct target` the driver looks at: `target->state`. -/
structure target where
  state : Nat
deriving DecidableEq

/-- The part of `struct flash_bank` the driver looks at.  `sectors` is the
allocated array; an index at or beyond its length is outside the allocation. -/
structure flash_bank where
  target : target
  base : Nat
  size : Nat
  num_sectors : Nat
  sectors : List flash_sector
deriving DecidableEq

/-- One interaction with the target or the clock, in program order. -/
inductive Access where
  | read (address : Nat)
  | write (address value : Nat)
  | sleep (ms : Nat)
deriving DecidableEq

/-- The debug adapter as an oracle.  `write_result n` is the return code of the
n-th `target_write_u32` of a run; `read_result n` is the return code of the n-th
`target_read_u32` together with the 32-bit value left in `*value`. -/
structure Adapter where
  write_result : Nat → Int
  read_result : Nat → Int × Nat

/-- Everything the driver can change or observe changing. -/
structure World where
  bank : flash_bank
  trace : List Access
  writes : Nat
  reads : Nat
deriving DecidableEq

/-- How a driver function that indexes `bank->sectors` or loops can end. -/
inductive Outcome where
  | ret (retval : Int) (w : World)
  | fault (w : World)
  | out_of_fuel
deriving DecidableEq

/-! ## Adapter primitives -/

/-- `target_write_u32(target, address, value)`. -/
def target_write_u32 (A : Adapter) (address value : Nat) (w : World) : Int × World :=
  (A.write_result w.writes,
    { w with trace := w.trace ++ [Access.write address value], writes := w.writes + 1 })

/-- `target_read_u32(target, address, &value)`: return code, value, new world. -/
def target_read_u32 (A : Adapter) (address : Nat) (w : World) : Int × Nat × World :=
  ((A.read_result w.reads).1, (A.read_result w.reads).2,
    { w with trace := w.trace ++ [Access.read address], reads := w.reads + 1 })

/-- `alive_sleep(ms)`. -/
def alive_sleep (ms : Nat) (w : World) : World :=
  { w with trace := w.trace ++ [Access.sleep ms] }

/-! ## Status poller -/

/-- `ht32f165x_get_flash_status`. -/
def ht32f165x_get_flash_status (A : Adapter) (w : World) : Int × Nat × World :=
  target_read_u32 A (FMC_REG_BASE + FMC_REG_OPCR) w

/-- `ht32f165x_wait_status_busy`: the `for (;;)` loop, one recursive call per
iteration; `timeout--` is the argument `timeout - 1` of the next iteration. -/
def ht32f165x_wait_status_busy (D : Decls) (A : Adapter) (timeout : Int) (w : World) :
    Int × World :=
  let r := ht32f165x_get_flash_status A w
  if r.1 ≠ D.ERROR_OK then (r.1, r.2.2)
  else if r.2.1 &&& FMC_OPM_MASK = FMC_FINISHED then (D.ERROR_OK, r.2.2)
  else if timeout ≤ 0 then (D.ERROR_FAIL, r.2.2)
  else ht32f165x_wait_status_busy D A (timeout - 1) (alive_sleep 10 r.2.2)
termination_by timeout.toNat
decreasing_by omega

/-! ## Erase -/

/-- The store `bank->sectors[i].is_erased = v`, where `s` is the entry at `i`. -/
def store_is_erased (i : Nat) (s : flash_sector) (v : Int) (w : World) : World :=
  { w with bank := { w.bank with sectors := w.bank.sectors.set i { s with is_erased := v } } }

/-- The body of the `for` loop of `ht32f165x_erase`, with loop variable `i`.
`++i` on `unsigned int` is `(i + 1) % 2 ^ 32`. One unit of fuel per loop test. -/
def erase_loop (D : Decls) (A : Adapter) : Nat → Nat → Nat → World → Outcome
  | 0, _, _, _ => Outcome.out_of_fuel
  | fuel + 1, i, last, w =>
    if i ≤ last then
      match w.bank.sectors[i]? with
      | none => Outcome.fault w
      | some s =>
        let r1 := target_write_u32 A (FMC_REG_BASE + FMC_REG_TADR) s.offset w
        if r1.1 ≠ D.ERROR_OK then Outcome.ret r1.1 r1.2
        else
          let r2 := target_write_u32 A (FMC_REG_BASE + FMC_REG_OCMR) FMC_CMD_PAGE_ERASE r1.2
          if r2.1 ≠ D.ERROR_OK then Outcome.ret r2.1 r2.2
          else
            let r3 := target_write_u32 A (FMC_REG_BASE + FMC_REG_OPCR) FMC_COMMIT r2.2
            if r3.1 ≠ D.ERROR_OK then Outcome.ret r3.1 r3.2
            else
              let r4 := ht32f165x_wait_status_busy D A FLASH_ERASE_TIMEOUT r3.2
              if r4.1 ≠ D.ERROR_OK then Outcome.ret r4.1 r4.2
              else
                erase_loop D A fuel ((i + 1) % 2 ^ 32) last (store_is_erased i s 1 r4.2)
    else Outcome.ret D.ERROR_OK w

/-- `ht32f165x_erase(bank, first, last)`. -/
def ht32f165x_erase (D : Decls) (A : Adapter) (fuel : Nat) (first last : Nat) (w : World) :
    Outcome :=
  if w.bank.target.state ≠ D.TARGET_HALTED then Outcome.ret D.ERROR_TARGET_NOT_HALTED w
  else erase_loop D A fuel first last w

/-! ## Word programming -/

/-- `ht32f165x_program_word(bank, addr, value)`. -/
def ht32f165x_program_word (D : Decls) (A : Adapter) (addr value : Nat) (w : World) :
    Int × World :=
  let r1 := target_write_u32 A (FMC_REG_BASE + FMC_REG_TADR) addr w
  if r1.1 ≠ D.ERROR_OK then r1
  else
    let r2 := target_write_u32 A (FMC_REG_BASE + FMC_REG_WRDR) value r1.2
    if r2.1 ≠ D.ERROR_OK then r2
    else
      let r3 := target_write_u32 A (FMC_REG_BASE + FMC_REG_OCMR) FMC_CMD_WORD_PROG r2.2
      if r3.1 ≠ D.ERROR_OK then r3
      else
        let r4 := target_write_u32 A (FMC_REG_BASE + FMC_REG_OPCR) FMC_COMMIT r3.2
        if r4.1 ≠ D.ERROR_OK then r4
        else
          let r5 := ht32f165x_wait_status_busy D A FLASH_ERASE_TIMEOUT r4.2
          if r5.1 ≠ D.ERROR_OK then r5
          else (D.ERROR_OK, r5.2)

/-! ## Option bytes -/

/-- The `for (int i = 0; i < 4; i++)` loop of `ht32f165x_protect` that programs
`ob_pp[i]` at `OPT_BYTE + (i << 2)` and breaks on the first error.  `retval` is
the value the variable has when the loop test is made. -/
def protect_pp_loop (D : Decls) (A : Adapter) (ob_pp : List Nat) (i : Nat) (retval : Int)
    (w : World) : Int × World :=
  if i < 4 then
    let r := ht32f165x_program_word D A (OPT_BYTE + (i <<< 2)) (ob_pp.getD i 0) w
    if r.1 ≠ D.ERROR_OK then r
    else protect_pp_loop D A ob_pp (i + 1) r.1 r.2
  else (retval, w)
termination_by 4 - i
decreasing_by omega

/-- The second half of `ht32f165x_protect`, from `ob_cp = ~(1 | 0 << 1)` to the end:
builds the option-byte image and programs it.  `retval` is the value the variable
holds on entry.  `~x` on 32 bits is `2 ^ 32 - 1 - x`; the sums are `uint32_t` sums. -/
def protect_program (D : Decls) (A : Adapter) (retval : Int) (w : World) : Int × World :=
  let ob_cp : Nat := (2 ^ 32 - 1) - (1 ||| (0 <<< 1))
  let ob_ck : Nat := ob_cp
  let ob_pp : List Nat := [0x00000000, 0xffffffff, 0xffffffff, 0xffffffff]
  let ob_ck : Nat :=
    (ob_ck + (((ob_pp.getD 0 0 + ob_pp.getD 1 0) % 2 ^ 32 + ob_pp.getD 2 0) % 2 ^ 32
      + ob_pp.getD 3 0) % 2 ^ 32) % 2 ^ 32
  let r5 := protect_pp_loop D A ob_pp 0 retval w
  let r6 :=
    if r5.1 = D.ERROR_OK then ht32f165x_program_word D A (OPT_BYTE + 0x10) ob_cp r5.2
    else r5
  let r7 :=
    if r6.1 = D.ERROR_OK then ht32f165x_program_word D A (OPT_BYTE + 0x20) ob_ck r6.2
    else r6
  if r7.1 = D.ERROR_OK then (D.ERROR_OK, r7.2)
  else (r7.1, r7.2)

/-- `ht32f165x_protect(bank, set, first, last)`: the state check, the read of CPSR,
the erase of the option-byte page, then `protect_program`. -/
def ht32f165x_protect (D : Decls) (A : Adapter) (set : Int) (_first _last : Nat) (w : World) :
    Int × World :=
  if w.bank.target.state ≠ D.TARGET_HALTED then (D.ERROR_TARGET_NOT_HALTED, w)
  else
    let r0 := target_read_u32 A (FMC_REG_BASE + FMC_REG_CPSR) w
    let security := r0.2.1
    if security &&& 1 = 0 ∨ set = 0 then (D.ERROR_FLASH_OPER_UNSUPPORTED, r0.2.2)
    else
      let r1 := target_write_u32 A (FMC_REG_BASE + FMC_REG_TADR) OPT_BYTE r0.2.2
      if r1.1 ≠ D.ERROR_OK then r1
      else
        let r2 := target_write_u32 A (FMC_REG_BASE + FMC_REG_OCMR) FMC_CMD_PAGE_ERASE r1.2
        if r2.1 ≠ D.ERROR_OK then r2
        else
          let r3 := target_write_u32 A (FMC_REG_BASE + FMC_REG_OPCR) FMC_COMMIT r2.2
          if r3.1 ≠ D.ERROR_OK then r3
          else
            let r4 := ht32f165x_wait_status_busy D A FLASH_ERASE_TIMEOUT r3.2
            if r4.1 ≠ D.ERROR_OK then r4
            else protect_program D A r4.1 r4.2

/-! ## Buffer write -/

/-- The body of the `for` loop of `ht32f165x_write`, with loop variable `i` and
the running address `addr`; both are `uint32_t`.  A byte is read as `uint8_t`
(`% 256`); reading beyond the buffer is a fault.  One unit of fuel per loop test. -/
def write_loop (D : Decls) (A : Adapter) (buffer : List Nat) (count : Nat) :
    Nat → Nat → Nat → World → Outcome
  | 0, _, _, _ => Outcome.out_of_fuel
  | fuel + 1, i, addr, w =>
    if i < count then
      match buffer[i]?, buffer[(i + 1) % 2 ^ 32]?, buffer[(i + 2) % 2 ^ 32]?,
          buffer[(i + 3) % 2 ^ 32]? with
      | some b0, some b1, some b2, some b3 =>
        let word : Nat :=
          (((b0 % 256) <<< 0) ||| ((b1 % 256) <<< 8) ||| ((b2 % 256) <<< 16) |||
            ((b3 % 256) <<< 24)) % 2 ^ 32
        let r1 := target_write_u32 A (FMC_REG_BASE + FMC_REG_TADR) addr w
        if r1.1 ≠ D.ERROR_OK then Outcome.ret r1.1 r1.2
        else
          let r2 := target_write_u32 A (FMC_REG_BASE + FMC_REG_WRDR) word r1.2
          if r2.1 ≠ D.ERROR_OK then Outcome.ret r2.1 r2.2
          else
            let r3 := target_write_u32 A (FMC_REG_BASE + FMC_REG_OCMR) FMC_CMD_WORD_PROG r2.2
            if r3.1 ≠ D.ERROR_OK then Outcome.ret r3.1 r3.2
            else
              let r4 := target_write_u32 A (FMC_REG_BASE + FMC_REG_OPCR) FMC_COMMIT r3.2
              if r4.1 ≠ D.ERROR_OK then Outcome.ret r4.1 r4.2
              else
                let r5 := ht32f165x_wait_status_busy D A FLASH_ERASE_TIMEOUT r4.2
                if r5.1 ≠ D.ERROR_OK then Outcome.ret r5.1 r5.2
                else write_loop D A buffer count fuel ((i + 4) % 2 ^ 32) ((addr + 4) % 2 ^ 32) r5.2
      | _, _, _, _ => Outcome.fault w
    else Outcome.ret D.ERROR_OK w

/-- `ht32f165x_write(bank, buffer, offset, count)`. -/
def ht32f165x_write (D : Decls) (A : Adapter) (fuel : Nat) (buffer : List Nat)
    (offset count : Nat) (w : World) : Outcome :=
  if w.bank.target.state ≠ D.TARGET_HALTED then Outcome.ret D.ERROR_TARGET_NOT_HALTED w
  else if offset &&& 0x3 ≠ 0 then Outcome.ret D.ERROR_FLASH_DST_BREAKS_ALIGNMENT w
  else if count &&& 0x3 ≠ 0 then Outcome.ret D.ERROR_FLASH_DST_BREAKS_ALIGNMENT w
  else write_loop D A buffer count fuel 0 offset w

/-! ## Inspection -/

/-- `ht32f165x_security_check`: three reads whose results are only logged. -/
def ht32f165x_security_check (D : Decls) (A : Adapter) (w : World) : Int × World :=
  let r1 := target_read_u32 A (FMC_REG_BASE + FMC_REG_CPSR) w
  let r2 := target_read_u32 A (OPT_BYTE + 0x10) r1.2.2
  let r3 := target_read_u32 A (OPT_BYTE + 0x20) r2.2.2
  (D.ERROR_OK, r3.2.2)

/-- The first loop of `ht32f165x_protect_check`: reads `ob_pp[i]` for `i < 4`. -/
def protect_check_read_loop (A : Adapter) (i : Nat) (ob_pp : List Nat) (w : World) :
    List Nat × World :=
  if i < 4 then
    let r := target_read_u32 A (FMC_REG_BASE + FMC_REG_PPSR + (i <<< 2)) w
    protect_check_read_loop A (i + 1) (ob_pp.set i r.2.1) r.2.2
  else (ob_pp, w)
termination_by 4 - i
decreasing_by omega

/-- The second loop of `ht32f165x_protect_check`: for `i < 128` stores
`is_protected` into `bank->sectors[i]`; an index outside the array is a fault. -/
def protect_check_set_loop (D : Decls) (ob_pp : List Nat) (i : Nat) (w : World) : Outcome :=
  if i < 128 then
    let index := i / (4 * 8)
    let offset := i % (4 * 8)
    let is_protected : Int := if (ob_pp.getD index 0) &&& (1 <<< offset) = 0 then 1 else 0
    match w.bank.sectors[i]? with
    | none => Outcome.fault w
    | some s =>
      protect_check_set_loop D ob_pp (i + 1)
        { w with bank :=
            { w.bank with sectors := w.bank.sectors.set i { s with is_protected := is_protected } } }
  else Outcome.ret D.ERROR_OK w
termination_by 128 - i
decreasing_by omega

/-- `ht32f165x_protect_check`. -/
def ht32f165x_protect_check (D : Decls) (A : Adapter) (w : World) : Outcome :=
  let r := protect_check_read_loop A 0 [0, 0, 0, 0] w
  let r1 := target_read_u32 A (FMC_REG_BASE + FMC_REG_CPSR) r.2
  protect_check_set_loop D r.1 0 r1.2.2

/-- `ht32f165x_check_security`: the return values of the two inspection calls
are discarded. -/
def ht32f165x_check_security (D : Decls) (A : Adapter) (w : World) : Outcome :=
  if w.bank.target.state ≠ D.TARGET_HALTED then Outcome.ret D.ERROR_TARGET_NOT_HALTED w
  else
    let r1 := ht32f165x_security_check D A w
    match ht32f165x_protect_check D A r1.2 with
    | Outcome.ret _ w2 => Outcome.ret D.ERROR_OK w2
    | Outcome.fault w2 => Outcome.fault w2
    | Outcome.out_of_fuel => Outcome.out_of_fuel

/-! ## Mass erase -/

/-- `ht32f165x_mass_erase`. -/
def ht32f165x_mass_erase (D : Decls) (A : Adapter) (w : World) : Int × World :=
  if w.bank.target.state ≠ D.TARGET_HALTED then (D.ERROR_TARGET_NOT_HALTED, w)
  else
    let r1 := target_write_u32 A (FMC_REG_BASE + FMC_REG_OCMR) FMC_CMD_MASS_ERASE w
    if r1.1 ≠ D.ERROR_OK then r1
    else
      let r2 := target_write_u32 A (FMC_REG_BASE + FMC_REG_OPCR) FMC_COMMIT r1.2
      if r2.1 ≠ D.ERROR_OK then r2
      else
        let r3 := ht32f165x_wait_status_busy D A FLASH_ERASE_TIMEOUT r2.2
        if r3.1 ≠ D.ERROR_OK then r3
        else (D.ERROR_OK, r3.2)

/-- The loop of `ht32f165x_handle_mass_erase_command` that stores `is_erased = 1`
into `bank->sectors[i]` for `i < bank->num_sectors`; `retval` is what the handler
returns after it.  `i` stays below `num_sectors`, an `unsigned int`, so `i++` does
not wrap.  An index outside the array is a fault. -/
def mass_erase_mark_loop (retval : Int) (i : Nat) (w : World) : Outcome :=
  if i < w.bank.num_sectors then
    match w.bank.sectors[i]? with
    | none => Outcome.fault w
    | some s => mass_erase_mark_loop retval (i + 1) (store_is_erased i s 1 w)
  else Outcome.ret retval w
termination_by w.bank.num_sectors - i
decreasing_by
  simp only [store_is_erased]
  omega

/-- `ht32f165x_handle_mass_erase_command`.  `CMD_ARGC` is the argument count and
`get_bank` the return code of `flash_command_get_bank`, which hands over the bank
of the world. -/
def ht32f165x_handle_mass_erase_command (D : Decls) (A : Adapter) (CMD_ARGC : Nat)
    (get_bank : Int) (w : World) : Outcome :=
  if CMD_ARGC < 1 then Outcome.ret D.ERROR_COMMAND_SYNTAX_ERROR w
  else if get_bank ≠ D.ERROR_OK then Outcome.ret get_bank w
  else
    let r := ht32f165x_mass_erase D A w
    if r.1 = D.ERROR_OK then mass_erase_mark_loop r.1 0 r.2
    else Outcome.ret r.1 r.2

/-! ## Probe -/

/-- The stores of the first loop of `ht32f165x_probe` into `bank->sectors[i]`:
`offset = i * page_size` (an `int` product stored into a `uint32_t`),
`size = page_size`, `is_erased = -1`, `is_protected = 1`. -/
def probed_sector (page_size i : Nat) : flash_sector :=
  { offset := (i * page_size) % 2 ^ 32, size := page_size, is_erased := -1, is_protected := 1 }

/-- The first loop of `ht32f165x_probe` writing `bank->sectors[i]`. -/
def store_probed_sector (page_size i : Nat) (w : World) : World :=
  { w with bank := { w.bank with sectors := w.bank.sectors.set i (probed_sector page_size i) } }

/-- `ht32f165x_probe` from its first loop on: the loop over `i < num_pages`, then the
call of `ht32f165x_protect_check`, whose return value is discarded, and
`return ERROR_OK`.  An index outside the array is a fault. -/
def probe_loop (D : Decls) (A : Adapter) (page_size num_pages : Nat) (i : Nat) (w : World) :
    Outcome :=
  if i < num_pages then
    match w.bank.sectors[i]? with
    | none => Outcome.fault w
    | some _ => probe_loop D A page_size num_pages (i + 1) (store_probed_sector page_size i w)
  else
    match ht32f165x_protect_check D A w with
    | Outcome.ret _ w1 => Outcome.ret D.ERROR_OK w1
    | Outcome.fault w1 => Outcome.fault w1
    | Outcome.out_of_fuel => Outcome.out_of_fuel
termination_by num_pages - i
decreasing_by omega

/-- `ht32f165x_probe`.  The old sector array is dropped; `malloc` is taken to
succeed and to hand out `num_pages` entries, here zero-filled (the loop overwrites
every field before anything reads it). -/
def ht32f165x_probe (D : Decls) (A : Adapter) (w : World) : Outcome :=
  let page_size : Nat := 1024
  let num_pages : Nat := w.bank.size / page_size
  probe_loop D A page_size num_pages 0
    { w with bank :=
        { w.bank with
          base := 0x0
          num_sectors := num_pages
          sectors := List.replicate num_pages (flash_sector.mk 0 0 0 0) } }

/-- `ht32f165x_auto_probe`. -/
def ht32f165x_auto_probe (D : Decls) (A : Adapter) (w : World) : Outcome :=
  ht32f165x_probe D A w

/-! ## Vocabulary of the specification -/

/-- Absolute address of the target-address register TADR. -/
def TADR : Nat := 0x40080000
/-- Absolute address of the write-data register WRDR. -/
def WRDR : Nat := 0x40080004
/-- Absolute address of the opcode register OCMR. -/
def OCMR : Nat := 0x4008000C
/-- Absolute address of the operation-control register OPCR. -/
def OPCR : Nat := 0x40080010
/-- Absolute address of the config/security status register CPSR. -/
def CPSR : Nat := 0x40080030

/-- The n-th register read of the run succeeds and shows the operation-mode
field (bits 1 to 4) equal to the finished encoding `0xE`. -/
def poll_finished (D : Decls) (A : Adapter) (n : Nat) : Prop :=
  (A.read_result n).1 = D.ERROR_OK ∧ (A.read_result n).2 &&& 0x1E = 0x1C

/-- The n-th register read of the run succeeds and shows an operation-mode field
different from the finished encoding. -/
def poll_busy (D : Decls) (A : Adapter) (n : Nat) : Prop :=
  (A.read_result n).1 = D.ERROR_OK ∧ (A.read_result n).2 &&& 0x1E ≠ 0x1C

/-- The register writes of a trace, in order, without reads and sleeps. -/
def writes_of (tr : List Access) : List (Nat × Nat) :=
  tr.filterMap (fun a => match a with
    | Access.write address value => some (address, value)
    | _ => none)

/-- Word number `k` of a buffer read as little-endian 32-bit words. -/
def le_word (buffer : List Nat) (k : Nat) : Nat :=
  buffer.getD (4 * k) 0 ||| buffer.getD (4 * k + 1) 0 <<< 8 |||
    buffer.getD (4 * k + 2) 0 <<< 16 ||| buffer.getD (4 * k + 3) 0 <<< 24

/-- Register traffic of one word-program sequence whose poll finishes at once:
TADR, WRDR, OCMR <- 4, OPCR <- 0x14, then one status read. -/
def word_program_sequence (addr value : Nat) : List Access :=
  [Access.write TADR addr, Access.write WRDR value, Access.write OCMR 4,
    Access.write OPCR 0x14, Access.read OPCR]

/-- Register traffic of one page-erase sequence whose poll finishes at once:
TADR, OCMR <- 8, OPCR <- 0x14, then one status read. -/
def page_erase_sequence (addr : Nat) : List Access :=
  [Access.write TADR addr, Access.write OCMR 8, Access.write OPCR 0x14, Access.read OPCR]

/-- Register traffic of `n` polling rounds that did not see finished: a status
read and a 10 ms sleep each. -/
def busy_rounds (n : Nat) : List Access :=
  (List.replicate n [Access.read OPCR, Access.sleep 10]).flatten

/-- The values written to TADR in a trace, in order. -/
def tadr_values (tr : List Access) : List Nat :=
  tr.filterMap (fun a => match a with
    | Access.write address value => if address = TADR then some value else none
    | _ => none)

/-- The `offset` field of sector `i` of a bank (0 outside the array). -/
def sector_offset (b : flash_bank) (i : Nat) : Nat :=
  match b.sectors[i]? with
  | some s => s.offset
  | none => 0

/-- The page-erase command that `ht32f165x_erase` and `ht32f165x_protect` both
write out inline: TADR, OCMR, OPCR and the poll, stopping at the first return
code that is not `ERROR_OK`. -/
def page_erase_command (D : Decls) (A : Adapter) (addr : Nat) (w : World) : Int × World :=
  let r1 := target_write_u32 A (FMC_REG_BASE + FMC_REG_TADR) addr w
  if r1.1 ≠ D.ERROR_OK then r1
  else
    let r2 := target_write_u32 A (FMC_REG_BASE + FMC_REG_OCMR) FMC_CMD_PAGE_ERASE r1.2
    if r2.1 ≠ D.ERROR_OK then r2
    else
      let r3 := target_write_u32 A (FMC_REG_BASE + FMC_REG_OPCR) FMC_COMMIT r2.2
      if r3.1 ≠ D.ERROR_OK then r3
      else ht32f165x_wait_status_busy D A FLASH_ERASE_TIMEOUT r3.2

/-- Registers of the flash controller that a word-program command reads. -/
structure Fmc where
  tadr : Nat
  wrdr : Nat
  ocmr : Nat

/-- Device model over a list of register writes (address, value): TADR, WRDR and
OCMR latch the value written; writing the commit pattern 0x14 to OPCR while OCMR
holds the word-program opcode 4 programs the word in WRDR at the address in TADR.
The result lists the programmed (address, word) pairs in order. -/
def fmc_programmed : Fmc → List (Nat × Nat) → List (Nat × Nat)
  | _, [] => []
  | st, (address, value) :: rest =>
    if address = TADR then fmc_programmed { st with tadr := value } rest
    else if address = WRDR then fmc_programmed { st with wrdr := value } rest
    else if address = OCMR then fmc_programmed { st with ocmr := value } rest
    else if address = OPCR ∧ value = 0x14 ∧ st.ocmr = 4 then
      (st.tadr, st.wrdr) :: fmc_programmed st rest
    else fmc_programmed st rest

/-- The word last programmed at `addr` by a list of register writes, if any. -/
def word_programmed_at (ws : List (Nat × Nat)) (addr : Nat) : Option Nat :=
  ((fmc_programmed { tadr := 0, wrdr := 0, ocmr := 0 } ws).reverse.find?
    (fun p => p.1 = addr)).map (fun p => p.2)

/-- The register writes of a successful `enable_security` run as the specification
lists them: page erase at the option-byte base 0x1FF00000, then the four
protection words at base + 0, 4, 8, 12, the config word at base + 0x10 and the
checksum word at base + 0x20. -/
def option_byte_writes (pp0 pp1 pp2 pp3 cp ck : Nat) : List (Nat × Nat) :=
  [(TADR, 0x1FF00000), (OCMR, 8), (OPCR, 0x14),
   (TADR, 0x1FF00000), (WRDR, pp0), (OCMR, 4), (OPCR, 0x14),
   (TADR, 0x1FF00004), (WRDR, pp1), (OCMR, 4), (OPCR, 0x14),
   (TADR, 0x1FF00008), (WRDR, pp2), (OCMR, 4), (OPCR, 0x14),
   (TADR, 0x1FF0000C), (WRDR, pp3), (OCMR, 4), (OPCR, 0x14),
   (TADR, 0x1FF00010), (WRDR, cp), (OCMR, 4), (OPCR, 0x14),
   (TADR, 0x1FF00020), (WRDR, ck), (OCMR, 4), (OPCR, 0x14)]

/-- Register traffic of an `enable_security` run in which nothing fails and every
poll finishes at once: the read of CPSR, the page erase of the option-byte page,
the four protection words, the config word `cp` and the checksum word `ck`. -/
def enable_security_traffic (cp ck : Nat) : List Access :=
  [Access.read CPSR] ++ page_erase_sequence 0x1FF00000 ++
    word_program_sequence 0x1FF00000 0x00000000 ++
    word_program_sequence 0x1FF00004 0xFFFFFFFF ++
    word_program_sequence 0x1FF00008 0xFFFFFFFF ++
    word_program_sequence 0x1FF0000C 0xFFFFFFFF ++
    word_program_sequence 0x1FF00010 cp ++
    word_program_sequence 0x1FF00020 ck

/-- Absolute address of the first page-protection status register PPSR. -/
def PPSR : Nat := 0x40080020

/-- The protected flag that the protection bitmap word `p` gives the sector whose
bit is `bit`: 1 when the bit is 0, 0 when the bit is 1. -/
def protected_flag (p bit : Nat) : Int :=
  if p.testBit bit then 0 else 1

/-- The store `bank->sectors[i].is_protected = v`, where `s` is the entry at `i`. -/
def store_is_protected (i : Nat) (s : flash_sector) (v : Int) (w : World) : World :=
  { w with bank := { w.bank with sectors := w.bank.sectors.set i { s with is_protected := v } } }

/-- Register reads of `protect_check`: the four protection words, then CPSR. -/
def protect_check_reads : List Access :=
  [Access.read PPSR, Access.read (PPSR + 4), Access.read (PPSR + 8), Access.read (PPSR + 12),
    Access.read CPSR]

/-- The four register writes of one word-program command, in order. -/
def word_program_writes (addr value : Nat) : List Access :=
  [Access.write TADR addr, Access.write WRDR value, Access.write OCMR 4, Access.write OPCR 0x14]

/-- The words of a write of `n` words at `offset`: word `k` goes to the 32-bit
address `offset + 4k` and is little-endian word `k` of the buffer. -/
def buffer_words (buffer : List Nat) (offset n : Nat) : List (Nat × Nat) :=
  (List.range n).map (fun k => ((offset + 4 * k) % 2 ^ 32, le_word buffer k))

/-- The specification of the write engine: call `program_word` on each (address,
word) pair in turn and stop at the first call that does not return `ERROR_OK`. -/
def program_words (D : Decls) (A : Adapter) : List (Nat × Nat) → World → Int × World
  | [], w => (D.ERROR_OK, w)
  | (addr, value) :: rest, w =>
    if (ht32f165x_program_word D A addr value w).1 ≠ D.ERROR_OK then
      ht32f165x_program_word D A addr value w
    else program_words D A rest (ht32f165x_program_word D A addr value w).2

/-- The four bytes of the little-endian encoding of a 32-bit word. -/
def le_bytes (word : Nat) : List Nat :=
  [word % 256, (word >>> 8) % 256, (word >>> 16) % 256, (word >>> 24) % 256]

/-- The option-byte image as (address, word) pairs in programming order: pp0 .. pp3
at base + 0, 4, 8, 12, the config word at base + 0x10, the checksum at base + 0x20. -/
def option_byte_words : List (Nat × Nat) :=
  [(0x1FF00000, 0x00000000), (0x1FF00004, 0xFFFFFFFF), (0x1FF00008, 0xFFFFFFFF),
    (0x1FF0000C, 0xFFFFFFFF), (0x1FF00010, 0xFFFFFFFE), (0x1FF00020, 0xFFFFFFFB)]

/-- Number of register reads in a trace. -/
def reads_in (tr : List Access) : Nat :=
  (tr.filter (fun a => match a with
    | Access.read _ => true
    | _ => false)).length

/-- Number of sleeps in a trace. -/
def sleeps_in (tr : List Access) : Nat :=
  (tr.filter (fun a => match a with
    | Access.sleep _ => true
    | _ => false)).length

/-- The four register writes of one word-program command as (address, value) pairs. -/
def word_program_pairs (p : Nat × Nat) : List (Nat × Nat) :=
  [(TADR, p.1), (WRDR, p.2), (OCMR, 4), (OPCR, 0x14)]

/-- The world right after the read of CPSR that `ht32f165x_protect` starts with. -/
def after_cpsr_read (w : World) : World :=
  { w with trace := w.trace ++ [Access.read CPSR], reads := w.reads + 1 }

/-- The three register writes of a page-erase command as (address, value) pairs. -/
def page_erase_pairs (addr : Nat) : List (Nat × Nat) :=
  [(TADR, addr), (OCMR, 8), (OPCR, 0x14)]

/-- The three register writes of one page-erase command, in order. -/
def page_erase_writes (addr : Nat) : List Access :=
  [Access.write TADR addr, Access.write OCMR 8, Access.write OPCR 0x14]

/-- Register traffic of one poll that observes finished after `n` rounds that did
not: `n` times a status read and a 10 ms sleep, then the status read that shows
finished. -/
def poll_traffic (n : Nat) : List Access :=
  busy_rounds n ++ [Access.read OPCR]

/-- Number of the register read with which poll number `k` of a run begins, when the
first poll begins at read `start` and poll number `j` takes `busy j` rounds that do
not show finished and one read that does. -/
def poll_start (busy : Nat → Nat) (start : Nat) : Nat → Nat
  | 0 => start
  | k + 1 => poll_start busy start k + (busy k + 1)

/-- Each of the `m` polls of a run observes finished: poll number `k` makes `busy k`
successful status reads that do not show finished, `busy k` being at most the timeout
1000, and then a successful read that shows finished. -/
def polls_observe_finished (D : Decls) (A : Adapter) (busy : Nat → Nat) (start m : Nat) :
    Prop :=
  ∀ k, k < m →
    busy k ≤ 1000 ∧
    (∀ i, i < busy k → poll_busy D A (poll_start busy start k + i)) ∧
    poll_finished D A (poll_start busy start k + busy k)

/-! ## Sample inputs for concrete runs -/

/-- A sample assignment of the header constants. -/
def sample_decls : Decls :=
  { ERROR_OK := 0
    ERROR_FAIL := -4
    ERROR_TARGET_NOT_HALTED := -304
    ERROR_FLASH_DST_BREAKS_ALIGNMENT := -904
    ERROR_FLASH_OPER_UNSUPPORTED := -908
    ERROR_COMMAND_SYNTAX_ERROR := -601
    TARGET_HALTED := 2 }

/-- An adapter on which every write succeeds and every read succeeds with the
value `0x1D`: operation mode finished, bit 0 set. -/
def ready_adapter : Adapter :=
  { write_result := fun _ => 0
    read_result := fun _ => (0, 0x1D) }

/-- An adapter on which every write succeeds and every read succeeds; the status
shows operation mode 0 on the first 1000 reads and finished from the 1001st on. -/
def late_adapter : Adapter :=
  { write_result := fun _ => 0
    read_result := fun n => if n < 1000 then (0, 0) else (0, 0x1C) }

/-- A bank of four 1024-byte sectors on a target in state `state`. -/
def sample_bank (state : Nat) : flash_bank :=
  { target := { state := state }
    base := 0
    size := 4096
    num_sectors := 4
    sectors :=
      [{ offset := 0, size := 1024, is_erased := -1, is_protected := 0 },
       { offset := 1024, size := 1024, is_erased := -1, is_protected := 0 },
       { offset := 2048, size := 1024, is_erased := -1, is_protected := 0 },
       { offset := 3072, size := 1024, is_erased := -1, is_protected := 0 }] }

/-- The sample bank on a halted target, before any register traffic. -/
def halted_world : World :=
  { bank := sample_bank 2, trace := [], writes := 0, reads := 0 }

/-- The sample bank on a running target, before any register traffic. -/
def running_world : World :=
  { bank := sample_bank 1, trace := [], writes := 0, reads := 0 }

/-- A bank of 4096 bytes that has not been probed yet: no sector array. -/
def unprobed_world : World :=
  { bank := { target := { state := 2 }, base := 0, size := 4096, num_sectors := 0, sectors := [] }
    trace := []
    writes := 0
    reads := 0 }

/-- An adapter whose reads succeed with the value 0xFFFFFFFD: every bit set except
bit 1, so the operation-mode field is finished and all other bits are 1. -/
def noisy_adapter : Adapter :=
  { write_result := fun _ => 0
    read_result := fun _ => (0, 0xFFFFFFFD) }

/-- An adapter whose reads all fail with code -4 and leave the finished pattern
in the value. -/
def failing_read_adapter : Adapter :=
  { write_result := fun _ => 0
    read_result := fun _ => (-4, 0x1C) }

/-- An adapter on which the sixth register write (number 5) fails with code -4 and
every other access succeeds, reads showing 0x1D. -/
def sixth_write_failing_adapter : Adapter :=
  { write_result := fun n => if n = 5 then -4 else 0
    read_result := fun _ => (0, 0x1D) }

/-- An adapter on which the first register write fails with code -4. -/
def first_write_failing_adapter : Adapter :=
  { write_result := fun n => if n = 0 then -4 else 0
    read_result := fun _ => (0, 0x1D) }

/-- An adapter on which every access succeeds and the status alternates: the reads
with an even number show 0x15 (operation mode 0xA, the commit pattern, bit 0 set) and
the reads with an odd number show 0x1D (finished, bit 0 set). -/
def busy_once_adapter : Adapter :=
  { write_result := fun _ => 0
    read_result := fun n => if n % 2 = 0 then (0, 0x15) else (0, 0x1D) }

/-! ## Lists -/

theorem range_succ_flatMap {α : Type} (m : Nat) (f : Nat → List α) :
    (List.range (m + 1)).flatMap f = f 0 ++ (List.range m).flatMap (fun k => f (k + 1)) := by
  rw [List.range_succ_eq_map]
  simp [List.flatMap, List.map_map, Function.comp_def]

/-! ## The status poller -/

theorem wait_unfold (D : Decls) (A : Adapter) (timeout : Int) (w : World) :
    ht32f165x_wait_status_busy D A timeout w =
      if (A.read_result w.reads).1 ≠ D.ERROR_OK then
        ((A.read_result w.reads).1,
          { w with trace := w.trace ++ [Access.read OPCR], reads := w.reads + 1 })
      else if (A.read_result w.reads).2 &&& 0x1E = 0x1C then
        (D.ERROR_OK, { w with trace := w.trace ++ [Access.read OPCR], reads := w.reads + 1 })
      else if timeout ≤ 0 then
        (D.ERROR_FAIL, { w with trace := w.trace ++ [Access.read OPCR], reads := w.reads + 1 })
      else
        ht32f165x_wait_status_busy D A (timeout - 1)
          { w with trace := w.trace ++ [Access.read OPCR, Access.sleep 10],
                   reads := w.reads + 1 } := by
  rw [ht32f165x_wait_status_busy]
  simp [ht32f165x_get_flash_status, target_read_u32, alive_sleep, OPCR, FMC_REG_BASE,
    FMC_REG_OPCR, FMC_OPM_MASK, FMC_FINISHED]

/-- A poll whose first read shows finished is that single read. -/
theorem wait_finished_first (D : Decls) (A : Adapter) (timeout : Int) (w : World)
    (h : poll_finished D A w.reads) :
    ht32f165x_wait_status_busy D A timeout w =
      (D.ERROR_OK, { w with trace := w.trace ++ [Access.read OPCR], reads := w.reads + 1 }) := by
  rw [wait_unfold]
  simp [h.1, h.2]

theorem busy_rounds_succ (n : Nat) :
    busy_rounds (n + 1) = [Access.read OPCR, Access.sleep 10] ++ busy_rounds n := by
  simp [busy_rounds, List.replicate_succ]

/-- A poll that sees `n` busy reads and then finished, with `n` not above the
timeout, succeeds after `n + 1` reads and `n` sleeps. -/
theorem wait_busy_then_finished (D : Decls) (A : Adapter) :
    ∀ (n : Nat) (timeout : Int) (w : World),
      (n : Int) ≤ timeout →
      (∀ k, k < n → poll_busy D A (w.reads + k)) →
      poll_finished D A (w.reads + n) →
      ht32f165x_wait_status_busy D A timeout w =
        (D.ERROR_OK,
          { w with
            trace := w.trace ++ busy_rounds n ++ [Access.read OPCR]
            reads := w.reads + n + 1 }) := by
  intro n
  induction n with
  | zero =>
    intro timeout w _ _ hfin
    rw [wait_finished_first D A timeout w (by simpa using hfin)]
    simp [busy_rounds]
  | succ n ih =>
    intro timeout w hle hbusy hfin
    have hb := hbusy 0 (by omega)
    simp only [Nat.add_zero] at hb
    rw [wait_unfold, if_neg (by simp [hb.1]), if_neg hb.2, if_neg (by omega)]
    rw [ih (timeout - 1) _ (by omega)
      (fun k hk => by have := hbusy (k + 1) (by omega); simpa [Nat.add_assoc, Nat.add_comm 1 k] using this)
      (by simpa [Nat.add_assoc, Nat.add_comm 1 n] using hfin)]
    simp [busy_rounds_succ, Nat.add_assoc, Nat.add_comm 1 n]

/-- A poll that sees only busy reads fails with `ERROR_FAIL` after `timeout + 1`
reads and `timeout` sleeps. -/
theorem wait_times_out (D : Decls) (A : Adapter) :
    ∀ (n : Nat) (w : World),
      (∀ k, k ≤ n → poll_busy D A (w.reads + k)) →
      ht32f165x_wait_status_busy D A (n : Int) w =
        (D.ERROR_FAIL,
          { w with
            trace := w.trace ++ busy_rounds n ++ [Access.read OPCR]
            reads := w.reads + n + 1 }) := by
  intro n
  induction n with
  | zero =>
    intro w hbusy
    have hb := hbusy 0 (by omega)
    simp only [Nat.add_zero] at hb
    rw [wait_unfold, if_neg (by simp [hb.1]), if_neg hb.2, if_pos (by simp)]
    simp [busy_rounds]
  | succ n ih =>
    intro w hbusy
    have hb := hbusy 0 (by omega)
    simp only [Nat.add_zero] at hb
    rw [wait_unfold, if_neg (by simp [hb.1]), if_neg hb.2, if_neg (by omega)]
    have e : ((n + 1 : Nat) : Int) - 1 = (n : Int) := by omega
    rw [e, ih _
      (fun k hk => by have := hbusy (k + 1) (by omega); simpa [Nat.add_assoc, Nat.add_comm 1 k] using this)]
    simp [busy_rounds_succ, Nat.add_assoc, Nat.add_comm 1 n]

/-- A poll changes neither the bank nor the write counter, and adds no register
write to the trace. -/
theorem wait_frame (D : Decls) (A : Adapter) :
    ∀ (n : Nat) (timeout : Int) (w : World), timeout.toNat = n →
      (ht32f165x_wait_status_busy D A timeout w).2.bank = w.bank ∧
      (ht32f165x_wait_status_busy D A timeout w).2.writes = w.writes ∧
      ∃ ext, (ht32f165x_wait_status_busy D A timeout w).2.trace = w.trace ++ ext ∧
        writes_of ext = [] := by
  intro n
  induction n with
  | zero =>
    intro timeout w ht
    have hle : timeout ≤ 0 := by omega
    rw [wait_unfold]
    split_ifs <;> exact ⟨rfl, rfl, [Access.read OPCR], rfl, rfl⟩
  | succ n ih =>
    intro timeout w ht
    rw [wait_unfold]
    split_ifs with h1 h2 h3
    · exact ⟨rfl, rfl, [Access.read OPCR], rfl, rfl⟩
    · exact ⟨rfl, rfl, [Access.read OPCR], rfl, rfl⟩
    · exact ⟨rfl, rfl, [Access.read OPCR], rfl, rfl⟩
    · obtain ⟨hb, hwr, ext, htr, hext⟩ := ih (timeout - 1)
        { w with trace := w.trace ++ [Access.read OPCR, Access.sleep 10], reads := w.reads + 1 }
        (by omega)
      refine ⟨hb, hwr, [Access.read OPCR, Access.sleep 10] ++ ext, ?_, ?_⟩
      · rw [htr]; simp
      · simpa [writes_of] using hext

/-- Every read of the sample adapter succeeds and shows finished. -/
theorem ready_adapter_finished (n : Nat) : poll_finished sample_decls ready_adapter n :=
  ⟨rfl, by show (29 : Nat) &&& 30 = 28; decide⟩

/-! ## Word programming -/

/-- A word-program sequence all of whose four writes succeed and whose poll
finishes at the first read returns success after exactly that traffic. -/
theorem program_word_ok (D : Decls) (A : Adapter) (addr value : Nat) (w : World)
    (hw : ∀ n, w.writes ≤ n → n < w.writes + 4 → A.write_result n = D.ERROR_OK)
    (hp : poll_finished D A w.reads) :
    ht32f165x_program_word D A addr value w =
      (D.ERROR_OK,
        { w with
          trace := w.trace ++ word_program_sequence addr value
          writes := w.writes + 4
          reads := w.reads + 1 }) := by
  have h0 := hw w.writes (by omega) (by omega)
  have h1 := hw (w.writes + 1) (by omega) (by omega)
  have h2 := hw (w.writes + 1 + 1) (by omega) (by omega)
  have h3 := hw (w.writes + 1 + 1 + 1) (by omega) (by omega)
  simp only [ht32f165x_program_word, target_write_u32, h0, h1, h2, h3, ne_eq, not_true_eq_false,
    if_false]
  rw [wait_finished_first D A _ _ (by simpa using hp)]
  simp [word_program_sequence, TADR, WRDR, OCMR, OPCR, FMC_REG_BASE, FMC_REG_TADR,
    FMC_REG_WRDR, FMC_REG_OCMR, FMC_REG_OPCR, FMC_CMD_WORD_PROG, FMC_COMMIT]

/-! ## Page erase -/

/-- One iteration of the loop of `ht32f165x_erase` is one page-erase command at
the sector's offset, followed on success by the store to `is_erased`. -/
theorem erase_loop_step (D : Decls) (A : Adapter) (fuel i last : Nat) (w : World) :
    erase_loop D A (fuel + 1) i last w =
      if i ≤ last then
        match w.bank.sectors[i]? with
        | none => Outcome.fault w
        | some s =>
          let r := page_erase_command D A s.offset w
          if r.1 ≠ D.ERROR_OK then Outcome.ret r.1 r.2
          else
            erase_loop D A fuel ((i + 1) % 2 ^ 32) last (store_is_erased i s 1 r.2)
      else Outcome.ret D.ERROR_OK w := by
  rw [erase_loop]
  split
  · split
    · rfl
    · simp only [page_erase_command]
      split_ifs <;> simp_all
  · rfl

/-- A page-erase command whose three writes succeed and whose poll finishes at
the first read returns success after exactly that traffic. -/
theorem page_erase_command_ok (D : Decls) (A : Adapter) (addr : Nat) (w : World)
    (hw : ∀ n, w.writes ≤ n → n < w.writes + 3 → A.write_result n = D.ERROR_OK)
    (hp : poll_finished D A w.reads) :
    page_erase_command D A addr w =
      (D.ERROR_OK,
        { w with
          trace := w.trace ++ page_erase_sequence addr
          writes := w.writes + 3
          reads := w.reads + 1 }) := by
  have h0 := hw w.writes (by omega) (by omega)
  have h1 := hw (w.writes + 1) (by omega) (by omega)
  have h2 := hw (w.writes + 1 + 1) (by omega) (by omega)
  simp only [page_erase_command, target_write_u32, h0, h1, h2, ne_eq, not_true_eq_false,
    if_false]
  rw [wait_finished_first D A _ _ (by simpa using hp)]
  simp [page_erase_sequence, TADR, OCMR, OPCR, FMC_REG_BASE, FMC_REG_TADR,
    FMC_REG_OCMR, FMC_REG_OPCR, FMC_CMD_PAGE_ERASE, FMC_COMMIT]

theorem tadr_values_append (a b : List Access) :
    tadr_values (a ++ b) = tadr_values a ++ tadr_values b := by
  simp [tadr_values, List.filterMap_append]

theorem tadr_values_of_no_writes (ext : List Access) (h : writes_of ext = []) :
    tadr_values ext = [] := by
  induction ext with
  | nil => rfl
  | cons a t ih =>
    cases a with
    | read address => simpa [tadr_values, writes_of] using ih (by simpa [writes_of] using h)
    | write address value => simp [writes_of] at h
    | sleep ms => simpa [tadr_values, writes_of] using ih (by simpa [writes_of] using h)

/-- Whatever the adapter answers, a page-erase command leaves the bank alone and
writes TADR exactly once, with the given address. -/
theorem page_erase_command_frame (D : Decls) (A : Adapter) (addr : Nat) (w : World) :
    (page_erase_command D A addr w).2.bank = w.bank ∧
      ∃ ext, (page_erase_command D A addr w).2.trace = w.trace ++ ext ∧
        tadr_values ext = [addr] := by
  simp only [page_erase_command]
  split_ifs with h1 h2 h3
  · exact ⟨rfl, [Access.write TADR addr], rfl, by simp [tadr_values]⟩
  · exact ⟨rfl, [Access.write TADR addr, Access.write OCMR 8], by
      simp [target_write_u32, TADR, OCMR, FMC_REG_BASE, FMC_REG_TADR, FMC_REG_OCMR,
        FMC_CMD_PAGE_ERASE], by simp [tadr_values, TADR, OCMR]⟩
  · exact ⟨rfl, [Access.write TADR addr, Access.write OCMR 8, Access.write OPCR 0x14], by
      simp [target_write_u32, TADR, OCMR, OPCR, FMC_REG_BASE, FMC_REG_TADR, FMC_REG_OCMR,
        FMC_REG_OPCR, FMC_CMD_PAGE_ERASE, FMC_COMMIT], by simp [tadr_values, TADR, OCMR, OPCR]⟩
  · obtain ⟨hb, _, ext, htr, hext⟩ := wait_frame D A _ FLASH_ERASE_TIMEOUT
      (target_write_u32 A (FMC_REG_BASE + FMC_REG_OPCR) FMC_COMMIT
        (target_write_u32 A (FMC_REG_BASE + FMC_REG_OCMR) FMC_CMD_PAGE_ERASE
          (target_write_u32 A (FMC_REG_BASE + FMC_REG_TADR) addr w).2).2).2 rfl
    refine ⟨by rw [hb]; rfl,
      [Access.write TADR addr, Access.write OCMR 8, Access.write OPCR 0x14] ++ ext, ?_, ?_⟩
    · rw [htr]
      simp [target_write_u32, TADR, OCMR, OPCR, FMC_REG_BASE, FMC_REG_TADR, FMC_REG_OCMR,
        FMC_REG_OPCR, FMC_CMD_PAGE_ERASE, FMC_COMMIT]
    · rw [tadr_values_append, tadr_values_of_no_writes ext hext]
      simp [tadr_values, TADR, OCMR, OPCR]

theorem sector_offset_set (b : flash_bank) (i k : Nat) (s : flash_sector) (h : i ≠ k) :
    sector_offset { b with sectors := b.sectors.set i s } k = sector_offset b k := by
  simp [sector_offset, List.getElem?_set_ne h]

/-- Loop invariant of `ht32f165x_erase` for an arbitrary adapter.  From index `i`
with `m` sectors left, the loop returns; `j` is the index it stopped at (`last + 1`
exactly when it returns `ERROR_OK`), the sectors in `[i, j)` have `is_erased = 1`,
all else in the bank is as before, and TADR was written once for each of the
sectors `i .. min j last`. -/
theorem erase_loop_effect (D : Decls) (A : Adapter) (last : Nat) (hlast : last + 1 < 2 ^ 32) :
    ∀ (m fuel i : Nat) (w : World), i + m = last + 1 → m < fuel →
      last < w.bank.sectors.length →
      ∃ rv w1 j, erase_loop D A fuel i last w = Outcome.ret rv w1 ∧
        i ≤ j ∧ j ≤ last + 1 ∧ (rv = D.ERROR_OK ↔ j = last + 1) ∧
        w1.bank = { w.bank with sectors := w1.bank.sectors } ∧
        w1.bank.sectors.length = w.bank.sectors.length ∧
        (∀ k, w1.bank.sectors[k]? =
          if i ≤ k ∧ k < j then (w.bank.sectors[k]?).map (fun s => { s with is_erased := 1 })
          else w.bank.sectors[k]?) ∧
        ∃ ext, w1.trace = w.trace ++ ext ∧
          tadr_values ext =
            (List.range (min (j + 1) (last + 1) - i)).map (fun k => sector_offset w.bank (i + k)) := by
  intro m
  induction m with
  | zero =>
    intro fuel i w him hfuel _
    obtain ⟨fuel, rfl⟩ : ∃ f, fuel = f + 1 := ⟨fuel - 1, by omega⟩
    refine ⟨D.ERROR_OK, w, i, ?_, le_refl _, by omega, by simp; omega, rfl, rfl, ?_,
      [], by simp, ?_⟩
    · rw [erase_loop_step, if_neg (by omega)]
    · intro k
      rw [if_neg (by omega)]
    · have : min (i + 1) (last + 1) - i = 0 := by omega
      rw [this]; rfl
  | succ m ih =>
    intro fuel i w him hfuel hlen
    obtain ⟨fuel, rfl⟩ : ∃ f, fuel = f + 1 := ⟨fuel - 1, by omega⟩
    have hi : i < w.bank.sectors.length := by omega
    obtain ⟨hbank, ext1, htr1, htadr1⟩ :=
      page_erase_command_frame D A (w.bank.sectors[i]).offset w
    have hoff : sector_offset w.bank i = (w.bank.sectors[i]).offset := by
      simp [sector_offset, List.getElem?_eq_getElem hi]
    rw [erase_loop_step, if_pos (by omega), List.getElem?_eq_getElem hi]
    simp only
    by_cases hr : (page_erase_command D A (w.bank.sectors[i]).offset w).1 = D.ERROR_OK
    · rw [if_neg (by simp [hr]), Nat.mod_eq_of_lt (by omega)]
      obtain ⟨rv, w1, j, hrun, hij, hjl, hrv, hb1, hlen1, hsec1, ext2, htr2, htadr2⟩ :=
        ih fuel (i + 1)
          (store_is_erased i (w.bank.sectors[i]) 1
            (page_erase_command D A (w.bank.sectors[i]).offset w).2)
          (by omega) (by omega) (by simp [store_is_erased, hbank]; omega)
      refine ⟨rv, w1, j, hrun, by omega, hjl, hrv, ?_, ?_, ?_, ext1 ++ ext2, ?_, ?_⟩
      · rw [hb1]; simp [store_is_erased, hbank]
      · rw [hlen1]; simp [store_is_erased, hbank]
      · intro k
        rw [hsec1 k]
        simp only [store_is_erased, hbank]
        by_cases hk : k = i
        · subst hk
          rw [if_neg (by omega), if_pos (by omega)]
          simp [List.getElem?_eq_getElem hi, List.getElem?_set_self hi]
        · rw [List.getElem?_set_ne (Ne.symm hk)]
          by_cases hk2 : i + 1 ≤ k ∧ k < j
          · rw [if_pos hk2, if_pos (by omega)]
          · rw [if_neg hk2, if_neg (by omega)]
      · rw [htr2]; simp [store_is_erased, htr1]
      · rw [tadr_values_append, htadr1, htadr2]
        have hcount : min (j + 1) (last + 1) - i = (min (j + 1) (last + 1) - (i + 1)) + 1 := by
          omega
        rw [hcount, List.range_succ_eq_map, List.map_cons, List.map_map]
        simp only [store_is_erased, hbank, Nat.add_zero, hoff, List.singleton_append,
          List.cons.injEq, true_and]
        apply List.map_congr_left
        intro k _
        simp only [Function.comp_apply, Nat.succ_eq_add_one]
        rw [sector_offset_set _ _ _ _ (by omega)]
        congr 1
        omega
    · rw [if_pos (by simp [hr])]
      refine ⟨_, _, i, rfl, le_refl _, by omega, ?_, ?_, ?_, ?_, ext1, htr1, ?_⟩
      · constructor
        · intro h; exact absurd h hr
        · intro h; omega
      · rw [hbank]
      · rw [hbank]
      · intro k
        rw [if_neg (by omega), hbank]
      · have : min (i + 1) (last + 1) - i = 1 := by omega
        rw [this, htadr1]
        show [(w.bank.sectors[i]).offset] = [sector_offset w.bank (i + 0)]
        rw [Nat.add_zero, hoff]

/-- When its three writes succeed, a page-erase command is those writes followed
by the poll. -/
theorem page_erase_command_polled (D : Decls) (A : Adapter) (addr : Nat) (w : World)
    (hw : ∀ n, w.writes ≤ n → n < w.writes + 3 → A.write_result n = D.ERROR_OK) :
    page_erase_command D A addr w =
      ht32f165x_wait_status_busy D A 1000
        { w with
          trace := w.trace ++
            [Access.write TADR addr, Access.write OCMR 8, Access.write OPCR 0x14]
          writes := w.writes + 3 } := by
  have h0 := hw w.writes (by omega) (by omega)
  have h1 := hw (w.writes + 1) (by omega) (by omega)
  have h2 := hw (w.writes + 1 + 1) (by omega) (by omega)
  simp [page_erase_command, target_write_u32, h0, h1, h2, TADR, OCMR, OPCR, FMC_REG_BASE,
    FMC_REG_TADR, FMC_REG_OCMR, FMC_REG_OPCR, FMC_CMD_PAGE_ERASE, FMC_COMMIT,
    FLASH_ERASE_TIMEOUT]

/-- C3: on a halted target and for a range `first <= last` within the bank,
`ht32f165x_erase` returns.  If it returns `ERROR_OK`, exactly the sectors with index in
`[first, last]` have `is_erased = 1` and every other sector is as before.  If it returns
an error, it failed while processing some sector `j` of the range (TADR was written for
the sectors `first .. j` and for no other): the sectors `first .. j - 1` have
`is_erased = 1` and every other sector, `j` included, is as before. -/
theorem erase_marks_exactly_the_erased (D : Decls) (A : Adapter) (fuel first last : Nat)
    (w : World)
    (hhalted : w.bank.target.state = D.TARGET_HALTED)
    (hfl : first ≤ last) (hlast : last < w.bank.num_sectors)
    (hnum : w.bank.sectors.length = w.bank.num_sectors) (hn32 : w.bank.num_sectors < 2 ^ 32)
    (hfuel : last + 1 - first < fuel) :
    ∃ rv w1, ht32f165x_erase D A fuel first last w = Outcome.ret rv w1 ∧
      w1.bank.sectors.length = w.bank.sectors.length ∧
      (rv = D.ERROR_OK →
        ∀ k s, w.bank.sectors[k]? = some s →
          w1.bank.sectors[k]? =
            some (if first ≤ k ∧ k ≤ last then { s with is_erased := 1 } else s)) ∧
      (rv ≠ D.ERROR_OK →
        ∃ j, first ≤ j ∧ j ≤ last ∧
          (∃ ext, w1.trace = w.trace ++ ext ∧
            tadr_values ext =
              (List.range (j + 1 - first)).map (fun k => sector_offset w.bank (first + k))) ∧
          ∀ k s, w.bank.sectors[k]? = some s →
            w1.bank.sectors[k]? =
              some (if first ≤ k ∧ k < j then { s with is_erased := 1 } else s)) := by
  obtain ⟨rv, w1, j, hrun, hij, hjl, hrv, _, hlen, hsec, ext, htr, htadr⟩ :=
    erase_loop_effect D A last (by omega) (last + 1 - first) fuel first w (by omega) hfuel
      (by omega)
  refine ⟨rv, w1, ?_, hlen, ?_, ?_⟩
  · simp only [ht32f165x_erase, hhalted, ne_eq, not_true_eq_false, if_false]
    exact hrun
  · intro hok k s hk
    have hj : j = last + 1 := hrv.1 hok
    rw [hsec k, hk]
    by_cases hc : first ≤ k ∧ k ≤ last
    · rw [if_pos (by omega), if_pos hc]; rfl
    · rw [if_neg (by omega), if_neg hc]
  · intro herr
    have hj : j ≠ last + 1 := fun h => herr (hrv.2 h)
    refine ⟨j, hij, by omega, ⟨ext, htr, ?_⟩, ?_⟩
    · rw [htadr]
      have : min (j + 1) (last + 1) - first = j + 1 - first := by omega
      rw [this]
    · intro k s hk
      rw [hsec k, hk]
      by_cases hc : first ≤ k ∧ k < j
      · rw [if_pos hc, if_pos hc]; rfl
      · rw [if_neg hc, if_neg hc]

/-- C3 on the sample bank: erasing sectors 1 .. 2 of four. -/
theorem erase_marks_exactly_the_erased_witness :
    ∃ rv w1, ht32f165x_erase sample_decls ready_adapter 3 1 2 halted_world = Outcome.ret rv w1 ∧
      w1.bank.sectors.length = halted_world.bank.sectors.length ∧
      (rv = sample_decls.ERROR_OK →
        ∀ k s, halted_world.bank.sectors[k]? = some s →
          w1.bank.sectors[k]? =
            some (if 1 ≤ k ∧ k ≤ 2 then { s with is_erased := 1 } else s)) ∧
      (rv ≠ sample_decls.ERROR_OK →
        ∃ j, 1 ≤ j ∧ j ≤ 2 ∧
          (∃ ext, w1.trace = halted_world.trace ++ ext ∧
            tadr_values ext =
              (List.range (j + 1 - 1)).map (fun k => sector_offset halted_world.bank (1 + k))) ∧
          ∀ k s, halted_world.bank.sectors[k]? = some s →
            w1.bank.sectors[k]? =
              some (if 1 ≤ k ∧ k < j then { s with is_erased := 1 } else s)) :=
  erase_marks_exactly_the_erased sample_decls ready_adapter 3 1 2 halted_world
    (by decide) (by decide) (by decide) (by decide) (by decide) (by decide)

/-- Every one of the first 1000 reads of `late_adapter` succeeds with an operation
mode other than finished, and the 1001st shows finished. -/
theorem late_adapter_polls :
    (∀ k, k < 1000 → poll_busy sample_decls late_adapter k) ∧
      poll_finished sample_decls late_adapter 1000 := by
  refine ⟨fun k hk => ?_, ?_⟩
  · simp [poll_busy, late_adapter, hk, sample_decls]
  · simp only [poll_finished, late_adapter, sample_decls]
    decide

/-- A single-sector erase whose command writes succeed and whose poll sees `n` busy
reads, `n` at most 1000, and then finished. -/
theorem erase_single_sector_after_busy (D : Decls) (A : Adapter) (fuel i n : Nat) (w : World)
    (hhalted : w.bank.target.state = D.TARGET_HALTED)
    (hi : i < w.bank.sectors.length) (hi32 : i + 1 < 2 ^ 32)
    (hw : ∀ m, w.writes ≤ m → m < w.writes + 3 → A.write_result m = D.ERROR_OK)
    (hn : n ≤ 1000)
    (hbusy : ∀ k, k < n → poll_busy D A (w.reads + k))
    (hfin : poll_finished D A (w.reads + n)) :
    ht32f165x_erase D A (fuel + 2) i i w =
      Outcome.ret D.ERROR_OK
        (store_is_erased i (w.bank.sectors[i]) 1
          { w with
            trace := w.trace ++
              [Access.write TADR (w.bank.sectors[i]).offset, Access.write OCMR 8,
                Access.write OPCR 0x14] ++ busy_rounds n ++ [Access.read OPCR]
            writes := w.writes + 3
            reads := w.reads + n + 1 }) := by
  have hcmd := page_erase_command_polled D A (w.bank.sectors[i]).offset w hw
  have hwait := wait_busy_then_finished D A n 1000
    { w with
      trace := w.trace ++
        [Access.write TADR (w.bank.sectors[i]).offset, Access.write OCMR 8,
          Access.write OPCR 0x14]
      writes := w.writes + 3 }
    (by omega) hbusy hfin
  rw [hwait] at hcmd
  simp only [ht32f165x_erase, hhalted, ne_eq, not_true_eq_false, if_false]
  rw [erase_loop_step, if_pos (le_refl _), List.getElem?_eq_getElem hi]
  simp only [hcmd, ne_eq, not_true_eq_false, if_false]
  rw [erase_loop_step, if_neg (by rw [Nat.mod_eq_of_lt hi32]; omega)]

/-- C5 as stated fails: with the command writes succeeding and none of the first 1000
status reads showing finished, a single-sector erase still returns `ERROR_OK` and sets
the flag when the 1001st read shows finished. -/
theorem erase_timeout_counterexample :
    (∀ n, late_adapter.write_result n = sample_decls.ERROR_OK) ∧
      (∀ k, k < 1000 → poll_busy sample_decls late_adapter (halted_world.reads + k)) ∧
      sample_decls.ERROR_FAIL ≠ sample_decls.ERROR_OK ∧
      (halted_world.bank.sectors[0]?).map (fun s => s.is_erased) = some (-1) ∧
      ∃ w1, ht32f165x_erase sample_decls late_adapter 2 0 0 halted_world =
          Outcome.ret sample_decls.ERROR_OK w1 ∧
        (w1.bank.sectors[0]?).map (fun s => s.is_erased) = some 1 :=
  ⟨fun _ => rfl, fun k hk => by simpa [halted_world] using late_adapter_polls.1 k hk,
    by decide, by decide, _,
    erase_single_sector_after_busy sample_decls late_adapter 0 0 1000 halted_world rfl
      (by decide) (by decide) (fun _ _ _ => rfl) (le_refl _)
      (fun k hk => by simpa [halted_world] using late_adapter_polls.1 k hk)
      (by simpa [halted_world] using late_adapter_polls.2),
    by simp [store_is_erased, halted_world, sample_bank]⟩

/-- C5, amended: in an erase of a single sector on a halted target in which the three
command writes succeed and each of the first 1001 status reads succeeds with an
operation mode other than finished, `ht32f165x_erase` returns `ERROR_FAIL` and leaves the
bank, in particular the `is_erased` flag of that sector, as it was. -/
theorem erase_single_sector_times_out (D : Decls) (A : Adapter) (fuel i : Nat) (w : World)
    (hhalted : w.bank.target.state = D.TARGET_HALTED)
    (hfail : D.ERROR_FAIL ≠ D.ERROR_OK)
    (hi : i < w.bank.num_sectors)
    (hnum : w.bank.sectors.length = w.bank.num_sectors)
    (hw : ∀ n, w.writes ≤ n → n < w.writes + 3 → A.write_result n = D.ERROR_OK)
    (hbusy : ∀ k, k < 1001 → poll_busy D A (w.reads + k))
    (hfuel : 0 < fuel) :
    ∃ w1, ht32f165x_erase D A fuel i i w = Outcome.ret D.ERROR_FAIL w1 ∧
      w1.bank = w.bank ∧ w1.reads = w.reads + 1001 := by
  obtain ⟨fuel, rfl⟩ : ∃ f, fuel = f + 1 := ⟨fuel - 1, by omega⟩
  have hlen : i < w.bank.sectors.length := by omega
  have hcmd := page_erase_command_polled D A (w.bank.sectors[i]).offset w hw
  have hwait := wait_times_out D A 1000
    { w with
      trace := w.trace ++
        [Access.write TADR (w.bank.sectors[i]).offset, Access.write OCMR 8,
          Access.write OPCR 0x14]
      writes := w.writes + 3 }
    (fun k hk => hbusy k (by omega))
  simp only [Nat.cast_ofNat] at hwait
  rw [hwait] at hcmd
  have hrun : ht32f165x_erase D A (fuel + 1) i i w =
      Outcome.ret D.ERROR_FAIL (page_erase_command D A (w.bank.sectors[i]).offset w).2 := by
    simp only [ht32f165x_erase, hhalted, ne_eq, not_true_eq_false, if_false]
    rw [erase_loop_step, if_pos (le_refl _), List.getElem?_eq_getElem hlen]
    simp only [hcmd, ne_eq, hfail, not_false_eq_true, if_true]
  exact ⟨_, hrun, by rw [hcmd], by rw [hcmd]⟩

/-- C5, amended, on the sample bank with an adapter whose status never leaves 0. -/
theorem erase_single_sector_times_out_witness :
    ∃ w1, ht32f165x_erase sample_decls
        { write_result := fun _ => 0, read_result := fun _ => (0, 0) } 1 0 0 halted_world =
          Outcome.ret (-4) w1 ∧
      w1.bank = halted_world.bank ∧ w1.reads = halted_world.reads + 1001 :=
  erase_single_sector_times_out sample_decls
    { write_result := fun _ => 0, read_result := fun _ => (0, 0) } 1 0 halted_world
    (by decide) (by decide) (by decide) (by decide) (fun _ _ _ => rfl)
    (fun _ _ => ⟨rfl, by show (0 : Nat) &&& 30 ≠ 28; decide⟩) (by decide)

/-! ## Buffer write -/

/-- One iteration of the loop of `ht32f165x_write` is one call of
`ht32f165x_program_word` on the decoded word. -/
theorem write_loop_step (D : Decls) (A : Adapter) (buffer : List Nat) (count fuel i addr : Nat)
    (w : World) :
    write_loop D A buffer count (fuel + 1) i addr w =
      if i < count then
        match buffer[i]?, buffer[(i + 1) % 2 ^ 32]?, buffer[(i + 2) % 2 ^ 32]?,
            buffer[(i + 3) % 2 ^ 32]? with
        | some b0, some b1, some b2, some b3 =>
          let r := ht32f165x_program_word D A addr
            ((((b0 % 256) <<< 0) ||| ((b1 % 256) <<< 8) ||| ((b2 % 256) <<< 16) |||
              ((b3 % 256) <<< 24)) % 2 ^ 32) w
          if r.1 ≠ D.ERROR_OK then Outcome.ret r.1 r.2
          else write_loop D A buffer count fuel ((i + 4) % 2 ^ 32) ((addr + 4) % 2 ^ 32) r.2
        | _, _, _, _ => Outcome.fault w
      else Outcome.ret D.ERROR_OK w := by
  rw [write_loop]
  split
  · split
    · simp only [ht32f165x_program_word]
      split_ifs <;> simp_all
    · rfl
  · rfl

/-- The word the loop body of `ht32f165x_write` builds from the four bytes at `i`. -/
theorem word_of_bytes (b0 b1 b2 b3 : Nat) (h0 : b0 < 256) (h1 : b1 < 256) (h2 : b2 < 256)
    (h3 : b3 < 256) :
    (((b0 % 256) <<< 0) ||| ((b1 % 256) <<< 8) ||| ((b2 % 256) <<< 16) |||
      ((b3 % 256) <<< 24)) % 2 ^ 32 = b0 ||| b1 <<< 8 ||| b2 <<< 16 ||| b3 <<< 24 := by
  rw [Nat.mod_eq_of_lt h0, Nat.mod_eq_of_lt h1, Nat.mod_eq_of_lt h2, Nat.mod_eq_of_lt h3]
  apply Nat.mod_eq_of_lt
  have e1 : b1 <<< 8 < 2 ^ 32 := by rw [Nat.shiftLeft_eq]; omega
  have e2 : b2 <<< 16 < 2 ^ 32 := by rw [Nat.shiftLeft_eq]; omega
  have e3 : b3 <<< 24 < 2 ^ 32 := by rw [Nat.shiftLeft_eq]; omega
  have e0 : b0 <<< 0 < 2 ^ 32 := by simp; omega
  exact Nat.or_lt_two_pow (Nat.or_lt_two_pow (Nat.or_lt_two_pow e0 e1) e2) e3

/-- Loop invariant of `ht32f165x_write` when nothing fails: from word `j` on,
`m` remaining words give `m` word-program sequences. -/
theorem write_loop_all_ok (D : Decls) (A : Adapter) (buffer : List Nat) (count : Nat)
    (hcnt : count < 2 ^ 32) (hlen : buffer.length = count) (hbytes : ∀ b ∈ buffer, b < 256) :
    ∀ (m fuel j addr : Nat) (w : World),
      m < fuel → 4 * j + 4 * m = count → addr < 2 ^ 32 →
      (∀ n, w.writes ≤ n → n < w.writes + 4 * m → A.write_result n = D.ERROR_OK) →
      (∀ n, w.reads ≤ n → n < w.reads + m → poll_finished D A n) →
      write_loop D A buffer count fuel (4 * j) addr w =
        Outcome.ret D.ERROR_OK
          { w with
            trace := w.trace ++ (List.range m).flatMap
              (fun k => word_program_sequence ((addr + 4 * k) % 2 ^ 32) (le_word buffer (j + k)))
            writes := w.writes + 4 * m
            reads := w.reads + m } := by
  intro m
  induction m with
  | zero =>
    intro fuel j addr w hfuel hj _ _ _
    obtain ⟨fuel, rfl⟩ : ∃ f, fuel = f + 1 := ⟨fuel - 1, by omega⟩
    rw [write_loop_step, if_neg (by omega)]
    simp
  | succ m ih =>
    intro fuel j addr w hfuel hj haddr hw hp
    obtain ⟨fuel, rfl⟩ : ∃ f, fuel = f + 1 := ⟨fuel - 1, by omega⟩
    have l0 : 4 * j < buffer.length := by omega
    have l1 : 4 * j + 1 < buffer.length := by omega
    have l2 : 4 * j + 2 < buffer.length := by omega
    have l3 : 4 * j + 3 < buffer.length := by omega
    have m1 : (4 * j + 1) % 2 ^ 32 = 4 * j + 1 := Nat.mod_eq_of_lt (by omega)
    have m2 : (4 * j + 2) % 2 ^ 32 = 4 * j + 2 := Nat.mod_eq_of_lt (by omega)
    have m3 : (4 * j + 3) % 2 ^ 32 = 4 * j + 3 := Nat.mod_eq_of_lt (by omega)
    have m4 : (4 * j + 4) % 2 ^ 32 = 4 * (j + 1) := by
      rw [Nat.mod_eq_of_lt (by omega)]; omega
    have hword : (((buffer[4 * j] % 256) <<< 0) ||| ((buffer[4 * j + 1] % 256) <<< 8) |||
        ((buffer[4 * j + 2] % 256) <<< 16) ||| ((buffer[4 * j + 3] % 256) <<< 24)) % 2 ^ 32 =
        le_word buffer j := by
      rw [word_of_bytes _ _ _ _ (hbytes _ (List.getElem_mem l0)) (hbytes _ (List.getElem_mem l1))
        (hbytes _ (List.getElem_mem l2)) (hbytes _ (List.getElem_mem l3))]
      simp [le_word, List.getD_eq_getElem?_getD, List.getElem?_eq_getElem, l0, l1, l2, l3]
    rw [write_loop_step, if_pos (by omega), m1, m2, m3, m4,
      List.getElem?_eq_getElem l0, List.getElem?_eq_getElem l1, List.getElem?_eq_getElem l2,
      List.getElem?_eq_getElem l3]
    simp only [hword]
    rw [program_word_ok D A addr (le_word buffer j) w
      (fun n h1 h2 => hw n h1 (by omega)) (hp w.reads (by omega) (by omega))]
    simp only [ne_eq, not_true_eq_false, if_false]
    rw [ih fuel (j + 1) ((addr + 4) % 2 ^ 32) _ (by omega) (by omega) (Nat.mod_lt _ (by norm_num))
      (fun n h1 h2 => hw n (by simp at h1; omega) (by simp at h1 h2; omega))
      (fun n h1 h2 => hp n (by simp at h1; omega) (by simp at h1 h2; omega))]
    rw [range_succ_flatMap]
    have e0 : (addr + 4 * 0) % 2 ^ 32 = addr := by simpa using Nat.mod_eq_of_lt haddr
    have ek : ∀ k, ((addr + 4) % 2 ^ 32 + 4 * k) % 2 ^ 32 = (addr + 4 * (k + 1)) % 2 ^ 32 := by
      intro k; omega
    have ej : ∀ k, j + 1 + k = j + (k + 1) := by intro k; omega
    simp only [e0, ek, ej, Nat.add_zero, List.append_assoc]
    congr 2
    · omega
    · omega

theorem and_three_eq_zero_iff (x : Nat) : x &&& 0x3 = 0 ↔ x % 4 = 0 := by
  have h := Nat.and_pow_two_sub_one_eq_mod x 2
  norm_num at h
  rw [h]

/-- C2: when the offset or the count is not a multiple of 4, `ht32f165x_write` fails
and leaves the world as it was: no register read and no register write is issued.  On
a halted target the error is `ERROR_FLASH_DST_BREAKS_ALIGNMENT`. -/
theorem write_rejects_misaligned (D : Decls) (A : Adapter) (fuel : Nat) (buffer : List Nat)
    (offset count : Nat) (w : World)
    (hcode1 : D.ERROR_TARGET_NOT_HALTED ≠ D.ERROR_OK)
    (hcode2 : D.ERROR_FLASH_DST_BREAKS_ALIGNMENT ≠ D.ERROR_OK)
    (hmis : offset % 4 ≠ 0 ∨ count % 4 ≠ 0) :
    ∃ rv, ht32f165x_write D A fuel buffer offset count w = Outcome.ret rv w ∧
      rv ≠ D.ERROR_OK ∧
      (w.bank.target.state = D.TARGET_HALTED → rv = D.ERROR_FLASH_DST_BREAKS_ALIGNMENT) := by
  by_cases hh : w.bank.target.state = D.TARGET_HALTED
  · refine ⟨D.ERROR_FLASH_DST_BREAKS_ALIGNMENT, ?_, hcode2, fun _ => rfl⟩
    simp only [ht32f165x_write, hh, ne_eq, not_true_eq_false, if_false, and_three_eq_zero_iff]
    by_cases ho : offset % 4 = 0
    · have hc : count % 4 ≠ 0 := by
        rcases hmis with h | h
        · exact absurd ho h
        · exact h
      simp [ho, hc]
    · simp [ho]
  · refine ⟨D.ERROR_TARGET_NOT_HALTED, ?_, hcode1, fun h => absurd h hh⟩
    simp [ht32f165x_write, hh]

/-- C2 on a concrete input: 32 bytes at offset 2 of the halted sample bank. -/
theorem write_rejects_misaligned_witness :
    ∃ rv, ht32f165x_write sample_decls ready_adapter 9 (List.range 32) 2 32 halted_world =
        Outcome.ret rv halted_world ∧
      rv ≠ sample_decls.ERROR_OK ∧
      (halted_world.bank.target.state = sample_decls.TARGET_HALTED →
        rv = sample_decls.ERROR_FLASH_DST_BREAKS_ALIGNMENT) :=
  write_rejects_misaligned sample_decls ready_adapter 9 (List.range 32) 2 32 halted_world
    (by decide) (by decide) (by decide)

/-! ## Target state -/

/-- C6: when the target is not halted, each of `ht32f165x_erase`, `ht32f165x_write`,
`ht32f165x_mass_erase`, `ht32f165x_protect` and `ht32f165x_check_security` returns
`ERROR_TARGET_NOT_HALTED` for every input and leaves the world as it was: no register
read, no register write, every sector unchanged. -/
theorem not_halted_is_rejected (D : Decls) (A : Adapter) (w : World)
    (hrun : w.bank.target.state ≠ D.TARGET_HALTED) :
    (∀ fuel first last,
        ht32f165x_erase D A fuel first last w = Outcome.ret D.ERROR_TARGET_NOT_HALTED w) ∧
      (∀ fuel buffer offset count,
        ht32f165x_write D A fuel buffer offset count w =
          Outcome.ret D.ERROR_TARGET_NOT_HALTED w) ∧
      ht32f165x_mass_erase D A w = (D.ERROR_TARGET_NOT_HALTED, w) ∧
      (∀ set first last,
        ht32f165x_protect D A set first last w = (D.ERROR_TARGET_NOT_HALTED, w)) ∧
      ht32f165x_check_security D A w = Outcome.ret D.ERROR_TARGET_NOT_HALTED w := by
  refine ⟨fun fuel first last => ?_, fun fuel buffer offset count => ?_, ?_,
    fun set first last => ?_, ?_⟩
  · simp [ht32f165x_erase, hrun]
  · simp [ht32f165x_write, hrun]
  · simp [ht32f165x_mass_erase, hrun]
  · simp [ht32f165x_protect, hrun]
  · simp [ht32f165x_check_security, hrun]

/-- C6 on the sample bank with a running target. -/
theorem not_halted_is_rejected_witness :
    (∀ fuel first last,
        ht32f165x_erase sample_decls ready_adapter fuel first last running_world =
          Outcome.ret (-304) running_world) ∧
      (∀ fuel buffer offset count,
        ht32f165x_write sample_decls ready_adapter fuel buffer offset count running_world =
          Outcome.ret (-304) running_world) ∧
      ht32f165x_mass_erase sample_decls ready_adapter running_world = (-304, running_world) ∧
      (∀ set first last,
        ht32f165x_protect sample_decls ready_adapter set first last running_world =
          (-304, running_world)) ∧
      ht32f165x_check_security sample_decls ready_adapter running_world =
        Outcome.ret (-304) running_world :=
  not_halted_is_rejected sample_decls ready_adapter running_world (by decide)

/-! ## Option bytes -/

theorem protect_pp_loop_step (D : Decls) (A : Adapter) (ob_pp : List Nat) (i : Nat)
    (retval : Int) (w : World) (h : i < 4) :
    protect_pp_loop D A ob_pp i retval w =
      if (ht32f165x_program_word D A (OPT_BYTE + (i <<< 2)) (ob_pp.getD i 0) w).1 ≠ D.ERROR_OK
      then ht32f165x_program_word D A (OPT_BYTE + (i <<< 2)) (ob_pp.getD i 0) w
      else protect_pp_loop D A ob_pp (i + 1)
        (ht32f165x_program_word D A (OPT_BYTE + (i <<< 2)) (ob_pp.getD i 0) w).1
        (ht32f165x_program_word D A (OPT_BYTE + (i <<< 2)) (ob_pp.getD i 0) w).2 := by
  rw [protect_pp_loop, if_pos h]

theorem protect_pp_loop_done (D : Decls) (A : Adapter) (ob_pp : List Nat) (retval : Int)
    (w : World) : protect_pp_loop D A ob_pp 4 retval w = (retval, w) := by
  rw [protect_pp_loop, if_neg (by norm_num)]

/-- The second half of `ht32f165x_protect` as a chain of six word-program commands,
the first error ending the chain. -/
theorem protect_program_unfold (D : Decls) (A : Adapter) (retval : Int) (w : World) :
    protect_program D A retval w =
      if (ht32f165x_program_word D A 0x1FF00000 0 w).1 ≠ D.ERROR_OK then
        ht32f165x_program_word D A 0x1FF00000 0 w
      else
        let w1 := (ht32f165x_program_word D A 0x1FF00000 0 w).2
        if (ht32f165x_program_word D A 0x1FF00004 0xFFFFFFFF w1).1 ≠ D.ERROR_OK then
          ht32f165x_program_word D A 0x1FF00004 0xFFFFFFFF w1
        else
          let w2 := (ht32f165x_program_word D A 0x1FF00004 0xFFFFFFFF w1).2
          if (ht32f165x_program_word D A 0x1FF00008 0xFFFFFFFF w2).1 ≠ D.ERROR_OK then
            ht32f165x_program_word D A 0x1FF00008 0xFFFFFFFF w2
          else
            let w3 := (ht32f165x_program_word D A 0x1FF00008 0xFFFFFFFF w2).2
            if (ht32f165x_program_word D A 0x1FF0000C 0xFFFFFFFF w3).1 ≠ D.ERROR_OK then
              ht32f165x_program_word D A 0x1FF0000C 0xFFFFFFFF w3
            else
              let w4 := (ht32f165x_program_word D A 0x1FF0000C 0xFFFFFFFF w3).2
              if (ht32f165x_program_word D A 0x1FF00010 0xFFFFFFFE w4).1 ≠ D.ERROR_OK then
                ht32f165x_program_word D A 0x1FF00010 0xFFFFFFFE w4
              else
                ht32f165x_program_word D A 0x1FF00020 0xFFFFFFFB
                  (ht32f165x_program_word D A 0x1FF00010 0xFFFFFFFE w4).2 := by
  have a0 : OPT_BYTE + (0 <<< 2) = 0x1FF00000 := by decide
  have a1 : OPT_BYTE + ((0 + 1) <<< 2) = 0x1FF00004 := by decide
  have a2 : OPT_BYTE + ((0 + 1 + 1) <<< 2) = 0x1FF00008 := by decide
  have a3 : OPT_BYTE + ((0 + 1 + 1 + 1) <<< 2) = 0x1FF0000C := by decide
  have a4 : OPT_BYTE + 0x10 = 0x1FF00010 := by decide
  have a5 : OPT_BYTE + 0x20 = 0x1FF00020 := by decide
  have cp : (2 ^ 32 - 1) - (1 ||| (0 <<< 1)) = 0xFFFFFFFE := by decide
  have ck : (0xFFFFFFFE + (((0 + 0xffffffff) % 2 ^ 32 + 0xffffffff) % 2 ^ 32
      + 0xffffffff) % 2 ^ 32) % 2 ^ 32 = 0xFFFFFFFB := by decide
  have g0 : ([0x00000000, 0xffffffff, 0xffffffff, 0xffffffff] : List Nat).getD 0 0 = 0 := rfl
  have g1 : ([0x00000000, 0xffffffff, 0xffffffff, 0xffffffff] : List Nat).getD (0 + 1) 0
      = 0xFFFFFFFF := rfl
  have g2 : ([0x00000000, 0xffffffff, 0xffffffff, 0xffffffff] : List Nat).getD (0 + 1 + 1) 0
      = 0xFFFFFFFF := rfl
  have g3 : ([0x00000000, 0xffffffff, 0xffffffff, 0xffffffff] : List Nat).getD (0 + 1 + 1 + 1) 0
      = 0xFFFFFFFF := rfl
  have g1b : ([0x00000000, 0xffffffff, 0xffffffff, 0xffffffff] : List Nat).getD 1 0
      = 0xFFFFFFFF := rfl
  have g2b : ([0x00000000, 0xffffffff, 0xffffffff, 0xffffffff] : List Nat).getD 2 0
      = 0xFFFFFFFF := rfl
  have g3b : ([0x00000000, 0xffffffff, 0xffffffff, 0xffffffff] : List Nat).getD 3 0
      = 0xFFFFFFFF := rfl
  have eta : ∀ r : Int × World,
      (if r.1 = D.ERROR_OK then (D.ERROR_OK, r.2) else (r.1, r.2)) = r := by
    intro r
    by_cases h : r.1 = D.ERROR_OK
    · rw [if_pos h, ← h]
    · rw [if_neg h]
  unfold protect_program
  simp only [g1b, g2b, g3b, cp, ck, a4, a5]
  rw [protect_pp_loop_step D A _ 0 _ _ (by norm_num), a0, g0]
  by_cases h0 : (ht32f165x_program_word D A 0x1FF00000 0 w).1 = D.ERROR_OK
  · simp only [h0, ne_eq, not_true_eq_false, if_false]
    rw [protect_pp_loop_step D A _ (0 + 1) _ _ (by norm_num), a1, g1]
    by_cases h1 : (ht32f165x_program_word D A 0x1FF00004 0xFFFFFFFF
        (ht32f165x_program_word D A 0x1FF00000 0 w).2).1 = D.ERROR_OK
    · simp only [h1, ne_eq, not_true_eq_false, if_false]
      rw [protect_pp_loop_step D A _ (0 + 1 + 1) _ _ (by norm_num), a2, g2]
      by_cases h2 : (ht32f165x_program_word D A 0x1FF00008 0xFFFFFFFF
          (ht32f165x_program_word D A 0x1FF00004 0xFFFFFFFF
            (ht32f165x_program_word D A 0x1FF00000 0 w).2).2).1 = D.ERROR_OK
      · simp only [h2, ne_eq, not_true_eq_false, if_false]
        rw [protect_pp_loop_step D A _ (0 + 1 + 1 + 1) _ _ (by norm_num), a3, g3]
        by_cases h3 : (ht32f165x_program_word D A 0x1FF0000C 0xFFFFFFFF
            (ht32f165x_program_word D A 0x1FF00008 0xFFFFFFFF
              (ht32f165x_program_word D A 0x1FF00004 0xFFFFFFFF
                (ht32f165x_program_word D A 0x1FF00000 0 w).2).2).2).1 = D.ERROR_OK
        · simp only [h3, ne_eq, not_true_eq_false, if_false]
          rw [show (0 + 1 + 1 + 1 + 1 : Nat) = 4 from rfl, protect_pp_loop_done]
          simp only [if_true]
          by_cases h4 : (ht32f165x_program_word D A 0x1FF00010 0xFFFFFFFE
              (ht32f165x_program_word D A 0x1FF0000C 0xFFFFFFFF
                (ht32f165x_program_word D A 0x1FF00008 0xFFFFFFFF
                  (ht32f165x_program_word D A 0x1FF00004 0xFFFFFFFF
                    (ht32f165x_program_word D A 0x1FF00000 0 w).2).2).2).2).1 = D.ERROR_OK
          · simp only [h4, ne_eq, not_true_eq_false, if_false, if_true]
            exact eta _
          · simp only [h4, ne_eq, not_false_eq_true, if_false, if_true]
        · simp only [h3, ne_eq, not_false_eq_true, if_false, if_true]
      · simp only [h2, ne_eq, not_false_eq_true, if_false, if_true]
    · simp only [h1, ne_eq, not_false_eq_true, if_false, if_true]
  · simp only [h0, ne_eq, not_false_eq_true, if_false, if_true]

/-- `ht32f165x_protect` as a chain of commands: the state check, the read of CPSR,
the page-erase command at the option-byte base, then the programming half. -/
theorem protect_unfold (D : Decls) (A : Adapter) (set : Int) (first last : Nat) (w : World) :
    ht32f165x_protect D A set first last w =
      if w.bank.target.state ≠ D.TARGET_HALTED then (D.ERROR_TARGET_NOT_HALTED, w)
      else if (A.read_result w.reads).2 &&& 1 = 0 ∨ set = 0 then
        (D.ERROR_FLASH_OPER_UNSUPPORTED,
          { w with trace := w.trace ++ [Access.read CPSR], reads := w.reads + 1 })
      else
        if (page_erase_command D A 0x1FF00000
            { w with trace := w.trace ++ [Access.read CPSR], reads := w.reads + 1 }).1
            ≠ D.ERROR_OK then
          page_erase_command D A 0x1FF00000
            { w with trace := w.trace ++ [Access.read CPSR], reads := w.reads + 1 }
        else
          protect_program D A D.ERROR_OK
            (page_erase_command D A 0x1FF00000
              { w with trace := w.trace ++ [Access.read CPSR], reads := w.reads + 1 }).2 := by
  have ec : FMC_REG_BASE + FMC_REG_CPSR = CPSR := by decide
  have eo : OPT_BYTE = 0x1FF00000 := by decide
  unfold ht32f165x_protect page_erase_command
  simp only [target_read_u32, ec, eo]
  split_ifs <;> simp_all

theorem program_word_ok_at (D : Decls) (A : Adapter) (addr value : Nat) (b : flash_bank)
    (tr : List Access) (nw nr : Nat)
    (hw : ∀ n, nw ≤ n → n < nw + 4 → A.write_result n = D.ERROR_OK)
    (hp : poll_finished D A nr) :
    ht32f165x_program_word D A addr value { bank := b, trace := tr, writes := nw, reads := nr } =
      (D.ERROR_OK,
        { bank := b, trace := tr ++ word_program_sequence addr value, writes := nw + 4,
          reads := nr + 1 }) :=
  program_word_ok D A addr value { bank := b, trace := tr, writes := nw, reads := nr } hw hp

theorem page_erase_command_ok_at (D : Decls) (A : Adapter) (addr : Nat) (b : flash_bank)
    (tr : List Access) (nw nr : Nat)
    (hw : ∀ n, nw ≤ n → n < nw + 3 → A.write_result n = D.ERROR_OK)
    (hp : poll_finished D A nr) :
    page_erase_command D A addr { bank := b, trace := tr, writes := nw, reads := nr } =
      (D.ERROR_OK,
        { bank := b, trace := tr ++ page_erase_sequence addr, writes := nw + 3,
          reads := nr + 1 }) :=
  page_erase_command_ok D A addr { bank := b, trace := tr, writes := nw, reads := nr } hw hp

/-- An `enable_security` run in which nothing fails: on a halted target with bit 0
of CPSR set and `set` not 0, when the 27 register writes succeed and the 7 polls
finish at the first read, `ht32f165x_protect` returns `ERROR_OK` after exactly the
traffic `enable_security_traffic 0xFFFFFFFE 0xFFFFFFFB`. -/
theorem protect_all_ok (D : Decls) (A : Adapter) (set : Int) (first last : Nat) (w : World)
    (hhalted : w.bank.target.state = D.TARGET_HALTED)
    (hbit : (A.read_result w.reads).2 &&& 1 ≠ 0) (hset : set ≠ 0)
    (hw : ∀ n, w.writes ≤ n → n < w.writes + 27 → A.write_result n = D.ERROR_OK)
    (hp : ∀ n, w.reads + 1 ≤ n → n < w.reads + 8 → poll_finished D A n) :
    ht32f165x_protect D A set first last w =
      (D.ERROR_OK,
        { w with
          trace := w.trace ++ enable_security_traffic 0xFFFFFFFE 0xFFFFFFFB
          writes := w.writes + 27
          reads := w.reads + 8 }) := by
  rw [protect_unfold, if_neg (by simp [hhalted]), if_neg (not_or.mpr ⟨hbit, hset⟩)]
  simp only [page_erase_command_ok_at D A 0x1FF00000 w.bank _ w.writes (w.reads + 1)
      (fun n h1 h2 => hw n (by omega) (by omega)) (hp _ (by omega) (by omega)),
    ne_eq, not_true_eq_false, if_false]
  rw [protect_program_unfold]
  simp only [program_word_ok_at D A 0x1FF00000 0 w.bank _ (w.writes + 3) (w.reads + 1 + 1)
      (fun n h1 h2 => hw n (by omega) (by omega)) (hp _ (by omega) (by omega)),
    ne_eq, not_true_eq_false, if_false]
  simp only [program_word_ok_at D A 0x1FF00004 0xFFFFFFFF w.bank _ (w.writes + 3 + 4)
      (w.reads + 1 + 1 + 1)
      (fun n h1 h2 => hw n (by omega) (by omega)) (hp _ (by omega) (by omega)),
    ne_eq, not_true_eq_false, if_false]
  simp only [program_word_ok_at D A 0x1FF00008 0xFFFFFFFF w.bank _ (w.writes + 3 + 4 + 4)
      (w.reads + 1 + 1 + 1 + 1)
      (fun n h1 h2 => hw n (by omega) (by omega)) (hp _ (by omega) (by omega)),
    ne_eq, not_true_eq_false, if_false]
  simp only [program_word_ok_at D A 0x1FF0000C 0xFFFFFFFF w.bank _ (w.writes + 3 + 4 + 4 + 4)
      (w.reads + 1 + 1 + 1 + 1 + 1)
      (fun n h1 h2 => hw n (by omega) (by omega)) (hp _ (by omega) (by omega)),
    ne_eq, not_true_eq_false, if_false]
  simp only [program_word_ok_at D A 0x1FF00010 0xFFFFFFFE w.bank _ (w.writes + 3 + 4 + 4 + 4 + 4)
      (w.reads + 1 + 1 + 1 + 1 + 1 + 1)
      (fun n h1 h2 => hw n (by omega) (by omega)) (hp _ (by omega) (by omega)),
    ne_eq, not_true_eq_false, if_false]
  simp only [program_word_ok_at D A 0x1FF00020 0xFFFFFFFB w.bank _
      (w.writes + 3 + 4 + 4 + 4 + 4 + 4) (w.reads + 1 + 1 + 1 + 1 + 1 + 1 + 1)
      (fun n h1 h2 => hw n (by omega) (by omega)) (hp _ (by omega) (by omega))]
  simp [enable_security_traffic]

theorem writes_of_append (a b : List Access) :
    writes_of (a ++ b) = writes_of a ++ writes_of b := by
  simp [writes_of, List.filterMap_append]

/-- Whatever the adapter answers, a page-erase command that returns `ERROR_OK` has
issued exactly the writes TADR <- addr, OCMR <- 8, OPCR <- 0x14. -/
theorem page_erase_command_success (D : Decls) (A : Adapter) (addr : Nat) (w : World)
    (hok : (page_erase_command D A addr w).1 = D.ERROR_OK) :
    ∃ ext, (page_erase_command D A addr w).2.trace = w.trace ++ ext ∧
      writes_of ext = [(TADR, addr), (OCMR, 8), (OPCR, 0x14)] := by
  unfold page_erase_command at hok ⊢
  simp only at hok ⊢
  split_ifs at hok ⊢ with h1 h2 h3
  · exact absurd hok h1
  · exact absurd hok h2
  · exact absurd hok h3
  · obtain ⟨_, _, ext, htr, hext⟩ := wait_frame D A _ FLASH_ERASE_TIMEOUT
      (target_write_u32 A (FMC_REG_BASE + FMC_REG_OPCR) FMC_COMMIT
        (target_write_u32 A (FMC_REG_BASE + FMC_REG_OCMR) FMC_CMD_PAGE_ERASE
          (target_write_u32 A (FMC_REG_BASE + FMC_REG_TADR) addr w).2).2).2 rfl
    refine ⟨[Access.write TADR addr, Access.write OCMR 8, Access.write OPCR 0x14] ++ ext, ?_, ?_⟩
    · rw [htr]
      simp [target_write_u32, TADR, OCMR, OPCR, FMC_REG_BASE, FMC_REG_TADR, FMC_REG_OCMR,
        FMC_REG_OPCR, FMC_CMD_PAGE_ERASE, FMC_COMMIT]
    · rw [writes_of_append, hext]
      simp [writes_of]

/-- Whatever the adapter answers, a word-program command that returns `ERROR_OK`
has issued exactly the writes TADR <- addr, WRDR <- value, OCMR <- 4, OPCR <- 0x14. -/
theorem program_word_success (D : Decls) (A : Adapter) (addr value : Nat) (w : World)
    (hok : (ht32f165x_program_word D A addr value w).1 = D.ERROR_OK) :
    ∃ ext, (ht32f165x_program_word D A addr value w).2.trace = w.trace ++ ext ∧
      writes_of ext = [(TADR, addr), (WRDR, value), (OCMR, 4), (OPCR, 0x14)] := by
  unfold ht32f165x_program_word at hok ⊢
  simp only at hok ⊢
  split_ifs at hok ⊢ with h1 h2 h3 h4 h5
  · exact absurd hok h1
  · exact absurd hok h2
  · exact absurd hok h3
  · exact absurd hok h4
  · exact absurd hok h5
  · obtain ⟨_, _, ext, htr, hext⟩ := wait_frame D A _ FLASH_ERASE_TIMEOUT
      (target_write_u32 A (FMC_REG_BASE + FMC_REG_OPCR) FMC_COMMIT
        (target_write_u32 A (FMC_REG_BASE + FMC_REG_OCMR) FMC_CMD_WORD_PROG
          (target_write_u32 A (FMC_REG_BASE + FMC_REG_WRDR) value
            (target_write_u32 A (FMC_REG_BASE + FMC_REG_TADR) addr w).2).2).2).2 rfl
    refine ⟨[Access.write TADR addr, Access.write WRDR value, Access.write OCMR 4,
      Access.write OPCR 0x14] ++ ext, ?_, ?_⟩
    · show (ht32f165x_wait_status_busy D A FLASH_ERASE_TIMEOUT _).2.trace = _
      rw [htr]
      simp [target_write_u32, TADR, WRDR, OCMR, OPCR, FMC_REG_BASE, FMC_REG_TADR,
        FMC_REG_WRDR, FMC_REG_OCMR, FMC_REG_OPCR, FMC_CMD_WORD_PROG, FMC_COMMIT]
    · rw [writes_of_append, hext]
      simp [writes_of]

/-- Every run of `ht32f165x_protect` that returns `ERROR_OK` has issued exactly the
register writes of the option-byte image with protection words 0, 0xFFFFFFFF,
0xFFFFFFFF, 0xFFFFFFFF, config word 0xFFFFFFFE and checksum word 0xFFFFFFFB,
however many status reads its polls took. -/
theorem protect_success_writes (D : Decls) (A : Adapter) (set : Int) (first last : Nat)
    (w : World)
    (hcode1 : D.ERROR_TARGET_NOT_HALTED ≠ D.ERROR_OK)
    (hcode2 : D.ERROR_FLASH_OPER_UNSUPPORTED ≠ D.ERROR_OK)
    (hok : (ht32f165x_protect D A set first last w).1 = D.ERROR_OK) :
    ∃ ext, (ht32f165x_protect D A set first last w).2.trace = w.trace ++ ext ∧
      writes_of ext =
        option_byte_writes 0 0xFFFFFFFF 0xFFFFFFFF 0xFFFFFFFF 0xFFFFFFFE 0xFFFFFFFB := by
  rw [protect_unfold] at hok ⊢
  split_ifs at hok ⊢ with g1 g2 g3
  · exact absurd hok hcode1
  · exact absurd hok hcode2
  · exact absurd hok g3
  · rw [protect_program_unfold] at hok ⊢
    simp only at hok ⊢
    obtain ⟨x0, t0, e0⟩ := page_erase_command_success D A 0x1FF00000 _ (not_not.mp g3)
    split_ifs at hok ⊢ with k0 k1 k2 k3 k4
    · exact absurd hok k0
    · exact absurd hok k1
    · exact absurd hok k2
    · exact absurd hok k3
    · exact absurd hok k4
    · obtain ⟨x1, t1, e1⟩ := program_word_success D A _ _ _ (not_not.mp k0)
      obtain ⟨x2, t2, e2⟩ := program_word_success D A _ _ _ (not_not.mp k1)
      obtain ⟨x3, t3, e3⟩ := program_word_success D A _ _ _ (not_not.mp k2)
      obtain ⟨x4, t4, e4⟩ := program_word_success D A _ _ _ (not_not.mp k3)
      obtain ⟨x5, t5, e5⟩ := program_word_success D A _ _ _ (not_not.mp k4)
      obtain ⟨x6, t6, e6⟩ := program_word_success D A _ _ _ hok
      refine ⟨[Access.read CPSR] ++ x0 ++ x1 ++ x2 ++ x3 ++ x4 ++ x5 ++ x6, ?_, ?_⟩
      · rw [t6, t5, t4, t3, t2, t1, t0]
        simp
      · simp only [writes_of_append, e0, e1, e2, e3, e4, e5, e6]
        simp [writes_of, option_byte_writes]

/-- C7: on a halted target, when the value read from CPSR has bit 0 clear or `set` is 0,
`ht32f165x_protect` returns `ERROR_FLASH_OPER_UNSUPPORTED`; its only register access is
the read of CPSR, so it issues no register write and leaves the bank as it was. -/
theorem protect_unsupported_writes_nothing (D : Decls) (A : Adapter) (set : Int)
    (first last : Nat) (w : World)
    (hhalted : w.bank.target.state = D.TARGET_HALTED)
    (hcase : (A.read_result w.reads).2 &&& 1 = 0 ∨ set = 0) :
    ht32f165x_protect D A set first last w =
        (D.ERROR_FLASH_OPER_UNSUPPORTED,
          { w with trace := w.trace ++ [Access.read CPSR], reads := w.reads + 1 }) ∧
      writes_of (ht32f165x_protect D A set first last w).2.trace = writes_of w.trace ∧
      (ht32f165x_protect D A set first last w).2.writes = w.writes := by
  have h : ht32f165x_protect D A set first last w =
      (D.ERROR_FLASH_OPER_UNSUPPORTED,
        { w with trace := w.trace ++ [Access.read CPSR], reads := w.reads + 1 }) := by
    simp only [ht32f165x_protect, hhalted, ne_eq, not_true_eq_false, if_false, target_read_u32,
      hcase, if_true]
    simp [CPSR, FMC_REG_BASE, FMC_REG_CPSR]
  refine ⟨h, ?_, ?_⟩
  · rw [h]; simp [writes_of]
  · rw [h]

/-- C7 on a bank that is already secured: CPSR reads as 0. -/
theorem protect_unsupported_writes_nothing_witness :
    ht32f165x_protect sample_decls { write_result := fun _ => 0, read_result := fun _ => (0, 0) }
        1 0 0 halted_world =
      (-908, { halted_world with trace := [Access.read CPSR], reads := 1 }) :=
  (protect_unsupported_writes_nothing sample_decls
    { write_result := fun _ => 0, read_result := fun _ => (0, 0) } 1 0 0 halted_world
    (by decide) (Or.inl (by decide))).1

/-- The sample `enable_security` run, evaluated. -/
theorem sample_protect_run :
    ht32f165x_protect sample_decls ready_adapter 1 0 0 halted_world =
      (0,
        { halted_world with
          trace := enable_security_traffic 0xFFFFFFFE 0xFFFFFFFB
          writes := 27
          reads := 8 }) :=
  protect_all_ok sample_decls ready_adapter 1 0 0 halted_world
    (by decide) (by show (29 : Nat) &&& 1 ≠ 0; decide) (by decide) (fun _ _ _ => rfl)
    (fun n _ _ => ready_adapter_finished n)

/-- C9 as stated fails: in the sample run, which succeeds, the config word programmed at
option-byte base + 0x10 is 0xFFFFFFFE.  Bit 1 of it is 1, so it is not the complement
0xFFFFFFFC of (bit 0 | bit 1). -/
theorem config_word_counterexample :
    (ht32f165x_protect sample_decls ready_adapter 1 0 0 halted_world).1 =
        sample_decls.ERROR_OK ∧
      ∃ cp, word_programmed_at
          (writes_of ((ht32f165x_protect sample_decls ready_adapter 1 0 0 halted_world).2.trace.drop
            halted_world.trace.length)) (0x1FF00000 + 0x10) = some cp ∧
        cp.testBit 1 = true ∧ cp ≠ (2 ^ 32 - 1) - (1 ||| (1 <<< 1)) := by
  rw [sample_protect_run]
  exact ⟨rfl, 0xFFFFFFFE, by decide, by decide, by decide⟩

/-- C9, amended: in every run of `ht32f165x_protect` that returns `ERROR_OK`, the config
word programmed at option-byte base + 0x10 is the 32-bit complement of the security bit
(bit 0) alone, `~(1 | 0 << 1)` = 0xFFFFFFFE: bit 0 is 0 and every other bit, the
protection-enable bit 1 included, is 1. -/
theorem protect_config_word (D : Decls) (A : Adapter) (set : Int) (first last : Nat)
    (w : World)
    (hcode1 : D.ERROR_TARGET_NOT_HALTED ≠ D.ERROR_OK)
    (hcode2 : D.ERROR_FLASH_OPER_UNSUPPORTED ≠ D.ERROR_OK)
    (hok : (ht32f165x_protect D A set first last w).1 = D.ERROR_OK) :
    ∃ cp, word_programmed_at
        (writes_of ((ht32f165x_protect D A set first last w).2.trace.drop w.trace.length))
        (0x1FF00000 + 0x10) = some cp ∧
      cp = (2 ^ 32 - 1) - (1 ||| (0 <<< 1)) ∧ cp = 0xFFFFFFFE ∧
      cp.testBit 0 = false ∧ ∀ b, b < 32 → 1 ≤ b → cp.testBit b = true := by
  obtain ⟨ext, htr, hext⟩ := protect_success_writes D A set first last w hcode1 hcode2 hok
  rw [htr, List.drop_left, hext]
  exact ⟨0xFFFFFFFE, by decide, by decide, rfl, by decide, by decide⟩

/-- C9, amended, on the sample run. -/
theorem protect_config_word_witness :
    ∃ cp, word_programmed_at
        (writes_of ((ht32f165x_protect sample_decls ready_adapter 1 0 0 halted_world).2.trace.drop
          halted_world.trace.length)) (0x1FF00000 + 0x10) = some cp ∧
      cp = (2 ^ 32 - 1) - (1 ||| (0 <<< 1)) ∧ cp = 0xFFFFFFFE ∧
      cp.testBit 0 = false ∧ ∀ b, b < 32 → 1 ≤ b → cp.testBit b = true :=
  protect_config_word sample_decls ready_adapter 1 0 0 halted_world (by decide) (by decide)
    (by rw [sample_protect_run]; rfl)

/-- C10 as stated fails: in the sample run, which succeeds, the checksum word programmed
at option-byte base + 0x20 is 0xFFFFFFFB, while the complement of the programmed config
word plus the four programmed protection words is 0xFFFFFFFE modulo 2^32. -/
theorem checksum_word_counterexample :
    (ht32f165x_protect sample_decls ready_adapter 1 0 0 halted_world).1 =
        sample_decls.ERROR_OK ∧
      ∃ pp0 pp1 pp2 pp3 cp ck,
        word_programmed_at
          (writes_of ((ht32f165x_protect sample_decls ready_adapter 1 0 0 halted_world).2.trace.drop
            halted_world.trace.length)) (0x1FF00000 + 0) = some pp0 ∧
        word_programmed_at
          (writes_of ((ht32f165x_protect sample_decls ready_adapter 1 0 0 halted_world).2.trace.drop
            halted_world.trace.length)) (0x1FF00000 + 4) = some pp1 ∧
        word_programmed_at
          (writes_of ((ht32f165x_protect sample_decls ready_adapter 1 0 0 halted_world).2.trace.drop
            halted_world.trace.length)) (0x1FF00000 + 8) = some pp2 ∧
        word_programmed_at
          (writes_of ((ht32f165x_protect sample_decls ready_adapter 1 0 0 halted_world).2.trace.drop
            halted_world.trace.length)) (0x1FF00000 + 12) = some pp3 ∧
        word_programmed_at
          (writes_of ((ht32f165x_protect sample_decls ready_adapter 1 0 0 halted_world).2.trace.drop
            halted_world.trace.length)) (0x1FF00000 + 0x10) = some cp ∧
        word_programmed_at
          (writes_of ((ht32f165x_protect sample_decls ready_adapter 1 0 0 halted_world).2.trace.drop
            halted_world.trace.length)) (0x1FF00000 + 0x20) = some ck ∧
        ck ≠ (((2 ^ 32 - 1) - cp) + pp0 + pp1 + pp2 + pp3) % 2 ^ 32 := by
  rw [sample_protect_run]
  exact ⟨rfl, 0, 0xFFFFFFFF, 0xFFFFFFFF, 0xFFFFFFFF, 0xFFFFFFFE, 0xFFFFFFFB, by decide,
    by decide, by decide, by decide, by decide, by decide, by decide⟩

/-- C10, amended: in every run of `ht32f165x_protect` that returns `ERROR_OK`, the checksum
word programmed at option-byte base + 0x20 equals the programmed config word itself (not
its complement) plus the four programmed protection words, modulo 2^32. -/
theorem protect_checksum_word (D : Decls) (A : Adapter) (set : Int) (first last : Nat)
    (w : World)
    (hcode1 : D.ERROR_TARGET_NOT_HALTED ≠ D.ERROR_OK)
    (hcode2 : D.ERROR_FLASH_OPER_UNSUPPORTED ≠ D.ERROR_OK)
    (hok : (ht32f165x_protect D A set first last w).1 = D.ERROR_OK) :
    ∃ pp0 pp1 pp2 pp3 cp ck,
      word_programmed_at
        (writes_of ((ht32f165x_protect D A set first last w).2.trace.drop w.trace.length))
        (0x1FF00000 + 0) = some pp0 ∧
      word_programmed_at
        (writes_of ((ht32f165x_protect D A set first last w).2.trace.drop w.trace.length))
        (0x1FF00000 + 4) = some pp1 ∧
      word_programmed_at
        (writes_of ((ht32f165x_protect D A set first last w).2.trace.drop w.trace.length))
        (0x1FF00000 + 8) = some pp2 ∧
      word_programmed_at
        (writes_of ((ht32f165x_protect D A set first last w).2.trace.drop w.trace.length))
        (0x1FF00000 + 12) = some pp3 ∧
      word_programmed_at
        (writes_of ((ht32f165x_protect D A set first last w).2.trace.drop w.trace.length))
        (0x1FF00000 + 0x10) = some cp ∧
      word_programmed_at
        (writes_of ((ht32f165x_protect D A set first last w).2.trace.drop w.trace.length))
        (0x1FF00000 + 0x20) = some ck ∧
      ck = (cp + pp0 + pp1 + pp2 + pp3) % 2 ^ 32 := by
  obtain ⟨ext, htr, hext⟩ := protect_success_writes D A set first last w hcode1 hcode2 hok
  rw [htr, List.drop_left, hext]
  exact ⟨0, 0xFFFFFFFF, 0xFFFFFFFF, 0xFFFFFFFF, 0xFFFFFFFE, 0xFFFFFFFB, by decide, by decide,
    by decide, by decide, by decide, by decide, by decide⟩

/-- C10, amended, on the sample run. -/
theorem protect_checksum_word_witness :
    ∃ pp0 pp1 pp2 pp3 cp ck,
      word_programmed_at
        (writes_of ((ht32f165x_protect sample_decls ready_adapter 1 0 0 halted_world).2.trace.drop
          halted_world.trace.length)) (0x1FF00000 + 0) = some pp0 ∧
      word_programmed_at
        (writes_of ((ht32f165x_protect sample_decls ready_adapter 1 0 0 halted_world).2.trace.drop
          halted_world.trace.length)) (0x1FF00000 + 4) = some pp1 ∧
      word_programmed_at
        (writes_of ((ht32f165x_protect sample_decls ready_adapter 1 0 0 halted_world).2.trace.drop
          halted_world.trace.length)) (0x1FF00000 + 8) = some pp2 ∧
      word_programmed_at
        (writes_of ((ht32f165x_protect sample_decls ready_adapter 1 0 0 halted_world).2.trace.drop
          halted_world.trace.length)) (0x1FF00000 + 12) = some pp3 ∧
      word_programmed_at
        (writes_of ((ht32f165x_protect sample_decls ready_adapter 1 0 0 halted_world).2.trace.drop
          halted_world.trace.length)) (0x1FF00000 + 0x10) = some cp ∧
      word_programmed_at
        (writes_of ((ht32f165x_protect sample_decls ready_adapter 1 0 0 halted_world).2.trace.drop
          halted_world.trace.length)) (0x1FF00000 + 0x20) = some ck ∧
      ck = (cp + pp0 + pp1 + pp2 + pp3) % 2 ^ 32 :=
  protect_checksum_word sample_decls ready_adapter 1 0 0 halted_world (by decide) (by decide)
    (by rw [sample_protect_run]; rfl)

/-! ## Protection check -/

theorem and_one_shiftLeft_eq_zero_iff (x k : Nat) :
    x &&& (1 <<< k) = 0 ↔ x.testBit k = false := by
  rw [Nat.one_shiftLeft]
  constructor
  · intro h
    have := congrArg (fun y => y.testBit k) h
    simpa [Nat.testBit_two_pow_self] using this
  · intro h
    apply Nat.eq_of_testBit_eq
    intro i
    rw [Nat.testBit_and, Nat.testBit_two_pow, Nat.zero_testBit]
    by_cases hik : k = i
    · subst hik; simp [h]
    · simp [hik]

/-- The flag the second loop of `ht32f165x_protect_check` computes for index `i`. -/
theorem protect_check_flag (p bit : Nat) :
    (if p &&& (1 <<< bit) = 0 then (1 : Int) else 0) = protected_flag p bit := by
  unfold protected_flag
  by_cases h : p.testBit bit = true
  · rw [if_neg (by rw [and_one_shiftLeft_eq_zero_iff]; simp [h]), if_pos h]
  · rw [if_pos (by rw [and_one_shiftLeft_eq_zero_iff]; simpa using h), if_neg h]

theorem protect_check_read_loop_step (A : Adapter) (i : Nat) (ob_pp : List Nat) (w : World)
    (h : i < 4) :
    protect_check_read_loop A i ob_pp w =
      protect_check_read_loop A (i + 1) (ob_pp.set i (A.read_result w.reads).2)
        { w with
          trace := w.trace ++ [Access.read (PPSR + 4 * i)]
          reads := w.reads + 1 } := by
  rw [protect_check_read_loop, if_pos h]
  have e : FMC_REG_BASE + FMC_REG_PPSR + (i <<< 2) = PPSR + 4 * i := by
    rw [Nat.shiftLeft_eq]
    simp only [FMC_REG_BASE, FMC_REG_PPSR, PPSR]
    omega
  simp only [target_read_u32, e]

/-- The first loop of `ht32f165x_protect_check` reads the four protection words. -/
theorem protect_check_read_loop_eval (A : Adapter) (w : World) :
    protect_check_read_loop A 0 [0, 0, 0, 0] w =
      ([(A.read_result w.reads).2, (A.read_result (w.reads + 1)).2,
          (A.read_result (w.reads + 2)).2, (A.read_result (w.reads + 3)).2],
        { w with
          trace := w.trace ++
            [Access.read PPSR, Access.read (PPSR + 4), Access.read (PPSR + 8),
              Access.read (PPSR + 12)]
          reads := w.reads + 4 }) := by
  rw [protect_check_read_loop_step A 0 _ _ (by norm_num)]
  rw [protect_check_read_loop_step A (0 + 1) _ _ (by norm_num)]
  rw [protect_check_read_loop_step A (0 + 1 + 1) _ _ (by norm_num)]
  rw [protect_check_read_loop_step A (0 + 1 + 1 + 1) _ _ (by norm_num)]
  rw [protect_check_read_loop, if_neg (by norm_num)]
  simp

theorem protect_check_set_loop_step (D : Decls) (ob_pp : List Nat) (i : Nat) (w : World)
    (s : flash_sector) (h : i < 128) (hs : w.bank.sectors[i]? = some s) :
    protect_check_set_loop D ob_pp i w =
      protect_check_set_loop D ob_pp (i + 1)
        (store_is_protected i s (protected_flag (ob_pp.getD (i / 32) 0) (i % 32)) w) := by
  rw [protect_check_set_loop, if_pos h]
  simp only [hs, protect_check_flag, store_is_protected, Nat.reduceMul]

theorem protect_check_set_loop_fault (D : Decls) (ob_pp : List Nat) (i : Nat) (w : World)
    (h : i < 128) (hs : w.bank.sectors[i]? = none) :
    protect_check_set_loop D ob_pp i w = Outcome.fault w := by
  rw [protect_check_set_loop, if_pos h]
  simp only [hs]

theorem protect_check_set_loop_done (D : Decls) (ob_pp : List Nat) (i : Nat) (w : World)
    (h : ¬ i < 128) :
    protect_check_set_loop D ob_pp i w = Outcome.ret D.ERROR_OK w := by
  rw [protect_check_set_loop, if_neg h]

/-- Loop invariant of the second loop of `ht32f165x_protect_check` on an array of
`n` entries.  From index `i` the loop ends by returning `ERROR_OK` when `n` is at
least 128 and by the store outside the array at index `n` otherwise; either way
the entries in `[i, min n 128)` have got their flag from the bitmap and nothing
else has changed. -/
theorem protect_check_set_loop_effect (D : Decls) (ob_pp : List Nat) :
    ∀ (r i : Nat) (w : World), i + r = min w.bank.sectors.length 128 →
      ∃ w1,
        protect_check_set_loop D ob_pp i w =
          (if 128 ≤ w.bank.sectors.length then Outcome.ret D.ERROR_OK w1
            else Outcome.fault w1) ∧
        w1.trace = w.trace ∧ w1.writes = w.writes ∧ w1.reads = w.reads ∧
        w1.bank = { w.bank with sectors := w1.bank.sectors } ∧
        w1.bank.sectors.length = w.bank.sectors.length ∧
        ∀ k, w1.bank.sectors[k]? =
          if i ≤ k ∧ k < min w.bank.sectors.length 128 then
            (w.bank.sectors[k]?).map
              (fun s => { s with is_protected := protected_flag (ob_pp.getD (k / 32) 0) (k % 32) })
          else w.bank.sectors[k]? := by
  intro r
  induction r with
  | zero =>
    intro i w hi
    refine ⟨w, ?_, rfl, rfl, rfl, rfl, rfl, fun k => by rw [if_neg (by omega)]⟩
    by_cases hn : 128 ≤ w.bank.sectors.length
    · rw [if_pos hn, protect_check_set_loop_done D ob_pp i w (by omega)]
    · rw [if_neg hn, protect_check_set_loop_fault D ob_pp i w (by omega)
        (List.getElem?_eq_none (by omega))]
  | succ r ih =>
    intro i w hi
    have hlt : i < w.bank.sectors.length := by omega
    have hs : w.bank.sectors[i]? = some (w.bank.sectors[i]) := List.getElem?_eq_getElem hlt
    rw [protect_check_set_loop_step D ob_pp i w _ (by omega) hs]
    obtain ⟨w1, hrun, htr, hwr, hrd, hb, hlen, hsec⟩ := ih (i + 1)
      (store_is_protected i (w.bank.sectors[i])
        (protected_flag (ob_pp.getD (i / 32) 0) (i % 32)) w)
      (by simp [store_is_protected]; omega)
    refine ⟨w1, ?_, ?_, ?_, ?_, ?_, ?_, ?_⟩
    · rw [hrun]; simp [store_is_protected]
    · rw [htr]; rfl
    · rw [hwr]; rfl
    · rw [hrd]; rfl
    · rw [hb]; rfl
    · rw [hlen]; simp [store_is_protected]
    · intro k
      rw [hsec k]
      simp only [store_is_protected, List.length_set]
      by_cases hk : k = i
      · subst hk
        rw [if_neg (by omega), if_pos (by omega)]
        simp [hs, List.getElem?_set_self hlt]
      · rw [List.getElem?_set_ne (Ne.symm hk)]
        by_cases hk2 : i + 1 ≤ k ∧ k < min w.bank.sectors.length 128
        · rw [if_pos hk2, if_pos (by omega)]
        · rw [if_neg hk2, if_neg (by omega)]

/-- `ht32f165x_protect_check` on an array of `n` entries, for any adapter: five
reads, then the flags of the entries below `min n 128` are set from the four
protection words, and the run ends by `return ERROR_OK` when `n` is at least 128
and by the store outside the array at index `n` otherwise. -/
theorem protect_check_effect (D : Decls) (A : Adapter) (w : World) :
    ∃ w1,
      ht32f165x_protect_check D A w =
        (if 128 ≤ w.bank.sectors.length then Outcome.ret D.ERROR_OK w1
          else Outcome.fault w1) ∧
      w1.trace = w.trace ++ protect_check_reads ∧ w1.writes = w.writes ∧
      w1.reads = w.reads + 5 ∧
      w1.bank = { w.bank with sectors := w1.bank.sectors } ∧
      w1.bank.sectors.length = w.bank.sectors.length ∧
      ∀ k, w1.bank.sectors[k]? =
        if k < min w.bank.sectors.length 128 then
          (w.bank.sectors[k]?).map
            (fun s =>
              { s with is_protected := protected_flag (A.read_result (w.reads + k / 32)).2 (k % 32) })
        else w.bank.sectors[k]? := by
  unfold ht32f165x_protect_check
  simp only [protect_check_read_loop_eval, target_read_u32]
  obtain ⟨w1, hrun, htr, hwr, hrd, hb, hlen, hsec⟩ := protect_check_set_loop_effect D
    [(A.read_result w.reads).2, (A.read_result (w.reads + 1)).2,
      (A.read_result (w.reads + 2)).2, (A.read_result (w.reads + 3)).2]
    (min w.bank.sectors.length 128) 0
    (World.mk w.bank
      (w.trace ++
        [Access.read PPSR, Access.read (PPSR + 4), Access.read (PPSR + 8),
          Access.read (PPSR + 12)] ++ [Access.read (FMC_REG_BASE + FMC_REG_CPSR)])
      w.writes (w.reads + 4 + 1))
    (by simp)
  refine ⟨w1, hrun, ?_, hwr, ?_, hb, hlen, ?_⟩
  · rw [htr]
    simp [protect_check_reads, CPSR, FMC_REG_BASE, FMC_REG_CPSR]
  · rw [hrd]
  · intro k
    rw [hsec k]
    by_cases hk : k < min w.bank.sectors.length 128
    · rw [if_pos ⟨Nat.zero_le _, hk⟩, if_pos hk]
      have hk32 : k / 32 < 4 := by omega
      have hp : [(A.read_result w.reads).2, (A.read_result (w.reads + 1)).2,
          (A.read_result (w.reads + 2)).2, (A.read_result (w.reads + 3)).2].getD (k / 32) 0 =
          (A.read_result (w.reads + k / 32)).2 := by
        interval_cases (k / 32) <;> rfl
      simp only [hp]
    · rw [if_neg (fun h => hk h.2), if_neg hk]

/-- C11: for every bank with `n` sector entries and every four values p0 .. p3 read from
the protection status registers (reads number 0 .. 3 of the call), `ht32f165x_protect_check`
leaves, for every index `i < min n 128`, sector `i` with `is_protected = 1` when bit
`i mod 32` of p_(i div 32) is 0 and `is_protected = 0` when that bit is 1, its other
fields as they were.  The flags are the same for any other adapter and world with the
same four values and the same `n`, whatever CPSR reads as and whatever the flags were
before.  (The run ends with `return ERROR_OK` when `n` is at least 128 and at the store
to index `n` otherwise.) -/
theorem protect_check_sets_flags_from_bitmap (D : Decls) (A : Adapter) (w : World) :
    ∃ w1,
      ht32f165x_protect_check D A w =
        (if 128 ≤ w.bank.sectors.length then Outcome.ret D.ERROR_OK w1
          else Outcome.fault w1) ∧
      w1.bank.sectors.length = w.bank.sectors.length ∧
      (∀ i s, i < min w.bank.sectors.length 128 → w.bank.sectors[i]? = some s →
        w1.bank.sectors[i]? =
          some
            { offset := s.offset
              size := s.size
              is_erased := s.is_erased
              is_protected :=
                if ((A.read_result (w.reads + i / 32)).2).testBit (i % 32) then 0 else 1 }) ∧
      (∀ (A2 : Adapter) (w2 : World),
        w2.bank.sectors.length = w.bank.sectors.length →
        (∀ j, j < 4 → (A2.read_result (w2.reads + j)).2 = (A.read_result (w.reads + j)).2) →
        ∃ w3,
          ht32f165x_protect_check D A2 w2 =
            (if 128 ≤ w.bank.sectors.length then Outcome.ret D.ERROR_OK w3
              else Outcome.fault w3) ∧
          ∀ i, i < min w.bank.sectors.length 128 →
            (w3.bank.sectors[i]?).map (fun s => s.is_protected) =
              (w1.bank.sectors[i]?).map (fun s => s.is_protected)) := by
  obtain ⟨w1, hrun, _, _, _, _, hlen, hsec⟩ := protect_check_effect D A w
  refine ⟨w1, hrun, hlen, ?_, ?_⟩
  · intro i s hi hs
    rw [hsec i, if_pos hi, hs]
    rfl
  · intro A2 w2 hlen2 hp
    obtain ⟨w3, hrun3, _, _, _, _, _, hsec3⟩ := protect_check_effect D A2 w2
    refine ⟨w3, by rw [hrun3, hlen2], ?_⟩
    intro i hi
    have hi1 : i < w.bank.sectors.length := by omega
    have hi2 : i < w2.bank.sectors.length := by omega
    rw [hsec3 i, hsec i, if_pos (by omega), if_pos hi, hp (i / 32) (by omega),
      List.getElem?_eq_getElem hi1, List.getElem?_eq_getElem hi2]
    rfl

/-- C11 on the sample bank of four sectors with every protection word read as 0x1D
(bits 0, 2, 3, 4 set, bit 1 clear): the flags become 0, 1, 0, 0. -/
theorem protect_check_sets_flags_from_bitmap_witness :
    ∃ w1,
      ht32f165x_protect_check sample_decls ready_adapter halted_world = Outcome.fault w1 ∧
      w1.bank.sectors.map (fun s => s.is_protected) = [0, 1, 0, 0] := by
  obtain ⟨w1, hrun, hlen, hsec, _⟩ :=
    protect_check_sets_flags_from_bitmap sample_decls ready_adapter halted_world
  refine ⟨w1, by simpa [halted_world, sample_bank] using hrun, ?_⟩
  have h0 := hsec 0 _ (by decide) rfl
  have h1 := hsec 1 _ (by decide) rfl
  have h2 := hsec 2 _ (by decide) rfl
  have h3 := hsec 3 _ (by decide) rfl
  apply List.ext_getElem?
  intro k
  rcases Nat.lt_or_ge k 4 with hk | hk
  · interval_cases k
    · rw [List.getElem?_map, h0]; decide
    · rw [List.getElem?_map, h1]; decide
    · rw [List.getElem?_map, h2]; decide
    · rw [List.getElem?_map, h3]; decide
  · rw [List.getElem?_eq_none (by simpa [hlen, halted_world, sample_bank] using hk),
      List.getElem?_eq_none (by simpa using hk)]

/-- C12 fails on the code: on the four-sector sample bank `ht32f165x_protect_check` does
not return; its second loop goes on to index 4, where `bank->sectors[4]` is outside the
array of four entries, and takes the out-of-range branch there. -/
theorem protect_check_stores_outside_array :
    ∃ w1 ob_pp,
      ht32f165x_protect_check sample_decls ready_adapter halted_world = Outcome.fault w1 ∧
      w1.bank.sectors.length = 4 ∧ w1.bank.sectors[4]? = none ∧
      protect_check_set_loop sample_decls ob_pp 4 w1 = Outcome.fault w1 := by
  obtain ⟨w1, hrun, _, _, _, _, hlen, _⟩ :=
    protect_check_effect sample_decls ready_adapter halted_world
  have hlen4 : w1.bank.sectors.length = 4 := by
    simpa [halted_world, sample_bank] using hlen
  have hnone : w1.bank.sectors[4]? = none := List.getElem?_eq_none (by omega)
  exact ⟨w1, [], by simpa [halted_world, sample_bank] using hrun, hlen4, hnone,
    protect_check_set_loop_fault sample_decls [] 4 w1 (by norm_num) hnone⟩

/-! ## Probe -/

theorem probe_loop_step (D : Decls) (A : Adapter) (page_size num_pages i : Nat) (w : World)
    (h : i < num_pages) (hlen : i < w.bank.sectors.length) :
    probe_loop D A page_size num_pages i w =
      probe_loop D A page_size num_pages (i + 1) (store_probed_sector page_size i w) := by
  rw [probe_loop, if_pos h, List.getElem?_eq_getElem hlen]

theorem probe_loop_done (D : Decls) (A : Adapter) (page_size num_pages i : Nat) (w : World)
    (h : ¬ i < num_pages) :
    probe_loop D A page_size num_pages i w =
      match ht32f165x_protect_check D A w with
      | Outcome.ret _ w1 => Outcome.ret D.ERROR_OK w1
      | Outcome.fault w1 => Outcome.fault w1
      | Outcome.out_of_fuel => Outcome.out_of_fuel := by
  rw [probe_loop, if_neg h]

/-- Loop invariant of `ht32f165x_probe` on a fresh array of `num_pages` entries: the
entries from `i` on get their geometry, then `ht32f165x_protect_check` sets the flags
below `min num_pages 128`.  The run ends with `return ERROR_OK` when `num_pages` is
at least 128 and at the store to index `num_pages` otherwise. -/
theorem probe_loop_effect (D : Decls) (A : Adapter) (page_size num_pages : Nat) :
    ∀ (r i : Nat) (w : World), i + r = num_pages → w.bank.sectors.length = num_pages →
      ∃ w1,
        probe_loop D A page_size num_pages i w =
          (if 128 ≤ num_pages then Outcome.ret D.ERROR_OK w1 else Outcome.fault w1) ∧
        w1.trace = w.trace ++ protect_check_reads ∧ w1.writes = w.writes ∧
        w1.reads = w.reads + 5 ∧
        w1.bank = { w.bank with sectors := w1.bank.sectors } ∧
        w1.bank.sectors.length = num_pages ∧
        (∀ k, i ≤ k → k < num_pages →
          ∃ flag, w1.bank.sectors[k]? =
            some { (probed_sector page_size k) with is_protected := flag }) ∧
        (∀ k s, k < i → w.bank.sectors[k]? = some s →
          ∃ flag, w1.bank.sectors[k]? = some { s with is_protected := flag }) := by
  intro r
  induction r with
  | zero =>
    intro i w hi hlen
    obtain ⟨w1, hrun, htr, hwr, hrd, hb, hlen1, hsec⟩ := protect_check_effect D A w
    refine ⟨w1, ?_, htr, hwr, hrd, hb, by rw [hlen1, hlen], fun k h1 h2 => by omega, ?_⟩
    · rw [probe_loop_done D A page_size num_pages i w (by omega), hrun, hlen]
      by_cases hn : 128 ≤ num_pages
      · simp only [if_pos hn]
      · simp only [if_neg hn]
    · intro k s _ hs
      rw [hsec k, hs]
      by_cases hk : k < min w.bank.sectors.length 128
      · rw [if_pos hk]; exact ⟨_, rfl⟩
      · rw [if_neg hk]; exact ⟨s.is_protected, rfl⟩
  | succ r ih =>
    intro i w hi hlen
    have hlt : i < w.bank.sectors.length := by omega
    rw [probe_loop_step D A page_size num_pages i w (by omega) hlt]
    obtain ⟨w1, hrun, htr, hwr, hrd, hb, hlen1, hnew, hold⟩ :=
      ih (i + 1) (store_probed_sector page_size i w) (by omega)
        (by simp [store_probed_sector, hlen])
    refine ⟨w1, hrun, by rw [htr]; rfl, by rw [hwr]; rfl, by rw [hrd]; rfl, ?_, hlen1, ?_, ?_⟩
    · rw [hb]; rfl
    · intro k h1 h2
      by_cases hk : k = i
      · subst hk
        exact hold k (probed_sector page_size k) (by omega)
          (by simp [store_probed_sector, List.getElem?_set_self hlt])
      · exact hnew k (by omega) h2
    · intro k s hk hs
      exact hold k s (by omega)
        (by simp only [store_probed_sector]; rw [List.getElem?_set_ne (by omega)]; exact hs)

/-- `ht32f165x_probe` for any bank size and adapter: base 0, `size / 1024` entries with
offset `1024 * i`, size 1024 and `is_erased = -1`, five register reads; the run ends
with `return ERROR_OK` when there are at least 128 entries and at the store to
`bank->sectors[size / 1024]` otherwise. -/
theorem probe_effect (D : Decls) (A : Adapter) (w : World) (hsize : w.bank.size < 2 ^ 32) :
    ∃ w1,
      ht32f165x_probe D A w =
        (if 128 ≤ w.bank.size / 1024 then Outcome.ret D.ERROR_OK w1 else Outcome.fault w1) ∧
      w1.bank.base = 0 ∧ w1.bank.num_sectors = w.bank.size / 1024 ∧
      w1.bank.sectors.length = w.bank.size / 1024 ∧
      w1.trace = w.trace ++ protect_check_reads ∧
      ∀ i, i < w.bank.size / 1024 →
        ∃ flag, w1.bank.sectors[i]? =
          some { offset := 1024 * i, size := 1024, is_erased := -1, is_protected := flag } := by
  obtain ⟨w1, hrun, htr, _, _, hb, hlen1, hnew, _⟩ :=
    probe_loop_effect D A 1024 (w.bank.size / 1024) (w.bank.size / 1024) 0
      { w with bank :=
          { w.bank with
            base := 0x0
            num_sectors := w.bank.size / 1024
            sectors := List.replicate (w.bank.size / 1024) (flash_sector.mk 0 0 0 0) } }
      (by omega) (by simp)
  refine ⟨w1, hrun, by rw [hb], by rw [hb], hlen1, htr, ?_⟩
  intro i hi
  obtain ⟨flag, hf⟩ := hnew i (Nat.zero_le _) hi
  refine ⟨flag, ?_⟩
  rw [hf]
  simp only [probed_sector, Option.some.injEq, flash_sector.mk.injEq, and_true]
  omega

/-- C13 fails on the code for the size 4096 that it names: `ht32f165x_probe` sets up
base 0 and four sectors at 0, 1024, 2048, 3072 of size 1024 with `is_erased = -1`, but
does not return `ERROR_OK`: the call of `ht32f165x_protect_check` goes on to
`bank->sectors[4]`, outside the array it has just allocated. -/
theorem probe_of_4096_bytes :
    ∃ w1,
      ht32f165x_probe sample_decls ready_adapter unprobed_world = Outcome.fault w1 ∧
      w1.bank.base = 0 ∧ w1.bank.num_sectors = 4 ∧ w1.bank.sectors.length = 4 ∧
      ∀ i, i < 4 →
        ∃ flag, w1.bank.sectors[i]? =
          some { offset := 1024 * i, size := 1024, is_erased := -1, is_protected := flag } := by
  obtain ⟨w1, hrun, hbase, hnum, hlen, _, hsec⟩ :=
    probe_effect sample_decls ready_adapter unprobed_world (by decide)
  exact ⟨w1, by simpa [unprobed_world] using hrun, hbase, by simpa [unprobed_world] using hnum,
    by simpa [unprobed_world] using hlen, fun i hi => hsec i (by simpa [unprobed_world] using hi)⟩

/-! ## The status poller: operation mode and bounds -/

theorem reads_in_busy_rounds (m : Nat) : reads_in (busy_rounds m ++ [Access.read OPCR]) = m + 1 := by
  induction m with
  | zero => simp [busy_rounds, reads_in]
  | succ m ih =>
    rw [busy_rounds_succ]
    simp only [reads_in] at ih ⊢
    simp only [List.append_assoc, List.cons_append, List.nil_append, List.filter_cons,
      if_true, List.length_cons, Bool.false_eq_true, if_false]
    omega

theorem sleeps_in_busy_rounds (m : Nat) : sleeps_in (busy_rounds m ++ [Access.read OPCR]) = m := by
  induction m with
  | zero => simp [busy_rounds, sleeps_in]
  | succ m ih =>
    rw [busy_rounds_succ]
    simp only [sleeps_in] at ih ⊢
    simp only [List.append_assoc, List.cons_append, List.nil_append, List.filter_cons,
      if_true, List.length_cons, Bool.false_eq_true, if_false]
    omega

/-- For any adapter and timeout, a poll is some number `m` of busy rounds, `m` at
most `max timeout 0`, followed by one last status read. -/
theorem wait_shape (D : Decls) (A : Adapter) :
    ∀ (n : Nat) (timeout : Int) (w : World), timeout.toNat = n →
      ∃ m, m ≤ n ∧
        (ht32f165x_wait_status_busy D A timeout w).2.trace =
          w.trace ++ busy_rounds m ++ [Access.read OPCR] ∧
        (ht32f165x_wait_status_busy D A timeout w).2.reads = w.reads + m + 1 := by
  intro n
  induction n with
  | zero =>
    intro timeout w ht
    have hle : timeout ≤ 0 := by omega
    rw [wait_unfold]
    split_ifs <;> exact ⟨0, le_refl _, by simp [busy_rounds], rfl⟩
  | succ n ih =>
    intro timeout w ht
    rw [wait_unfold]
    split_ifs with h1 h2 h3
    · exact ⟨0, Nat.zero_le _, by simp [busy_rounds], rfl⟩
    · exact ⟨0, Nat.zero_le _, by simp [busy_rounds], rfl⟩
    · exact ⟨0, Nat.zero_le _, by simp [busy_rounds], rfl⟩
    · obtain ⟨m, hm, htr, hrd⟩ := ih (timeout - 1)
        { w with trace := w.trace ++ [Access.read OPCR, Access.sleep 10], reads := w.reads + 1 }
        (by omega)
      refine ⟨m + 1, by omega, ?_, ?_⟩
      · rw [htr, busy_rounds_succ]; simp
      · rw [hrd]; simp only; omega

/-- A poll that sees only busy reads, for any timeout, also a negative one. -/
theorem wait_times_out_int (D : Decls) (A : Adapter) (timeout : Int) (w : World)
    (hbusy : ∀ k, k ≤ timeout.toNat → poll_busy D A (w.reads + k)) :
    ht32f165x_wait_status_busy D A timeout w =
      (D.ERROR_FAIL,
        { w with
          trace := w.trace ++ busy_rounds timeout.toNat ++ [Access.read OPCR]
          reads := w.reads + timeout.toNat + 1 }) := by
  by_cases ht : 0 ≤ timeout
  · obtain ⟨n, rfl⟩ : ∃ n : Nat, timeout = (n : Int) := ⟨timeout.toNat, by omega⟩
    have e : ((n : Int)).toNat = n := by omega
    rw [e] at hbusy ⊢
    exact wait_times_out D A n w hbusy
  · have hb := hbusy 0 (Nat.zero_le _)
    simp only [Nat.add_zero] at hb
    have e : timeout.toNat = 0 := by omega
    rw [wait_unfold, if_neg (by simp [hb.1]), if_neg hb.2, if_pos (by omega), e]
    simp [busy_rounds]

theorem and_mask_eq_of_bits (v v2 : Nat)
    (h : ∀ b, 1 ≤ b → b ≤ 4 → v2.testBit b = v.testBit b) : v2 &&& 0x1E = v &&& 0x1E := by
  apply Nat.eq_of_testBit_eq
  intro i
  rw [Nat.testBit_and, Nat.testBit_and]
  by_cases hi : 1 ≤ i ∧ i ≤ 4
  · rw [h i hi.1 hi.2]
  · have hz : (0x1E : Nat).testBit i = false := by
      rcases Nat.lt_or_ge i 1 with h0 | h0
      · have : i = 0 := by omega
        subst this; decide
      · have h5 : 5 ≤ i := by omega
        apply Nat.testBit_lt_two_pow
        calc (0x1E : Nat) < 2 ^ 5 := by norm_num
          _ ≤ 2 ^ i := Nat.pow_le_pow_right (by norm_num) h5
    rw [hz, Bool.and_false, Bool.and_false]

/-- Two adapters whose reads agree in return code and in the operation-mode field
give the same poll. -/
theorem wait_congr (D : Decls) (A A2 : Adapter)
    (h : ∀ n, (A2.read_result n).1 = (A.read_result n).1 ∧
      (A2.read_result n).2 &&& 0x1E = (A.read_result n).2 &&& 0x1E) :
    ∀ (n : Nat) (timeout : Int) (w : World), timeout.toNat = n →
      ht32f165x_wait_status_busy D A2 timeout w = ht32f165x_wait_status_busy D A timeout w := by
  intro n
  induction n with
  | zero =>
    intro timeout w ht
    have hle : timeout ≤ 0 := by omega
    rw [wait_unfold, wait_unfold D A, (h w.reads).1, (h w.reads).2]
    simp only [hle, if_true]
  | succ n ih =>
    intro timeout w ht
    rw [wait_unfold, wait_unfold D A, (h w.reads).1, (h w.reads).2]
    rw [ih (timeout - 1) _ (by omega)]

/-- C15: the outcome of `ht32f165x_wait_status_busy` depends only on bits 1-4 of the
status values.  A read that succeeds with `(v & 0x1E) = 0x1C` ends the poll at once with
`ERROR_OK`, after that single read and no sleep; a read that succeeds with any other
field value, the commit pattern 0x14 included, is followed (while the countdown is
positive) by a sleep and another round; a failed read ends the poll with its return
code; and an adapter that agrees in the return codes and in bits 1-4 of every value
gives the same poll, whatever the other 28 bits are. -/
theorem wait_reads_operation_mode_only (D : Decls) (A : Adapter) (timeout : Int) (w : World) :
    ((A.read_result w.reads).1 = D.ERROR_OK → (A.read_result w.reads).2 &&& 0x1E = 0x1C →
      ht32f165x_wait_status_busy D A timeout w =
        (D.ERROR_OK, { w with trace := w.trace ++ [Access.read OPCR], reads := w.reads + 1 })) ∧
    ((A.read_result w.reads).1 = D.ERROR_OK → (A.read_result w.reads).2 &&& 0x1E ≠ 0x1C →
      0 < timeout →
      ht32f165x_wait_status_busy D A timeout w =
        ht32f165x_wait_status_busy D A (timeout - 1)
          { w with
            trace := w.trace ++ [Access.read OPCR, Access.sleep 10]
            reads := w.reads + 1 }) ∧
    ((A.read_result w.reads).1 = D.ERROR_OK → (A.read_result w.reads).2 &&& 0x1E = 0x14 →
      0 < timeout →
      ht32f165x_wait_status_busy D A timeout w =
        ht32f165x_wait_status_busy D A (timeout - 1)
          { w with
            trace := w.trace ++ [Access.read OPCR, Access.sleep 10]
            reads := w.reads + 1 }) ∧
    ((A.read_result w.reads).1 ≠ D.ERROR_OK →
      ht32f165x_wait_status_busy D A timeout w =
        ((A.read_result w.reads).1,
          { w with trace := w.trace ++ [Access.read OPCR], reads := w.reads + 1 })) ∧
    (∀ A2 : Adapter,
      (∀ n, (A2.read_result n).1 = (A.read_result n).1 ∧
        ∀ b, 1 ≤ b → b ≤ 4 →
          ((A2.read_result n).2).testBit b = ((A.read_result n).2).testBit b) →
      ht32f165x_wait_status_busy D A2 timeout w = ht32f165x_wait_status_busy D A timeout w) := by
  have hbusy : (A.read_result w.reads).1 = D.ERROR_OK → (A.read_result w.reads).2 &&& 0x1E ≠ 0x1C →
      0 < timeout →
      ht32f165x_wait_status_busy D A timeout w =
        ht32f165x_wait_status_busy D A (timeout - 1)
          { w with
            trace := w.trace ++ [Access.read OPCR, Access.sleep 10]
            reads := w.reads + 1 } := by
    intro h1 h2 h3
    rw [wait_unfold, if_neg (by simp [h1]), if_neg h2, if_neg (by omega)]
  refine ⟨fun h1 h2 => wait_finished_first D A timeout w ⟨h1, h2⟩, hbusy, ?_, ?_, ?_⟩
  · intro h1 h2 h3
    exact hbusy h1 (by rw [h2]; decide) h3
  · intro h1
    rw [wait_unfold, if_pos h1]
  · intro A2 h
    exact wait_congr D A A2
      (fun n => ⟨(h n).1, and_mask_eq_of_bits _ _ (h n).2⟩) _ timeout w rfl

/-- C15 on concrete status values: 0xFFFFFFFD ends the poll with success after one read,
and a read that fails with -4 ends it with -4 although its value shows finished. -/
theorem wait_reads_operation_mode_only_witness :
    ht32f165x_wait_status_busy sample_decls noisy_adapter 1000 halted_world =
        (0, { halted_world with trace := [Access.read OPCR], reads := 1 }) ∧
      ht32f165x_wait_status_busy sample_decls failing_read_adapter 1000 halted_world =
        (-4, { halted_world with trace := [Access.read OPCR], reads := 1 }) :=
  ⟨(wait_reads_operation_mode_only sample_decls noisy_adapter 1000 halted_world).1 rfl
      (by show (0xFFFFFFFD : Nat) &&& 0x1E = 0x1C; decide),
    (wait_reads_operation_mode_only sample_decls failing_read_adapter 1000 halted_world).2.2.2.1
      (by decide)⟩

/-- C19: for every timeout `t` and every adapter, a call of `ht32f165x_wait_status_busy`
returns after at most `max t 0 + 1` status reads and at most `max t 0` sleeps (here
`t.toNat = max t 0`).  When every read it makes succeeds without showing finished, it
makes exactly `max t 0 + 1` reads and `max t 0` sleeps and returns `ERROR_FAIL`.  With
the fixed timeout 1000, a status that first shows finished on the 1001st read gives
`ERROR_OK`. -/
theorem wait_is_bounded (D : Decls) (A : Adapter) (timeout : Int) (w : World) :
    (timeout.toNat : Int) = max timeout 0 ∧
    (∃ ext, (ht32f165x_wait_status_busy D A timeout w).2.trace = w.trace ++ ext ∧
      (ht32f165x_wait_status_busy D A timeout w).2.reads = w.reads + reads_in ext ∧
      reads_in ext ≤ timeout.toNat + 1 ∧ sleeps_in ext ≤ timeout.toNat) ∧
    ((∀ k, k ≤ timeout.toNat → poll_busy D A (w.reads + k)) →
      ∃ ext,
        ht32f165x_wait_status_busy D A timeout w =
          (D.ERROR_FAIL,
            { w with trace := w.trace ++ ext, reads := w.reads + (timeout.toNat + 1) }) ∧
        reads_in ext = timeout.toNat + 1 ∧ sleeps_in ext = timeout.toNat) ∧
    ((∀ k, k < 1000 → poll_busy D A (w.reads + k)) → poll_finished D A (w.reads + 1000) →
      ∃ ext,
        ht32f165x_wait_status_busy D A FLASH_ERASE_TIMEOUT w =
          (D.ERROR_OK, { w with trace := w.trace ++ ext, reads := w.reads + 1001 }) ∧
        reads_in ext = 1001 ∧ sleeps_in ext = 1000) := by
  refine ⟨by omega, ?_, ?_, ?_⟩
  · obtain ⟨m, hm, htr, hrd⟩ := wait_shape D A _ timeout w rfl
    refine ⟨busy_rounds m ++ [Access.read OPCR], by rw [htr, List.append_assoc], ?_, ?_, ?_⟩
    · rw [hrd, reads_in_busy_rounds]; omega
    · rw [reads_in_busy_rounds]; omega
    · rw [sleeps_in_busy_rounds]; omega
  · intro hbusy
    refine ⟨busy_rounds timeout.toNat ++ [Access.read OPCR], ?_, reads_in_busy_rounds _,
      sleeps_in_busy_rounds _⟩
    rw [wait_times_out_int D A timeout w hbusy]
    simp [Nat.add_assoc]
  · intro hbusy hfin
    refine ⟨busy_rounds 1000 ++ [Access.read OPCR], ?_, reads_in_busy_rounds _,
      sleeps_in_busy_rounds _⟩
    rw [show FLASH_ERASE_TIMEOUT = 1000 from rfl,
      wait_busy_then_finished D A 1000 1000 w (by norm_num) hbusy hfin]
    simp

/-- C19 with the adapter that shows finished from the 1001st read on: the poll with
timeout 1000 succeeds after 1001 reads and 1000 sleeps. -/
theorem wait_is_bounded_witness :
    ∃ ext,
      ht32f165x_wait_status_busy sample_decls late_adapter FLASH_ERASE_TIMEOUT halted_world =
        (0, { halted_world with trace := ext, reads := 1001 }) ∧
      reads_in ext = 1001 ∧ sleeps_in ext = 1000 := by
  obtain ⟨ext, h1, h2, h3⟩ :=
    (wait_is_bounded sample_decls late_adapter FLASH_ERASE_TIMEOUT halted_world).2.2.2
      (fun k hk => by simpa [halted_world] using late_adapter_polls.1 k hk)
      (by simpa [halted_world] using late_adapter_polls.2)
  exact ⟨ext, by simpa [halted_world] using h1, h2, h3⟩

/-! ## Mass erase -/

/-- `ht32f165x_mass_erase` on a halted target, case by case on the two writes. -/
theorem mass_erase_unfold (D : Decls) (A : Adapter) (w : World)
    (hhalted : w.bank.target.state = D.TARGET_HALTED) :
    ht32f165x_mass_erase D A w =
      if A.write_result w.writes ≠ D.ERROR_OK then
        (A.write_result w.writes,
          { w with trace := w.trace ++ [Access.write OCMR 0xA], writes := w.writes + 1 })
      else if A.write_result (w.writes + 1) ≠ D.ERROR_OK then
        (A.write_result (w.writes + 1),
          { w with
            trace := w.trace ++ [Access.write OCMR 0xA, Access.write OPCR 0x14]
            writes := w.writes + 2 })
      else
        ht32f165x_wait_status_busy D A 1000
          { w with
            trace := w.trace ++ [Access.write OCMR 0xA, Access.write OPCR 0x14]
            writes := w.writes + 2 } := by
  have e1 : FMC_REG_BASE + FMC_REG_OCMR = OCMR := by decide
  have e2 : FMC_REG_BASE + FMC_REG_OPCR = OPCR := by decide
  have e3 : FMC_CMD_MASS_ERASE = 0xA := by decide
  have e4 : FMC_COMMIT = 0x14 := by decide
  have e5 : FLASH_ERASE_TIMEOUT = 1000 := rfl
  simp only [ht32f165x_mass_erase, hhalted, ne_eq, not_true_eq_false, if_false,
    target_write_u32, e1, e2, e3, e4, e5]
  by_cases h1 : A.write_result w.writes = D.ERROR_OK
  · simp only [h1, not_true_eq_false, if_false]
    by_cases h2 : A.write_result (w.writes + 1) = D.ERROR_OK
    · simp only [h2, not_true_eq_false, if_false, List.append_assoc, List.cons_append,
        List.nil_append]
      split_ifs with h3
      · rw [← h3]
      · rfl
    · simp only [h2, not_false_eq_true, if_true, List.append_assoc, List.cons_append,
        List.nil_append]
  · simp only [h1, not_false_eq_true, if_true]

/-- Whatever the adapter answers, `ht32f165x_mass_erase` leaves the bank alone and
writes OCMR <- 0xA, then at most OPCR <- 0x14, and no other register. -/
theorem mass_erase_frame (D : Decls) (A : Adapter) (w : World)
    (hhalted : w.bank.target.state = D.TARGET_HALTED) :
    (ht32f165x_mass_erase D A w).2.bank = w.bank ∧
      ∃ ext, (ht32f165x_mass_erase D A w).2.trace = w.trace ++ ext ∧
        (writes_of ext = [(OCMR, 0xA)] ∨ writes_of ext = [(OCMR, 0xA), (OPCR, 0x14)]) := by
  rw [mass_erase_unfold D A w hhalted]
  split_ifs with h1 h2
  · exact ⟨rfl, [Access.write OCMR 0xA], rfl, Or.inl rfl⟩
  · exact ⟨rfl, [Access.write OCMR 0xA, Access.write OPCR 0x14], rfl, Or.inr rfl⟩
  · obtain ⟨hb, _, ext, htr, hext⟩ := wait_frame D A _ 1000
      { w with
        trace := w.trace ++ [Access.write OCMR 0xA, Access.write OPCR 0x14]
        writes := w.writes + 2 } rfl
    refine ⟨hb, [Access.write OCMR 0xA, Access.write OPCR 0x14] ++ ext, ?_, Or.inr ?_⟩
    · rw [htr]; simp
    · rw [writes_of_append, hext]; rfl

theorem mass_erase_mark_loop_step (retval : Int) (i : Nat) (w : World)
    (h : i < w.bank.num_sectors) (hlen : i < w.bank.sectors.length) :
    mass_erase_mark_loop retval i w =
      mass_erase_mark_loop retval (i + 1) (store_is_erased i (w.bank.sectors[i]) 1 w) := by
  rw [mass_erase_mark_loop, if_pos h, List.getElem?_eq_getElem hlen]

/-- Loop invariant of the handler's loop on a bank whose array has `num_sectors`
entries: it returns `retval` with `is_erased = 1` in every entry from `i` on and
nothing else changed. -/
theorem mass_erase_mark_loop_effect (retval : Int) :
    ∀ (r i : Nat) (w : World), i + r = w.bank.num_sectors →
      w.bank.sectors.length = w.bank.num_sectors →
      ∃ w1, mass_erase_mark_loop retval i w = Outcome.ret retval w1 ∧
        w1.trace = w.trace ∧ w1.writes = w.writes ∧ w1.reads = w.reads ∧
        w1.bank = { w.bank with sectors := w1.bank.sectors } ∧
        w1.bank.sectors.length = w.bank.sectors.length ∧
        ∀ k, w1.bank.sectors[k]? =
          if i ≤ k then (w.bank.sectors[k]?).map (fun s => { s with is_erased := 1 })
          else w.bank.sectors[k]? := by
  intro r
  induction r with
  | zero =>
    intro i w hi hlen
    refine ⟨w, by rw [mass_erase_mark_loop, if_neg (by omega)], rfl, rfl, rfl, rfl, rfl, ?_⟩
    intro k
    by_cases hk : i ≤ k
    · rw [if_pos hk, List.getElem?_eq_none (by omega)]; rfl
    · rw [if_neg hk]
  | succ r ih =>
    intro i w hi hlen
    have hlt : i < w.bank.sectors.length := by omega
    rw [mass_erase_mark_loop_step retval i w (by omega) hlt]
    obtain ⟨w1, hrun, htr, hwr, hrd, hb, hlen1, hsec⟩ :=
      ih (i + 1) (store_is_erased i (w.bank.sectors[i]) 1 w)
        (by simp [store_is_erased]; omega) (by simp [store_is_erased, hlen])
    refine ⟨w1, hrun, by rw [htr]; rfl, by rw [hwr]; rfl, by rw [hrd]; rfl, ?_, ?_, ?_⟩
    · rw [hb]; rfl
    · rw [hlen1]; simp [store_is_erased]
    · intro k
      rw [hsec k]
      simp only [store_is_erased]
      by_cases hk : k = i
      · subst hk
        rw [if_neg (by omega), if_pos (le_refl _)]
        simp [List.getElem?_eq_getElem hlt, List.getElem?_set_self hlt]
      · rw [List.getElem?_set_ne (Ne.symm hk)]
        by_cases hk2 : i + 1 ≤ k
        · rw [if_pos hk2, if_pos (by omega)]
        · rw [if_neg hk2, if_neg (by omega)]

/-- C16: on a halted target `ht32f165x_mass_erase` changes no field of any sector,
whatever it returns, and writes only OCMR <- 0xA and then OPCR <- 0x14 (never TADR or
WRDR); when both writes succeed it is exactly these two writes followed by one poll,
which is a single status read when that read shows finished.  The `mass_erase` command
handler (with a bank argument that resolves) sets `is_erased = 1` on every sector and
changes nothing else when `ht32f165x_mass_erase` returned `ERROR_OK`, and changes no
sector when it returned an error, which it passes on. -/
theorem mass_erase_touches_no_sector (D : Decls) (A : Adapter) (CMD_ARGC : Nat) (w : World)
    (hhalted : w.bank.target.state = D.TARGET_HALTED)
    (hargc : 1 ≤ CMD_ARGC)
    (hnum : w.bank.sectors.length = w.bank.num_sectors) :
    (ht32f165x_mass_erase D A w).2.bank = w.bank ∧
    (∃ ext, (ht32f165x_mass_erase D A w).2.trace = w.trace ++ ext ∧
      (writes_of ext = [(OCMR, 0xA)] ∨ writes_of ext = [(OCMR, 0xA), (OPCR, 0x14)])) ∧
    (A.write_result w.writes = D.ERROR_OK → A.write_result (w.writes + 1) = D.ERROR_OK →
      ht32f165x_mass_erase D A w =
        ht32f165x_wait_status_busy D A 1000
          { w with
            trace := w.trace ++ [Access.write OCMR 0xA, Access.write OPCR 0x14]
            writes := w.writes + 2 }) ∧
    (A.write_result w.writes = D.ERROR_OK → A.write_result (w.writes + 1) = D.ERROR_OK →
      poll_finished D A w.reads →
      ht32f165x_mass_erase D A w =
        (D.ERROR_OK,
          { w with
            trace := w.trace ++
              [Access.write OCMR 0xA, Access.write OPCR 0x14, Access.read OPCR]
            writes := w.writes + 2
            reads := w.reads + 1 })) ∧
    ((ht32f165x_mass_erase D A w).1 = D.ERROR_OK →
      ht32f165x_handle_mass_erase_command D A CMD_ARGC D.ERROR_OK w =
        Outcome.ret D.ERROR_OK
          { (ht32f165x_mass_erase D A w).2 with
            bank :=
              { w.bank with
                sectors := w.bank.sectors.map (fun s => { s with is_erased := 1 }) } }) ∧
    ((ht32f165x_mass_erase D A w).1 ≠ D.ERROR_OK →
      ht32f165x_handle_mass_erase_command D A CMD_ARGC D.ERROR_OK w =
        Outcome.ret (ht32f165x_mass_erase D A w).1 (ht32f165x_mass_erase D A w).2) := by
  obtain ⟨hbank, hext⟩ := mass_erase_frame D A w hhalted
  have hpoll : A.write_result w.writes = D.ERROR_OK →
      A.write_result (w.writes + 1) = D.ERROR_OK →
      ht32f165x_mass_erase D A w =
        ht32f165x_wait_status_busy D A 1000
          { w with
            trace := w.trace ++ [Access.write OCMR 0xA, Access.write OPCR 0x14]
            writes := w.writes + 2 } := by
    intro h1 h2
    rw [mass_erase_unfold D A w hhalted, if_neg (by simp [h1]), if_neg (by simp [h2])]
  refine ⟨hbank, hext, hpoll, ?_, ?_, ?_⟩
  · intro h1 h2 hp
    rw [hpoll h1 h2, wait_finished_first D A 1000 _ (by simpa using hp)]
    simp
  · intro hok
    obtain ⟨w1, hrun, htr, hwr, hrd, hb, hlen, hsec⟩ :=
      mass_erase_mark_loop_effect D.ERROR_OK (w.bank.num_sectors) 0
        (ht32f165x_mass_erase D A w).2 (by rw [hbank]; omega) (by rw [hbank]; exact hnum)
    have hsectors : w1.bank.sectors = w.bank.sectors.map (fun s => { s with is_erased := 1 }) := by
      apply List.ext_getElem?
      intro k
      rw [hsec k, if_pos (Nat.zero_le _), hbank, List.getElem?_map]
    have hw1 : w1 =
        { (ht32f165x_mass_erase D A w).2 with
          bank :=
            { w.bank with
              sectors := w.bank.sectors.map (fun s => { s with is_erased := 1 }) } } := by
      cases w1 with
      | mk b t nw nr =>
        simp only at htr hwr hrd hb hsectors
        simp only [World.mk.injEq]
        refine ⟨?_, htr, hwr, hrd⟩
        rw [hb, hbank, hsectors]
    simp only [ht32f165x_handle_mass_erase_command, Nat.lt_one_iff, ne_eq, not_true_eq_false,
      if_false, hok, if_true, show ¬ CMD_ARGC = 0 by omega]
    rw [hrun, hw1]
  · intro herr
    simp only [ht32f165x_handle_mass_erase_command, Nat.lt_one_iff, ne_eq, not_true_eq_false,
      if_false, herr, show ¬ CMD_ARGC = 0 by omega]

/-- C16 on the sample bank with the adapter that answers every read with 0x1D: two
writes and one read, and the handler marks all four sectors erased. -/
theorem mass_erase_touches_no_sector_witness :
    ht32f165x_mass_erase sample_decls ready_adapter halted_world =
        (0,
          { halted_world with
            trace := [Access.write OCMR 0xA, Access.write OPCR 0x14, Access.read OPCR]
            writes := 2
            reads := 1 }) ∧
      (ht32f165x_mass_erase sample_decls ready_adapter halted_world).2.bank =
        halted_world.bank :=
  ⟨(mass_erase_touches_no_sector sample_decls ready_adapter 1 halted_world (by decide)
      (by decide) (by decide)).2.2.2.1 rfl rfl (ready_adapter_finished _),
    (mass_erase_touches_no_sector sample_decls ready_adapter 1 halted_world (by decide)
      (by decide) (by decide)).1⟩

/-! ## The write engine as a sequence of word programs -/

theorem program_words_cons (D : Decls) (A : Adapter) (addr value : Nat)
    (rest : List (Nat × Nat)) (w : World) :
    program_words D A ((addr, value) :: rest) w =
      if (ht32f165x_program_word D A addr value w).1 ≠ D.ERROR_OK then
        ht32f165x_program_word D A addr value w
      else program_words D A rest (ht32f165x_program_word D A addr value w).2 := rfl

/-- The loop of `ht32f165x_write` refines the specification `program_words`: from
word `j` on, with `m` words left, it calls `program_word` on each remaining word and
stops at the first error. -/
theorem write_loop_eq_program_words (D : Decls) (A : Adapter) (buffer : List Nat) (count : Nat)
    (hcnt : count < 2 ^ 32) (hlen : buffer.length = count) (hbytes : ∀ b ∈ buffer, b < 256) :
    ∀ (m fuel j addr : Nat) (w : World),
      m < fuel → 4 * j + 4 * m = count → addr < 2 ^ 32 →
      write_loop D A buffer count fuel (4 * j) addr w =
        Outcome.ret
          (program_words D A
            ((List.range m).map (fun k => ((addr + 4 * k) % 2 ^ 32, le_word buffer (j + k)))) w).1
          (program_words D A
            ((List.range m).map (fun k => ((addr + 4 * k) % 2 ^ 32, le_word buffer (j + k)))) w).2 := by
  intro m
  induction m with
  | zero =>
    intro fuel j addr w hfuel hj _
    obtain ⟨fuel, rfl⟩ : ∃ f, fuel = f + 1 := ⟨fuel - 1, by omega⟩
    rw [write_loop_step, if_neg (by omega)]
    rfl
  | succ m ih =>
    intro fuel j addr w hfuel hj haddr
    obtain ⟨fuel, rfl⟩ : ∃ f, fuel = f + 1 := ⟨fuel - 1, by omega⟩
    have l0 : 4 * j < buffer.length := by omega
    have l1 : 4 * j + 1 < buffer.length := by omega
    have l2 : 4 * j + 2 < buffer.length := by omega
    have l3 : 4 * j + 3 < buffer.length := by omega
    have m1 : (4 * j + 1) % 2 ^ 32 = 4 * j + 1 := Nat.mod_eq_of_lt (by omega)
    have m2 : (4 * j + 2) % 2 ^ 32 = 4 * j + 2 := Nat.mod_eq_of_lt (by omega)
    have m3 : (4 * j + 3) % 2 ^ 32 = 4 * j + 3 := Nat.mod_eq_of_lt (by omega)
    have m4 : (4 * j + 4) % 2 ^ 32 = 4 * (j + 1) := by
      rw [Nat.mod_eq_of_lt (by omega)]; omega
    have hword : (((buffer[4 * j] % 256) <<< 0) ||| ((buffer[4 * j + 1] % 256) <<< 8) |||
        ((buffer[4 * j + 2] % 256) <<< 16) ||| ((buffer[4 * j + 3] % 256) <<< 24)) % 2 ^ 32 =
        le_word buffer j := by
      rw [word_of_bytes _ _ _ _ (hbytes _ (List.getElem_mem l0)) (hbytes _ (List.getElem_mem l1))
        (hbytes _ (List.getElem_mem l2)) (hbytes _ (List.getElem_mem l3))]
      simp [le_word, List.getD_eq_getElem?_getD, List.getElem?_eq_getElem, l0, l1, l2, l3]
    have e0 : (addr + 4 * 0) % 2 ^ 32 = addr := by simpa using Nat.mod_eq_of_lt haddr
    have ek : ∀ k, ((addr + 4) % 2 ^ 32 + 4 * k) % 2 ^ 32 = (addr + 4 * (k + 1)) % 2 ^ 32 := by
      intro k; omega
    have ej : ∀ k, j + 1 + k = j + (k + 1) := by intro k; omega
    rw [write_loop_step, if_pos (by omega), m1, m2, m3, m4,
      List.getElem?_eq_getElem l0, List.getElem?_eq_getElem l1, List.getElem?_eq_getElem l2,
      List.getElem?_eq_getElem l3]
    simp only [hword]
    rw [List.range_succ_eq_map, List.map_cons, List.map_map, program_words_cons, e0]
    simp only [Nat.add_zero]
    by_cases hr : (ht32f165x_program_word D A addr (le_word buffer j) w).1 = D.ERROR_OK
    · rw [if_neg (by simp [hr]), if_neg (by simp [hr])]
      rw [ih fuel (j + 1) ((addr + 4) % 2 ^ 32) _ (by omega) (by omega)
        (Nat.mod_lt _ (by norm_num))]
      simp only [ek, ej, Function.comp_def, Nat.succ_eq_add_one]
    · rw [if_pos (by simp [hr]), if_pos (by simp [hr])]

/-- `ht32f165x_write` on a halted target with aligned arguments is `program_words` on
the words of the buffer. -/
theorem write_eq_program_words (D : Decls) (A : Adapter) (fuel : Nat) (buffer : List Nat)
    (offset count : Nat) (w : World)
    (hhalted : w.bank.target.state = D.TARGET_HALTED)
    (hoff32 : offset < 2 ^ 32) (hcnt32 : count < 2 ^ 32)
    (hoffset : offset % 4 = 0) (hcount : count % 4 = 0)
    (hlen : buffer.length = count) (hbytes : ∀ b ∈ buffer, b < 256)
    (hfuel : count / 4 < fuel) :
    ht32f165x_write D A fuel buffer offset count w =
      Outcome.ret (program_words D A (buffer_words buffer offset (count / 4)) w).1
        (program_words D A (buffer_words buffer offset (count / 4)) w).2 := by
  have h := write_loop_eq_program_words D A buffer count hcnt32 hlen hbytes (count / 4) fuel 0
    offset w hfuel (by omega) hoff32
  simp only [ht32f165x_write, hhalted, ne_eq, not_true_eq_false, if_false,
    (and_three_eq_zero_iff offset).2 hoffset, (and_three_eq_zero_iff count).2 hcount]
  simpa [buffer_words] using h

/-- A run of `program_words` that returns `ERROR_OK` has issued, for each word in
turn, exactly the four writes of its word-program command. -/
theorem program_words_success_writes (D : Decls) (A : Adapter) :
    ∀ (l : List (Nat × Nat)) (w : World),
      (program_words D A l w).1 = D.ERROR_OK →
      ∃ ext, (program_words D A l w).2.trace = w.trace ++ ext ∧
        writes_of ext = l.flatMap word_program_pairs := by
  intro l
  induction l with
  | nil =>
    intro w _
    exact ⟨[], by simp [program_words], rfl⟩
  | cons p rest ih =>
    intro w hok
    obtain ⟨addr, value⟩ := p
    rw [program_words_cons] at hok ⊢
    by_cases hr : (ht32f165x_program_word D A addr value w).1 = D.ERROR_OK
    · rw [if_neg (by simp [hr])] at hok ⊢
      obtain ⟨x1, t1, e1⟩ := program_word_success D A addr value w hr
      obtain ⟨x2, t2, e2⟩ := ih _ hok
      refine ⟨x1 ++ x2, by rw [t2, t1, List.append_assoc], ?_⟩
      rw [writes_of_append, e1, e2]
      rfl
    · rw [if_pos (by simp [hr])] at hok
      exact absurd hok hr

/-- The device model run over the writes of a list of word-program commands has
programmed exactly that list. -/
theorem fmc_programmed_word_program_pairs :
    ∀ (l : List (Nat × Nat)) (st : Fmc), fmc_programmed st (l.flatMap word_program_pairs) = l := by
  intro l
  induction l with
  | nil => intro st; rfl
  | cons p rest ih =>
    intro st
    obtain ⟨addr, value⟩ := p
    simp only [List.flatMap_cons, word_program_pairs, List.cons_append, List.nil_append,
      fmc_programmed, TADR, WRDR, OCMR, OPCR]
    simp [← List.flatMap_def, ih]

/-! ## Read back -/

/-- A little-endian word built from four bytes is their positional sum. -/
theorem le_word_eq_sum (b0 b1 b2 b3 : Nat) (h0 : b0 < 256) (h1 : b1 < 256) (h2 : b2 < 256) :
    b0 ||| b1 <<< 8 ||| b2 <<< 16 ||| b3 <<< 24 =
      2 ^ 24 * b3 + (2 ^ 16 * b2 + (2 ^ 8 * b1 + b0)) := by
  have s1 : b1 <<< 8 = 2 ^ 8 * b1 := by rw [Nat.shiftLeft_eq, Nat.mul_comm]
  have s2 : b2 <<< 16 = 2 ^ 16 * b2 := by rw [Nat.shiftLeft_eq, Nat.mul_comm]
  have s3 : b3 <<< 24 = 2 ^ 24 * b3 := by rw [Nat.shiftLeft_eq, Nat.mul_comm]
  have e1 : b0 ||| b1 <<< 8 = 2 ^ 8 * b1 + b0 := by
    rw [Nat.or_comm, s1, ← Nat.mul_add_lt_is_or (by omega)]
  have e2 : b0 ||| b1 <<< 8 ||| b2 <<< 16 = 2 ^ 16 * b2 + (2 ^ 8 * b1 + b0) := by
    rw [e1, Nat.or_comm, s2, ← Nat.mul_add_lt_is_or (by omega)]
  rw [e2, Nat.or_comm, s3, ← Nat.mul_add_lt_is_or (by omega)]

/-- Re-encoding a little-endian word gives back its four bytes. -/
theorem le_bytes_of_bytes (b0 b1 b2 b3 : Nat) (h0 : b0 < 256) (h1 : b1 < 256) (h2 : b2 < 256)
    (h3 : b3 < 256) :
    le_bytes (b0 ||| b1 <<< 8 ||| b2 <<< 16 ||| b3 <<< 24) = [b0, b1, b2, b3] := by
  rw [le_word_eq_sum b0 b1 b2 b3 h0 h1 h2]
  simp only [le_bytes, Nat.shiftRight_eq_div_pow, List.cons.injEq, and_true]
  refine ⟨?_, ?_, ?_, ?_⟩ <;> omega

/-- Re-encoding the `n` little-endian words of a buffer of `4 * n` bytes gives back
the buffer. -/
theorem le_bytes_le_words :
    ∀ (n : Nat) (buffer : List Nat), buffer.length = 4 * n → (∀ b ∈ buffer, b < 256) →
      (List.range n).flatMap (fun k => le_bytes (le_word buffer k)) = buffer := by
  intro n
  induction n with
  | zero =>
    intro buffer hlen _
    have : buffer = [] := List.eq_nil_of_length_eq_zero (by omega)
    subst this
    rfl
  | succ n ih =>
    intro buffer hlen hbytes
    match buffer, hlen, hbytes with
    | b0 :: b1 :: b2 :: b3 :: rest, hlen, hbytes =>
      have hrest : rest.length = 4 * n := by simp at hlen; omega
      have hshift : ∀ k, le_word (b0 :: b1 :: b2 :: b3 :: rest) (k + 1) = le_word rest k := by
        intro k
        have a0 : 4 * (k + 1) = 4 * k + 4 := by omega
        have a1 : 4 * (k + 1) + 1 = 4 * k + 1 + 4 := by omega
        have a2 : 4 * (k + 1) + 2 = 4 * k + 2 + 4 := by omega
        have a3 : 4 * (k + 1) + 3 = 4 * k + 3 + 4 := by omega
        simp only [le_word, a0, a1, a2, a3, List.getD_eq_getElem?_getD, List.getElem?_cons_succ]
      rw [range_succ_flatMap]
      simp only [hshift]
      rw [ih rest hrest (fun b hb => hbytes b (by simp [hb]))]
      have hw0 : le_word (b0 :: b1 :: b2 :: b3 :: rest) 0 = b0 ||| b1 <<< 8 ||| b2 <<< 16 ||| b3 <<< 24 := by
        simp [le_word]
      rw [hw0, le_bytes_of_bytes b0 b1 b2 b3 (hbytes b0 (by simp)) (hbytes b1 (by simp))
        (hbytes b2 (by simp)) (hbytes b3 (by simp))]
      rfl

/-- In the device model, after the writes of the words of a buffer, the word last
programmed at the address of word `k` is word `k`. -/
theorem word_programmed_at_buffer_words (buffer : List Nat) (offset : Nat) :
    ∀ (n : Nat), 4 * n ≤ 2 ^ 32 → ∀ k, k < n →
      word_programmed_at ((buffer_words buffer offset n).flatMap word_program_pairs)
        ((offset + 4 * k) % 2 ^ 32) = some (le_word buffer k) := by
  intro n
  induction n with
  | zero => intro _ k hk; omega
  | succ n ih =>
    intro hn k hk
    have hsplit : buffer_words buffer offset (n + 1) =
        buffer_words buffer offset n ++ [((offset + 4 * n) % 2 ^ 32, le_word buffer n)] := by
      simp [buffer_words, List.range_succ]
    have ih2 := ih (by omega) k
    unfold word_programmed_at at ih2 ⊢
    rw [fmc_programmed_word_program_pairs] at ih2 ⊢
    rw [hsplit, List.reverse_append, List.reverse_singleton, List.singleton_append]
    by_cases hkn : k = n
    · subst hkn
      rw [List.find?_cons_of_pos _ (by simp)]
      rfl
    · rw [List.find?_cons_of_neg _ (by simp only [decide_eq_true_eq]; omega)]
      exact ih2 (by omega)

/-- The test-pattern write on the sample bank returns `ERROR_OK`. -/
theorem sample_write_run :
    ∃ w1, ht32f165x_write sample_decls ready_adapter 9 (List.range 32) 0 32 halted_world =
      Outcome.ret sample_decls.ERROR_OK w1 := by
  have h := write_loop_all_ok sample_decls ready_adapter (List.range 32) 32 (by decide)
    (by decide) (by decide) 8 9 0 0 halted_world (by decide) (by decide) (by decide)
    (fun _ _ _ => rfl) (fun n _ _ => ready_adapter_finished n)
  have e : ht32f165x_write sample_decls ready_adapter 9 (List.range 32) 0 32 halted_world =
      write_loop sample_decls ready_adapter (List.range 32) 32 9 (4 * 0) 0 halted_world := by
    unfold ht32f165x_write
    rw [if_neg (by decide), if_neg (by decide), if_neg (by decide)]
  exact ⟨_, e.trans h⟩

/-- C14: round trip.  In the device model in which a completed word-program command
stores WRDR at the address in TADR, after a run of `ht32f165x_write` on a halted target
with a word-aligned offset and a buffer of `count = 4N` bytes that returned `ERROR_OK`,
the word programmed at the 32-bit address `offset + 4k` is, for every `k < N`, the
little-endian word of the bytes `4k .. 4k + 3` of the buffer (at `offset + 4k` itself when
`offset + count` stays within 32 bits); and the little-endian bytes of the programmed
words, in order, are the buffer. -/
theorem write_round_trip (D : Decls) (A : Adapter) (fuel : Nat) (buffer : List Nat)
    (offset count : Nat) (w w1 : World)
    (hhalted : w.bank.target.state = D.TARGET_HALTED)
    (hoff32 : offset < 2 ^ 32) (hcnt32 : count < 2 ^ 32)
    (hoffset : offset % 4 = 0) (hcount : count % 4 = 0)
    (hlen : buffer.length = count) (hbytes : ∀ b ∈ buffer, b < 256)
    (hfuel : count / 4 < fuel)
    (hrun : ht32f165x_write D A fuel buffer offset count w = Outcome.ret D.ERROR_OK w1) :
    (∀ k, k < count / 4 →
      word_programmed_at (writes_of (w1.trace.drop w.trace.length))
        ((offset + 4 * k) % 2 ^ 32) = some (le_word buffer k)) ∧
    (offset + count ≤ 2 ^ 32 → ∀ k, k < count / 4 →
      word_programmed_at (writes_of (w1.trace.drop w.trace.length)) (offset + 4 * k) =
        some (le_word buffer k)) ∧
    (fmc_programmed { tadr := 0, wrdr := 0, ocmr := 0 }
        (writes_of (w1.trace.drop w.trace.length))).flatMap (fun p => le_bytes p.2) =
      buffer := by
  rw [write_eq_program_words D A fuel buffer offset count w hhalted hoff32 hcnt32 hoffset hcount
    hlen hbytes hfuel] at hrun
  simp only [Outcome.ret.injEq] at hrun
  obtain ⟨ext, htr, hext⟩ := program_words_success_writes D A _ w hrun.1
  rw [hrun.2] at htr
  have hdrop : w1.trace.drop w.trace.length = ext := by rw [htr, List.drop_left]
  rw [hdrop, hext]
  have hat : ∀ k, k < count / 4 →
      word_programmed_at ((buffer_words buffer offset (count / 4)).flatMap word_program_pairs)
        ((offset + 4 * k) % 2 ^ 32) = some (le_word buffer k) :=
    word_programmed_at_buffer_words buffer offset (count / 4) (by omega)
  refine ⟨hat, ?_, ?_⟩
  · intro hfit k hk
    have := hat k hk
    rwa [Nat.mod_eq_of_lt (by omega)] at this
  · rw [fmc_programmed_word_program_pairs]
    have : (buffer_words buffer offset (count / 4)).flatMap (fun p => le_bytes p.2) =
        (List.range (count / 4)).flatMap (fun k => le_bytes (le_word buffer k)) := by
      simp [buffer_words, List.flatMap_def, List.map_map, Function.comp_def]
    rw [this]
    exact le_bytes_le_words (count / 4) buffer (by omega) hbytes

/-- C14 on the test pattern: after the write of the bytes 0 .. 31 at offset 0 the word at
`4k` is little-endian word `k` of the pattern and the programmed words re-encode to the
pattern. -/
theorem write_round_trip_witness :
    ∃ w1,
      ht32f165x_write sample_decls ready_adapter 9 (List.range 32) 0 32 halted_world =
        Outcome.ret sample_decls.ERROR_OK w1 ∧
      (∀ k, k < 8 →
        word_programmed_at (writes_of (w1.trace.drop halted_world.trace.length)) (0 + 4 * k) =
          some (le_word (List.range 32) k)) ∧
      (fmc_programmed { tadr := 0, wrdr := 0, ocmr := 0 }
          (writes_of (w1.trace.drop halted_world.trace.length))).flatMap (fun p => le_bytes p.2) =
        List.range 32 := by
  obtain ⟨w1, hrun⟩ := sample_write_run
  have h := write_round_trip sample_decls ready_adapter 9 (List.range 32) 0 32 halted_world w1
    (by decide) (by decide) (by decide) (by decide) (by decide) (by decide) (by decide)
    (by decide) hrun
  exact ⟨w1, hrun, h.2.1 (by decide), h.2.2⟩

/-! ## First failure -/

/-- The two ways a word-program command can go, for any adapter: either one of its
four writes is the first to fail, and the command returns that write's code right
after it; or all four succeed and the command is those writes followed by the poll,
whose result it returns. -/
theorem program_word_cases (D : Decls) (A : Adapter) (addr value : Nat) (w : World) :
    (∃ j, j < 4 ∧ (∀ i, i < j → A.write_result (w.writes + i) = D.ERROR_OK) ∧
      A.write_result (w.writes + j) ≠ D.ERROR_OK ∧
      ht32f165x_program_word D A addr value w =
        (A.write_result (w.writes + j),
          { w with
            trace := w.trace ++ (word_program_writes addr value).take (j + 1)
            writes := w.writes + (j + 1) })) ∨
    ((∀ i, i < 4 → A.write_result (w.writes + i) = D.ERROR_OK) ∧
      ht32f165x_program_word D A addr value w =
        ht32f165x_wait_status_busy D A 1000
          { w with
            trace := w.trace ++ word_program_writes addr value
            writes := w.writes + 4 }) := by
  have e1 : FMC_REG_BASE + FMC_REG_TADR = TADR := by decide
  have e2 : FMC_REG_BASE + FMC_REG_WRDR = WRDR := by decide
  have e3 : FMC_REG_BASE + FMC_REG_OCMR = OCMR := by decide
  have e4 : FMC_REG_BASE + FMC_REG_OPCR = OPCR := by decide
  have e5 : FMC_CMD_WORD_PROG = 4 := by decide
  have e6 : FMC_COMMIT = 0x14 := by decide
  have e7 : FLASH_ERASE_TIMEOUT = 1000 := rfl
  simp only [ht32f165x_program_word, target_write_u32, e1, e2, e3, e4, e5, e6, e7]
  by_cases h0 : A.write_result w.writes = D.ERROR_OK
  · by_cases h1 : A.write_result (w.writes + 1) = D.ERROR_OK
    · by_cases h2 : A.write_result (w.writes + 1 + 1) = D.ERROR_OK
      · by_cases h3 : A.write_result (w.writes + 1 + 1 + 1) = D.ERROR_OK
        · right
          refine ⟨fun i hi => ?_, ?_⟩
          · interval_cases i
            · exact h0
            · exact h1
            · exact h2
            · exact h3
          · have e8 : w.writes + 1 + 1 + 1 + 1 = w.writes + 4 := by omega
            simp only [h0, h1, h2, h3, ne_eq, not_true_eq_false, if_false,
              word_program_writes, List.append_assoc, List.cons_append, List.nil_append, e8]
            split_ifs with h5
            · rw [← h5]
            · rfl
        · left
          refine ⟨3, by norm_num, fun i hi => ?_, h3, ?_⟩
          · interval_cases i
            · exact h0
            · exact h1
            · exact h2
          · simp [h0, h1, h2, h3, word_program_writes]
      · left
        refine ⟨2, by norm_num, fun i hi => ?_, h2, ?_⟩
        · interval_cases i
          · exact h0
          · exact h1
        · simp [h0, h1, h2, word_program_writes]
    · left
      refine ⟨1, by norm_num, fun i hi => ?_, h1, ?_⟩
      · interval_cases i
        exact h0
      · simp [h0, h1, word_program_writes]
  · left
    exact ⟨0, by norm_num, fun i hi => by omega, h0, by simp [h0, word_program_writes]⟩

/-- Whatever the adapter answers, the register writes of a word-program command are
the first `m` of its four writes, for some `m` from 1 to 4. -/
theorem program_word_writes_prefix (D : Decls) (A : Adapter) (addr value : Nat) (w : World) :
    ∃ ext m, (ht32f165x_program_word D A addr value w).2.trace = w.trace ++ ext ∧
      1 ≤ m ∧ m ≤ 4 ∧ writes_of ext = (word_program_pairs (addr, value)).take m := by
  rcases program_word_cases D A addr value w with ⟨j, hj, _, _, hrun⟩ | ⟨_, hrun⟩
  · refine ⟨(word_program_writes addr value).take (j + 1), j + 1, by rw [hrun], by omega,
      by omega, ?_⟩
    interval_cases j <;> rfl
  · obtain ⟨_, _, ext, htr, hext⟩ := wait_frame D A _ 1000
      { w with trace := w.trace ++ word_program_writes addr value, writes := w.writes + 4 } rfl
    refine ⟨word_program_writes addr value ++ ext, 4, by rw [hrun, htr]; simp, by omega,
      by omega, ?_⟩
    rw [writes_of_append, hext]
    rfl

/-- A run of `program_words` that does not return `ERROR_OK` stopped at some word `k`:
the words before it were programmed with success, and the run's result is the result
of the word-program command for word `k`. -/
theorem program_words_first_failure (D : Decls) (A : Adapter) :
    ∀ (l : List (Nat × Nat)) (w : World),
      (program_words D A l w).1 ≠ D.ERROR_OK →
      ∃ k p, l[k]? = some p ∧ (program_words D A (l.take k) w).1 = D.ERROR_OK ∧
        (ht32f165x_program_word D A p.1 p.2 (program_words D A (l.take k) w).2).1 ≠ D.ERROR_OK ∧
        program_words D A l w =
          ht32f165x_program_word D A p.1 p.2 (program_words D A (l.take k) w).2 := by
  intro l
  induction l with
  | nil =>
    intro w h
    exact absurd rfl h
  | cons q rest ih =>
    intro w h
    obtain ⟨addr, value⟩ := q
    rw [program_words_cons] at h ⊢
    by_cases hr : (ht32f165x_program_word D A addr value w).1 = D.ERROR_OK
    · rw [if_neg (by simp [hr])] at h ⊢
      obtain ⟨k, p, hp, hpre, hfail, hrun⟩ := ih _ h
      refine ⟨k + 1, p, by simpa using hp, ?_, ?_, ?_⟩
      · rw [List.take_succ_cons, program_words_cons, if_neg (by simp [hr])]
        exact hpre
      · rw [List.take_succ_cons, program_words_cons, if_neg (by simp [hr])]
        exact hfail
      · rw [List.take_succ_cons, program_words_cons, if_neg (by simp [hr])]
        exact hrun
    · rw [if_pos (by simp [hr])]
      exact ⟨0, (addr, value), List.getElem?_cons_zero, rfl, hr, rfl⟩

/-- When the words before word `k` are programmed with success and the command for
word `k` fails, `program_words` returns the result of that command. -/
theorem program_words_stops (D : Decls) (A : Adapter) :
    ∀ (l : List (Nat × Nat)) (k : Nat) (p : Nat × Nat) (w : World),
      l[k]? = some p → (program_words D A (l.take k) w).1 = D.ERROR_OK →
      (ht32f165x_program_word D A p.1 p.2 (program_words D A (l.take k) w).2).1 ≠ D.ERROR_OK →
      program_words D A l w =
        ht32f165x_program_word D A p.1 p.2 (program_words D A (l.take k) w).2 := by
  intro l
  induction l with
  | nil => intro k p w hp; simp at hp
  | cons q rest ih =>
    intro k p w hp hpre hfail
    obtain ⟨addr, value⟩ := q
    cases k with
    | zero =>
      simp only [List.getElem?_cons_zero, Option.some.injEq] at hp
      subst hp
      simp only [List.take_zero, program_words] at hfail ⊢
      rw [if_pos hfail]
    | succ k =>
      simp only [List.getElem?_cons_succ] at hp
      rw [List.take_succ_cons, program_words_cons] at hpre hfail ⊢
      by_cases hr : (ht32f165x_program_word D A addr value w).1 = D.ERROR_OK
      · rw [if_neg (by simp [hr])] at hpre hfail ⊢
        rw [program_words_cons, if_neg (by simp [hr])]
        exact ih k p _ hp hpre hfail
      · rw [if_pos (by simp [hr])] at hpre
        exact absurd hpre hr

theorem buffer_words_take (buffer : List Nat) (offset n k : Nat) (h : k ≤ n) :
    (buffer_words buffer offset n).take k = buffer_words buffer offset k := by
  simp [buffer_words, ← List.map_take, List.take_range, Nat.min_eq_left h]

theorem buffer_words_getElem? (buffer : List Nat) (offset n k : Nat) (p : Nat × Nat)
    (h : (buffer_words buffer offset n)[k]? = some p) :
    k < n ∧ p = ((offset + 4 * k) % 2 ^ 32, le_word buffer k) := by
  have hk : k < n := by
    by_contra hk
    rw [List.getElem?_eq_none (by simp [buffer_words]; omega)] at h
    simp at h
  refine ⟨hk, ?_⟩
  simp only [buffer_words, List.getElem?_map, List.getElem?_range hk, Option.map,
    Option.some.injEq] at h
  exact h.symm

/-! ## Option bytes: first failure -/

/-- The programming half of `ht32f165x_protect` refines `program_words` on the
option-byte image. -/
theorem protect_program_eq_program_words (D : Decls) (A : Adapter) (retval : Int) (w : World) :
    protect_program D A retval w = program_words D A option_byte_words w := by
  have eta : ∀ r : Int × World,
      (if r.1 ≠ D.ERROR_OK then r else (D.ERROR_OK, r.2)) = r := by
    intro r
    by_cases h : r.1 = D.ERROR_OK
    · rw [if_neg (by simp [h]), ← h]
    · rw [if_pos h]
  rw [protect_program_unfold]
  simp only [option_byte_words, program_words_cons, program_words, eta]

/-- Whatever the adapter answers, the register writes of a page-erase command are
the first `m` of its three writes, for some `m` from 1 to 3. -/
theorem page_erase_command_writes_prefix (D : Decls) (A : Adapter) (addr : Nat) (w : World) :
    ∃ ext m, (page_erase_command D A addr w).2.trace = w.trace ++ ext ∧
      1 ≤ m ∧ m ≤ 3 ∧ writes_of ext = (page_erase_pairs addr).take m := by
  have e1 : FMC_REG_BASE + FMC_REG_TADR = TADR := by decide
  have e3 : FMC_REG_BASE + FMC_REG_OCMR = OCMR := by decide
  have e4 : FMC_REG_BASE + FMC_REG_OPCR = OPCR := by decide
  have e5 : FMC_CMD_PAGE_ERASE = 8 := by decide
  have e6 : FMC_COMMIT = 0x14 := by decide
  simp only [page_erase_command, target_write_u32, e1, e3, e4, e5, e6]
  split_ifs with h1 h2 h3
  · exact ⟨[Access.write TADR addr], 1, rfl, by omega, by omega, rfl⟩
  · exact ⟨[Access.write TADR addr, Access.write OCMR 8], 2, by simp, by omega, by omega, rfl⟩
  · exact ⟨[Access.write TADR addr, Access.write OCMR 8, Access.write OPCR 0x14], 3, by simp,
      by omega, by omega, rfl⟩
  · obtain ⟨_, _, ext, htr, hext⟩ := wait_frame D A _ FLASH_ERASE_TIMEOUT
      (World.mk w.bank
        (w.trace ++ [Access.write TADR addr] ++ [Access.write OCMR 8] ++ [Access.write OPCR 0x14])
        (w.writes + 1 + 1 + 1) w.reads) rfl
    refine ⟨[Access.write TADR addr, Access.write OCMR 8, Access.write OPCR 0x14] ++ ext, 3, ?_,
      by omega, by omega, ?_⟩
    · rw [htr]; simp
    · rw [writes_of_append, hext]; rfl

/-- After the page erase, the words before word `j` and the first `m` writes of the
command for word `j`, no option-byte word after word `j` has been programmed. -/
theorem later_words_not_programmed (j m i : Nat) (p q : Nat × Nat)
    (hp : option_byte_words[j]? = some p) (hm1 : 1 ≤ m) (hm4 : m ≤ 4) (hji : j < i)
    (hq : option_byte_words[i]? = some q) :
    word_programmed_at
      (page_erase_pairs 0x1FF00000 ++ (option_byte_words.take j).flatMap word_program_pairs ++
        (word_program_pairs p).take m) q.1 = none := by
  have hi : i < 6 := by
    by_contra h
    rw [List.getElem?_eq_none (by simp [option_byte_words]; omega)] at hq
    simp at hq
  interval_cases i <;> interval_cases j <;>
    simp only [option_byte_words, List.getElem?_cons_succ, List.getElem?_cons_zero,
      Option.some.injEq] at hp hq <;>
    subst hp <;> subst hq <;> interval_cases m <;> decide

/-- C18: in a run of `ht32f165x_protect` that gets past its checks (halted target, bit 0
of CPSR set, `set` not 0): if the page-erase command of the option-byte page (its writes
or its poll) fails, `ht32f165x_protect` returns the result of that command, an error, and
no word has been programmed; and if the words before the j-th of the six option-byte
words (pp0, pp1, pp2, pp3, config, checksum) were programmed with success and
programming the j-th fails, `ht32f165x_protect` returns the result of that word-program
command, an error, and none of the later words has been programmed. -/
theorem protect_stops_at_first_failure (D : Decls) (A : Adapter) (set : Int)
    (first last : Nat) (w : World)
    (hhalted : w.bank.target.state = D.TARGET_HALTED)
    (hbit : (A.read_result w.reads).2 &&& 1 ≠ 0) (hset : set ≠ 0) :
    ((page_erase_command D A 0x1FF00000 (after_cpsr_read w)).1 ≠ D.ERROR_OK →
      ht32f165x_protect D A set first last w =
        page_erase_command D A 0x1FF00000 (after_cpsr_read w) ∧
      (ht32f165x_protect D A set first last w).1 ≠ D.ERROR_OK ∧
      fmc_programmed { tadr := 0, wrdr := 0, ocmr := 0 }
        (writes_of ((ht32f165x_protect D A set first last w).2.trace.drop w.trace.length)) = []) ∧
    ((page_erase_command D A 0x1FF00000 (after_cpsr_read w)).1 = D.ERROR_OK →
      ∀ j p, option_byte_words[j]? = some p →
        (program_words D A (option_byte_words.take j)
          (page_erase_command D A 0x1FF00000 (after_cpsr_read w)).2).1 = D.ERROR_OK →
        (ht32f165x_program_word D A p.1 p.2
          (program_words D A (option_byte_words.take j)
            (page_erase_command D A 0x1FF00000 (after_cpsr_read w)).2).2).1 ≠ D.ERROR_OK →
        ht32f165x_protect D A set first last w =
          ht32f165x_program_word D A p.1 p.2
            (program_words D A (option_byte_words.take j)
              (page_erase_command D A 0x1FF00000 (after_cpsr_read w)).2).2 ∧
        (ht32f165x_protect D A set first last w).1 ≠ D.ERROR_OK ∧
        ∀ i q, j < i → option_byte_words[i]? = some q →
          word_programmed_at
            (writes_of ((ht32f165x_protect D A set first last w).2.trace.drop w.trace.length))
            q.1 = none) := by
  have hunf := protect_unfold D A set first last w
  rw [if_neg (by simp [hhalted]), if_neg (not_or.mpr ⟨hbit, hset⟩)] at hunf
  change ht32f165x_protect D A set first last w =
    if (page_erase_command D A 0x1FF00000 (after_cpsr_read w)).1 ≠ D.ERROR_OK then
      page_erase_command D A 0x1FF00000 (after_cpsr_read w)
    else protect_program D A D.ERROR_OK
      (page_erase_command D A 0x1FF00000 (after_cpsr_read w)).2 at hunf
  constructor
  · intro herr
    rw [if_pos herr] at hunf
    obtain ⟨ext, m, htr, hm1, hm3, hext⟩ :=
      page_erase_command_writes_prefix D A 0x1FF00000 (after_cpsr_read w)
    refine ⟨hunf, by rw [hunf]; exact herr, ?_⟩
    have hdrop : (ht32f165x_protect D A set first last w).2.trace.drop w.trace.length =
        [Access.read CPSR] ++ ext := by
      rw [hunf, htr]
      simp only [after_cpsr_read, List.append_assoc]
      rw [List.drop_left]
    rw [hdrop, writes_of_append, hext]
    interval_cases m <;> decide
  · intro hok j p hp hpre hfail
    rw [if_neg (by simp [hok]), protect_program_eq_program_words,
      program_words_stops D A option_byte_words j p _ hp hpre hfail] at hunf
    refine ⟨hunf, by rw [hunf]; exact hfail, ?_⟩
    intro i q hji hq
    obtain ⟨x0, t0, e0⟩ := page_erase_command_success D A 0x1FF00000 (after_cpsr_read w) hok
    obtain ⟨x1, t1, e1⟩ := program_words_success_writes D A (option_byte_words.take j) _ hpre
    obtain ⟨x2, m, t2, hm1, hm4, e2⟩ := program_word_writes_prefix D A p.1 p.2
      (program_words D A (option_byte_words.take j)
        (page_erase_command D A 0x1FF00000 (after_cpsr_read w)).2).2
    have hdrop : (ht32f165x_protect D A set first last w).2.trace.drop w.trace.length =
        [Access.read CPSR] ++ x0 ++ x1 ++ x2 := by
      rw [hunf, t2, t1, t0]
      simp only [after_cpsr_read, List.append_assoc]
      rw [List.drop_left]
    rw [hdrop]
    simp only [writes_of_append, e0, e1, e2]
    exact later_words_not_programmed j m i p q hp hm1 hm4 hji hq

/-- C18 with the adapter whose first write fails: the page erase fails at TADR, the run
returns -4 and nothing has been programmed. -/
theorem protect_stops_at_first_failure_witness :
    ht32f165x_protect sample_decls first_write_failing_adapter 1 0 0 halted_world =
        page_erase_command sample_decls first_write_failing_adapter 0x1FF00000
          (after_cpsr_read halted_world) ∧
      (ht32f165x_protect sample_decls first_write_failing_adapter 1 0 0 halted_world).1 ≠
        sample_decls.ERROR_OK ∧
      fmc_programmed { tadr := 0, wrdr := 0, ocmr := 0 }
        (writes_of ((ht32f165x_protect sample_decls first_write_failing_adapter 1 0 0
          halted_world).2.trace.drop halted_world.trace.length)) = [] :=
  (protect_stops_at_first_failure sample_decls first_write_failing_adapter 1 0 0 halted_world
    (by decide) (by show (29 : Nat) &&& 1 ≠ 0; decide) (by decide)).1
    (by simp [page_erase_command, target_write_u32, first_write_failing_adapter,
      after_cpsr_read, halted_world, sample_decls])

/-! ## Option bytes: the image -/

/-- C20: the option-byte image written by a run of `ht32f165x_protect` that returns
`ERROR_OK` is consistent under the additive checksum: its register writes are those of an
image (pp0, pp1, pp2, pp3, config, checksum) whose checksum word equals
(config + pp0 + pp1 + pp2 + pp3) mod 2^32; the image is config 0xFFFFFFFE, pp =
0x00000000, 0xFFFFFFFF, 0xFFFFFFFF, 0xFFFFFFFF, and the checksum is 0xFFFFFFFB. -/
theorem protect_image_checksum_consistent (D : Decls) (A : Adapter) (set : Int)
    (first last : Nat) (w : World)
    (hcode1 : D.ERROR_TARGET_NOT_HALTED ≠ D.ERROR_OK)
    (hcode2 : D.ERROR_FLASH_OPER_UNSUPPORTED ≠ D.ERROR_OK)
    (hok : (ht32f165x_protect D A set first last w).1 = D.ERROR_OK) :
    ∃ ext pp0 pp1 pp2 pp3 cp ck,
      (ht32f165x_protect D A set first last w).2.trace = w.trace ++ ext ∧
      writes_of ext = option_byte_writes pp0 pp1 pp2 pp3 cp ck ∧
      ck = (cp + pp0 + pp1 + pp2 + pp3) % 2 ^ 32 ∧
      cp = 0xFFFFFFFE ∧ pp0 = 0x00000000 ∧ pp1 = 0xFFFFFFFF ∧ pp2 = 0xFFFFFFFF ∧
      pp3 = 0xFFFFFFFF ∧ ck = 0xFFFFFFFB := by
  obtain ⟨ext, htr, hext⟩ := protect_success_writes D A set first last w hcode1 hcode2 hok
  exact ⟨ext, 0, 0xFFFFFFFF, 0xFFFFFFFF, 0xFFFFFFFF, 0xFFFFFFFE, 0xFFFFFFFB, htr, hext,
    by decide, rfl, rfl, rfl, rfl, rfl, rfl⟩

/-- C20 on the sample run. -/
theorem protect_image_checksum_consistent_witness :
    ∃ ext pp0 pp1 pp2 pp3 cp ck,
      (ht32f165x_protect sample_decls ready_adapter 1 0 0 halted_world).2.trace =
        halted_world.trace ++ ext ∧
      writes_of ext = option_byte_writes pp0 pp1 pp2 pp3 cp ck ∧
      ck = (cp + pp0 + pp1 + pp2 + pp3) % 2 ^ 32 ∧
      cp = 0xFFFFFFFE ∧ pp0 = 0x00000000 ∧ pp1 = 0xFFFFFFFF ∧ pp2 = 0xFFFFFFFF ∧
      pp3 = 0xFFFFFFFF ∧ ck = 0xFFFFFFFB :=
  protect_image_checksum_consistent sample_decls ready_adapter 1 0 0 halted_world (by decide)
    (by decide) (by rw [sample_protect_run]; rfl)

/-! ## Runs whose polls take several status reads -/

theorem poll_start_shift (busy : Nat → Nat) (start : Nat) :
    ∀ k, poll_start (fun j => busy (j + 1)) (start + (busy 0 + 1)) k =
      poll_start busy start (k + 1) := by
  intro k
  induction k with
  | zero => rfl
  | succ k ih =>
    show poll_start (fun j => busy (j + 1)) (start + (busy 0 + 1)) k + (busy (k + 1) + 1) =
      poll_start busy start (k + 1) + (busy (k + 1) + 1)
    rw [ih]

/-- The first of `m + 1` polls that observe finished. -/
theorem polls_observe_finished_head (D : Decls) (A : Adapter) (busy : Nat → Nat)
    (start m : Nat) (h : polls_observe_finished D A busy start (m + 1)) :
    busy 0 ≤ 1000 ∧ (∀ i, i < busy 0 → poll_busy D A (start + i)) ∧
      poll_finished D A (start + busy 0) :=
  h 0 (Nat.succ_pos m)

/-- The polls after the first of `m + 1` polls that observe finished. -/
theorem polls_observe_finished_tail (D : Decls) (A : Adapter) (busy : Nat → Nat)
    (start m : Nat) (h : polls_observe_finished D A busy start (m + 1)) :
    polls_observe_finished D A (fun j => busy (j + 1)) (start + (busy 0 + 1)) m := by
  intro k hk
  rw [poll_start_shift]
  exact h (k + 1) (by omega)

theorem writes_of_poll_traffic (n : Nat) : writes_of (poll_traffic n) = [] := by
  induction n with
  | zero => rfl
  | succ n ih =>
    simp only [poll_traffic] at ih ⊢
    rw [busy_rounds_succ, List.append_assoc, writes_of_append, ih]
    rfl

theorem writes_of_flatMap (g : Nat → List Access) :
    ∀ l : List Nat, writes_of (l.flatMap g) = l.flatMap (fun k => writes_of (g k)) := by
  intro l
  induction l with
  | nil => rfl
  | cons a t ih => rw [List.flatMap_cons, writes_of_append, ih, List.flatMap_cons]

/-- A poll that observes finished after `n` busy rounds, `n` at most the timeout. -/
theorem wait_observes_finished (D : Decls) (A : Adapter) (n : Nat) (w : World)
    (hn : n ≤ 1000) (hbusy : ∀ i, i < n → poll_busy D A (w.reads + i))
    (hfin : poll_finished D A (w.reads + n)) :
    ht32f165x_wait_status_busy D A 1000 w =
      (D.ERROR_OK,
        { w with trace := w.trace ++ poll_traffic n, reads := w.reads + (n + 1) }) := by
  rw [wait_busy_then_finished D A n 1000 w (by omega) hbusy hfin]
  simp [poll_traffic, Nat.add_assoc]

/-- Every poll that returns `ERROR_OK` has observed finished in this sense: some
number `n` of successful status reads that do not show finished, `n` at most
`max timeout 0`, and then a successful read that does (the timeout code `ERROR_FAIL`
being different from `ERROR_OK`). -/
theorem wait_ok_observes (D : Decls) (A : Adapter) (hcode : D.ERROR_FAIL ≠ D.ERROR_OK) :
    ∀ (t : Nat) (timeout : Int) (w : World), timeout.toNat = t →
      (ht32f165x_wait_status_busy D A timeout w).1 = D.ERROR_OK →
      ∃ n, n ≤ t ∧ (∀ i, i < n → poll_busy D A (w.reads + i)) ∧
        poll_finished D A (w.reads + n) := by
  intro t
  induction t with
  | zero =>
    intro timeout w ht hok
    rw [wait_unfold] at hok
    split_ifs at hok with h1 h2 h3
    · exact absurd hok h1
    · exact ⟨0, le_refl _, fun i hi => absurd hi (Nat.not_lt_zero i), not_not.mp h1, h2⟩
    · exact absurd hok hcode
    · omega
  | succ t ih =>
    intro timeout w ht hok
    rw [wait_unfold] at hok
    split_ifs at hok with h1 h2 h3
    · exact absurd hok h1
    · exact ⟨0, Nat.zero_le _, fun i hi => absurd hi (Nat.not_lt_zero i), not_not.mp h1, h2⟩
    · exact absurd hok hcode
    · obtain ⟨n, hn, hbusy, hfin⟩ := ih (timeout - 1) _ (by omega) hok
      refine ⟨n + 1, by omega, fun i hi => ?_, ?_⟩
      · cases i with
        | zero => exact ⟨not_not.mp h1, h2⟩
        | succ i =>
          have := hbusy i (by omega)
          simpa [Nat.add_assoc, Nat.add_comm 1 i] using this
      · simpa [Nat.add_assoc, Nat.add_comm 1 n] using hfin

/-- A word-program command whose four writes succeed and whose poll observes
finished after `n` busy rounds. -/
theorem program_word_after_busy (D : Decls) (A : Adapter) (addr value n : Nat) (w : World)
    (hw : ∀ i, i < 4 → A.write_result (w.writes + i) = D.ERROR_OK)
    (hn : n ≤ 1000) (hbusy : ∀ i, i < n → poll_busy D A (w.reads + i))
    (hfin : poll_finished D A (w.reads + n)) :
    ht32f165x_program_word D A addr value w =
      (D.ERROR_OK,
        { w with
          trace := w.trace ++ (word_program_writes addr value ++ poll_traffic n)
          writes := w.writes + 4
          reads := w.reads + (n + 1) }) := by
  rcases program_word_cases D A addr value w with ⟨j, hj, _, hne, _⟩ | ⟨_, hrun⟩
  · exact absurd (hw j hj) hne
  · rw [hrun, wait_observes_finished D A n
      { w with trace := w.trace ++ word_program_writes addr value, writes := w.writes + 4 }
      hn hbusy hfin]
    simp

/-- A page-erase command whose three writes succeed and whose poll observes finished
after `n` busy rounds. -/
theorem page_erase_command_after_busy (D : Decls) (A : Adapter) (addr n : Nat) (w : World)
    (hw : ∀ m, w.writes ≤ m → m < w.writes + 3 → A.write_result m = D.ERROR_OK)
    (hn : n ≤ 1000) (hbusy : ∀ i, i < n → poll_busy D A (w.reads + i))
    (hfin : poll_finished D A (w.reads + n)) :
    page_erase_command D A addr w =
      (D.ERROR_OK,
        { w with
          trace := w.trace ++ (page_erase_writes addr ++ poll_traffic n)
          writes := w.writes + 3
          reads := w.reads + (n + 1) }) := by
  rw [page_erase_command_polled D A addr w hw, wait_observes_finished D A n
    { w with
      trace := w.trace ++ [Access.write TADR addr, Access.write OCMR 8, Access.write OPCR 0x14]
      writes := w.writes + 3 }
    hn hbusy hfin]
  simp [page_erase_writes]

theorem program_words_cons_pair (D : Decls) (A : Adapter) (p : Nat × Nat)
    (rest : List (Nat × Nat)) (w : World) :
    program_words D A (p :: rest) w =
      if (ht32f165x_program_word D A p.1 p.2 w).1 ≠ D.ERROR_OK then
        ht32f165x_program_word D A p.1 p.2 w
      else program_words D A rest (ht32f165x_program_word D A p.1 p.2 w).2 := by
  obtain ⟨addr, value⟩ := p
  rfl

/-- Programming the words `f 0 .. f (m - 1)` when the `4 m` writes succeed and the `m`
polls observe finished: `ERROR_OK` after, for each word in turn, its four writes and
its poll. -/
theorem program_words_all_ok (D : Decls) (A : Adapter) :
    ∀ (m : Nat) (f : Nat → Nat × Nat) (busy : Nat → Nat) (w : World),
      (∀ n, w.writes ≤ n → n < w.writes + 4 * m → A.write_result n = D.ERROR_OK) →
      polls_observe_finished D A busy w.reads m →
      program_words D A ((List.range m).map f) w =
        (D.ERROR_OK,
          { w with
            trace := w.trace ++ (List.range m).flatMap
              (fun k => word_program_writes (f k).1 (f k).2 ++ poll_traffic (busy k))
            writes := w.writes + 4 * m
            reads := poll_start busy w.reads m }) := by
  intro m
  induction m with
  | zero =>
    intro f busy w _ _
    simp [program_words, poll_start]
  | succ m ih =>
    intro f busy w hw hp
    obtain ⟨hn, hbusy, hfin⟩ := polls_observe_finished_head D A busy w.reads m hp
    rw [range_succ_flatMap, List.range_succ_eq_map, List.map_cons, List.map_map,
      program_words_cons_pair,
      program_word_after_busy D A (f 0).1 (f 0).2 (busy 0) w
        (fun i hi => hw _ (by omega) (by omega)) hn hbusy hfin]
    simp only [ne_eq, not_true_eq_false, if_false]
    rw [ih (f ∘ Nat.succ) (fun j => busy (j + 1)) _
      (fun n h1 h2 => hw n (by simp only at h1; omega) (by simp only at h1 h2; omega))
      (polls_observe_finished_tail D A busy w.reads m hp)]
    simp only [poll_start_shift, Function.comp_apply, Nat.succ_eq_add_one, List.append_assoc]
    congr 2
    omega

/-- The status reads of `busy_once_adapter`: an even-numbered read succeeds without
showing finished, the odd-numbered read after it succeeds and shows finished. -/
theorem busy_once_adapter_polls (n : Nat) (h : n % 2 = 0) :
    poll_busy sample_decls busy_once_adapter n ∧
      poll_finished sample_decls busy_once_adapter (n + 1) := by
  have h1 : (n + 1) % 2 ≠ 0 := by omega
  refine ⟨⟨?_, ?_⟩, ⟨?_, ?_⟩⟩
  · simp only [busy_once_adapter, if_pos h]; rfl
  · simp only [busy_once_adapter, if_pos h]; decide
  · simp only [busy_once_adapter, if_neg h1]; rfl
  · simp only [busy_once_adapter, if_neg h1]; decide

theorem poll_start_busy_once (start : Nat) :
    ∀ k, poll_start (fun _ => 1) start k = start + 2 * k := by
  intro k
  induction k with
  | zero => rfl
  | succ k ih =>
    show poll_start (fun _ => 1) start k + (1 + 1) = start + 2 * (k + 1)
    rw [ih]
    omega

/-- On `busy_once_adapter`, polls that begin at an even read each take one busy
round and then observe finished. -/
theorem busy_once_adapter_observes (start m : Nat) (h : start % 2 = 0) :
    polls_observe_finished sample_decls busy_once_adapter (fun _ => 1) start m := by
  intro k _
  rw [poll_start_busy_once]
  have he : (start + 2 * k) % 2 = 0 := by omega
  refine ⟨by norm_num, fun i hi => ?_, (busy_once_adapter_polls _ he).2⟩
  have hi0 : i = 0 := Nat.lt_one_iff.mp hi
  subst hi0
  exact (busy_once_adapter_polls _ he).1

/-- C1: on a halted target, for an offset and a count that are multiples of 4 and a
buffer of `count` bytes, when the register writes of the run succeed and every poll
observes finished (poll `k` after `busy k` rounds that did not, whatever `busy k` up to
the timeout is), `ht32f165x_write` returns `ERROR_OK` and its register traffic is exactly,
for k = 0 .. count/4 - 1 in increasing order, TADR <- offset + 4k (as a 32-bit value),
WRDR <- little-endian word k of the buffer, OCMR <- 4, OPCR <- 0x14 and the poll.  The
register writes of the run are these four per word and no other, and when
`offset + count` stays within 32 bits the address is `offset + 4k` itself. -/
theorem write_issues_word_sequences (D : Decls) (A : Adapter) (fuel : Nat) (buffer : List Nat)
    (offset count : Nat) (w : World) (busy : Nat → Nat)
    (hhalted : w.bank.target.state = D.TARGET_HALTED)
    (hoff32 : offset < 2 ^ 32) (hcnt32 : count < 2 ^ 32)
    (hoffset : offset % 4 = 0) (hcount : count % 4 = 0)
    (hlen : buffer.length = count) (hbytes : ∀ b ∈ buffer, b < 256)
    (hw : ∀ n, w.writes ≤ n → n < w.writes + 4 * (count / 4) → A.write_result n = D.ERROR_OK)
    (hp : polls_observe_finished D A busy w.reads (count / 4))
    (hfuel : count / 4 < fuel) :
    ht32f165x_write D A fuel buffer offset count w =
        Outcome.ret D.ERROR_OK
          { w with
            trace := w.trace ++ (List.range (count / 4)).flatMap
              (fun k =>
                word_program_writes ((offset + 4 * k) % 2 ^ 32) (le_word buffer k) ++
                  poll_traffic (busy k))
            writes := w.writes + 4 * (count / 4)
            reads := poll_start busy w.reads (count / 4) } ∧
      writes_of ((List.range (count / 4)).flatMap
          (fun k =>
            word_program_writes ((offset + 4 * k) % 2 ^ 32) (le_word buffer k) ++
              poll_traffic (busy k))) =
        (List.range (count / 4)).flatMap
          (fun k =>
            [(TADR, (offset + 4 * k) % 2 ^ 32), (WRDR, le_word buffer k), (OCMR, 4),
              (OPCR, 0x14)]) ∧
      (offset + count ≤ 2 ^ 32 →
        ht32f165x_write D A fuel buffer offset count w =
          Outcome.ret D.ERROR_OK
            { w with
              trace := w.trace ++ (List.range (count / 4)).flatMap
                (fun k =>
                  word_program_writes (offset + 4 * k) (le_word buffer k) ++
                    poll_traffic (busy k))
              writes := w.writes + 4 * (count / 4)
              reads := poll_start busy w.reads (count / 4) }) := by
  have hmain : ht32f165x_write D A fuel buffer offset count w =
      Outcome.ret D.ERROR_OK
        { w with
          trace := w.trace ++ (List.range (count / 4)).flatMap
            (fun k =>
              word_program_writes ((offset + 4 * k) % 2 ^ 32) (le_word buffer k) ++
                poll_traffic (busy k))
          writes := w.writes + 4 * (count / 4)
          reads := poll_start busy w.reads (count / 4) } := by
    rw [write_eq_program_words D A fuel buffer offset count w hhalted hoff32 hcnt32 hoffset
      hcount hlen hbytes hfuel]
    have h := program_words_all_ok D A (count / 4)
      (fun k => ((offset + 4 * k) % 2 ^ 32, le_word buffer k)) busy w hw hp
    simp only [buffer_words]
    rw [h]
  refine ⟨hmain, ?_, fun hfit => ?_⟩
  · rw [writes_of_flatMap]
    simp only [writes_of_append, writes_of_poll_traffic, List.append_nil]
    rfl
  · rw [hmain]
    have hk : ∀ k ∈ List.range (count / 4),
        word_program_writes ((offset + 4 * k) % 2 ^ 32) (le_word buffer k) ++
            poll_traffic (busy k) =
          word_program_writes (offset + 4 * k) (le_word buffer k) ++ poll_traffic (busy k) := by
      intro k hk
      rw [List.mem_range] at hk
      rw [Nat.mod_eq_of_lt (by omega)]
    simp only [List.flatMap_def, List.map_congr_left hk]

/-- C1 on the test pattern, with a status that shows the commit pattern once before
each finished: the 32 bytes 0, 1, ..., 31 written at offset 0 give eight word-program
sequences at 0, 4, ..., 28 with the words 0x03020100, 0x07060504, ..., 0x1F1E1D1C, in 32
register writes and 16 status reads. -/
theorem write_issues_word_sequences_witness :
    ∃ w1,
      ht32f165x_write sample_decls busy_once_adapter 9 (List.range 32) 0 32 halted_world =
        Outcome.ret 0 w1 ∧
      writes_of w1.trace =
        [(TADR, 0), (WRDR, 0x03020100), (OCMR, 4), (OPCR, 0x14),
         (TADR, 4), (WRDR, 0x07060504), (OCMR, 4), (OPCR, 0x14),
         (TADR, 8), (WRDR, 0x0B0A0908), (OCMR, 4), (OPCR, 0x14),
         (TADR, 12), (WRDR, 0x0F0E0D0C), (OCMR, 4), (OPCR, 0x14),
         (TADR, 16), (WRDR, 0x13121110), (OCMR, 4), (OPCR, 0x14),
         (TADR, 20), (WRDR, 0x17161514), (OCMR, 4), (OPCR, 0x14),
         (TADR, 24), (WRDR, 0x1B1A1918), (OCMR, 4), (OPCR, 0x14),
         (TADR, 28), (WRDR, 0x1F1E1D1C), (OCMR, 4), (OPCR, 0x14)] ∧
      w1.writes = 32 ∧ w1.reads = 16 :=
  ⟨_, (write_issues_word_sequences sample_decls busy_once_adapter 9 (List.range 32) 0 32
      halted_world (fun _ => 1) (by decide) (by decide) (by decide) (by decide) (by decide)
      (by decide) (by decide) (fun _ _ _ => rfl)
      (busy_once_adapter_observes _ _ (by decide)) (by decide)).1,
    by decide, by decide, by decide⟩

/-- Loop invariant of `ht32f165x_erase` when the writes succeed and the polls observe
finished: `m` remaining sectors give `m` page-erase commands at their offsets, each
followed by its poll. -/
theorem erase_loop_polls_ok (D : Decls) (A : Adapter) (last : Nat) (hlast : last + 1 < 2 ^ 32) :
    ∀ (m fuel i : Nat) (busy : Nat → Nat) (w : World), i + m = last + 1 → m < fuel →
      last < w.bank.sectors.length →
      (∀ n, w.writes ≤ n → n < w.writes + 3 * m → A.write_result n = D.ERROR_OK) →
      polls_observe_finished D A busy w.reads m →
      ∃ w1, erase_loop D A fuel i last w = Outcome.ret D.ERROR_OK w1 ∧
        w1.trace = w.trace ++ (List.range m).flatMap
          (fun k => page_erase_writes (sector_offset w.bank (i + k)) ++ poll_traffic (busy k)) ∧
        w1.writes = w.writes + 3 * m ∧ w1.reads = poll_start busy w.reads m := by
  intro m
  induction m with
  | zero =>
    intro fuel i busy w him hfuel _ _ _
    obtain ⟨fuel, rfl⟩ : ∃ f, fuel = f + 1 := ⟨fuel - 1, by omega⟩
    exact ⟨w, by rw [erase_loop_step, if_neg (by omega)], by simp, rfl, rfl⟩
  | succ m ih =>
    intro fuel i busy w him hfuel hlen hw hp
    obtain ⟨fuel, rfl⟩ : ∃ f, fuel = f + 1 := ⟨fuel - 1, by omega⟩
    obtain ⟨hn, hbusy, hfin⟩ := polls_observe_finished_head D A busy w.reads m hp
    have hi : i < w.bank.sectors.length := by omega
    have hoff : sector_offset w.bank i = (w.bank.sectors[i]).offset := by
      simp [sector_offset, List.getElem?_eq_getElem hi]
    rw [erase_loop_step, if_pos (by omega), List.getElem?_eq_getElem hi]
    simp only
    rw [page_erase_command_after_busy D A _ (busy 0) w (fun n h1 h2 => hw n h1 (by omega))
      hn hbusy hfin]
    simp only [ne_eq, not_true_eq_false, if_false]
    rw [Nat.mod_eq_of_lt (by omega)]
    obtain ⟨w1, hrun, htr, hwr, hrd⟩ := ih fuel (i + 1) (fun j => busy (j + 1))
      (store_is_erased i (w.bank.sectors[i]) 1
        { w with
          trace := w.trace ++
            (page_erase_writes (w.bank.sectors[i]).offset ++ poll_traffic (busy 0))
          writes := w.writes + 3
          reads := w.reads + (busy 0 + 1) })
      (by omega) (by omega) (by simp [store_is_erased]; omega)
      (fun n h1 h2 => hw n (by simp [store_is_erased] at h1; omega)
        (by simp [store_is_erased] at h1 h2; omega))
      (polls_observe_finished_tail D A busy w.reads m hp)
    refine ⟨w1, hrun, ?_, ?_, ?_⟩
    · rw [htr, range_succ_flatMap]
      simp only [store_is_erased, Nat.add_zero, hoff, List.append_assoc]
      congr 3
      simp only [List.flatMap_def]
      congr 1
      apply List.map_congr_left
      intro k _
      rw [sector_offset_set _ _ _ _ (by omega)]
      congr 3
      omega
    · rw [hwr]; simp [store_is_erased]; omega
    · rw [hrd, ← poll_start_shift]; rfl

/-- C4: on a halted target and for a range `first <= last` within the bank, when the
register writes of the run succeed and every poll observes finished (poll `k` after
`busy k` rounds that did not), `ht32f165x_erase` returns `ERROR_OK` and its register
traffic is exactly, for i = first .. last in increasing order, TADR <- sectors[i].offset,
OCMR <- 8, OPCR <- 0x14 and the poll.  The register writes of the run are these three per
sector and no other: nothing is written to WRDR and no other sector is addressed. -/
theorem erase_issues_page_erase_sequences (D : Decls) (A : Adapter) (fuel first last : Nat)
    (w : World) (busy : Nat → Nat)
    (hhalted : w.bank.target.state = D.TARGET_HALTED)
    (hfl : first ≤ last) (hlast : last < w.bank.num_sectors)
    (hnum : w.bank.sectors.length = w.bank.num_sectors) (hn32 : w.bank.num_sectors < 2 ^ 32)
    (hw : ∀ n, w.writes ≤ n → n < w.writes + 3 * (last + 1 - first) →
      A.write_result n = D.ERROR_OK)
    (hp : polls_observe_finished D A busy w.reads (last + 1 - first))
    (hfuel : last + 1 - first < fuel) :
    ∃ w1, ht32f165x_erase D A fuel first last w = Outcome.ret D.ERROR_OK w1 ∧
      w1.trace = w.trace ++ (List.range (last + 1 - first)).flatMap
        (fun k =>
          page_erase_writes (sector_offset w.bank (first + k)) ++ poll_traffic (busy k)) ∧
      w1.writes = w.writes + 3 * (last + 1 - first) ∧
      w1.reads = poll_start busy w.reads (last + 1 - first) ∧
      writes_of ((List.range (last + 1 - first)).flatMap
          (fun k =>
            page_erase_writes (sector_offset w.bank (first + k)) ++ poll_traffic (busy k))) =
        (List.range (last + 1 - first)).flatMap
          (fun k => [(TADR, sector_offset w.bank (first + k)), (OCMR, 8), (OPCR, 0x14)]) ∧
      ∀ v, (WRDR, v) ∉ (List.range (last + 1 - first)).flatMap
        (fun k => [(TADR, sector_offset w.bank (first + k)), (OCMR, 8), (OPCR, 0x14)]) := by
  obtain ⟨w1, hrun, htr, hwr, hrd⟩ :=
    erase_loop_polls_ok D A last (by omega) (last + 1 - first) fuel first busy w (by omega)
      hfuel (by omega) hw hp
  refine ⟨w1, ?_, htr, hwr, hrd, ?_, ?_⟩
  · simp only [ht32f165x_erase, hhalted, ne_eq, not_true_eq_false, if_false]
    exact hrun
  · rw [writes_of_flatMap]
    simp only [writes_of_append, writes_of_poll_traffic, List.append_nil]
    rfl
  · intro v hv
    rw [List.mem_flatMap] at hv
    obtain ⟨k, _, hk⟩ := hv
    simp [TADR, WRDR, OCMR, OPCR] at hk

/-- C4 on the sample bank, with a status that shows the commit pattern once before each
finished: erasing sectors 1 .. 2 addresses the offsets 1024 and 2048, in 6 register
writes and 4 status reads. -/
theorem erase_issues_page_erase_sequences_witness :
    ∃ w1,
      ht32f165x_erase sample_decls busy_once_adapter 3 1 2 halted_world = Outcome.ret 0 w1 ∧
      w1.trace =
        page_erase_writes 1024 ++ [Access.read OPCR, Access.sleep 10, Access.read OPCR] ++
          page_erase_writes 2048 ++ [Access.read OPCR, Access.sleep 10, Access.read OPCR] ∧
      w1.writes = 6 ∧ w1.reads = 4 := by
  obtain ⟨w1, h1, h2, h3, h4, _⟩ :=
    erase_issues_page_erase_sequences sample_decls busy_once_adapter 3 1 2 halted_world
      (fun _ => 1) (by decide) (by decide) (by decide) (by decide) (by decide)
      (fun _ _ _ => rfl) (busy_once_adapter_observes _ _ (by decide)) (by decide)
  exact ⟨w1, h1, h2.trans (by decide), h3, h4.trans (by decide)⟩

/-- C8: on a halted target with bit 0 of CPSR set and `set = 1`, when the register
writes of the run succeed and every poll observes finished (poll `k` after `busy k`
rounds that did not), `ht32f165x_protect` returns `ERROR_OK` and its register traffic is
exactly: the read of CPSR; the page-erase sequence TADR <- 0x1FF00000, OCMR <- 8,
OPCR <- 0x14, poll; then six word-program sequences (TADR, WRDR, OCMR <- 4, OPCR <- 0x14,
poll) at base + 0, 4, 8, 12, 0x10, 0x20 with the values 0, 0xFFFFFFFF, 0xFFFFFFFF,
0xFFFFFFFF, 0xFFFFFFFE, 0xFFFFFFFB; nothing follows the poll of the checksum sequence.
The register writes of the run are the 27 of the option-byte image and no other. -/
theorem protect_issues_option_byte_sequences (D : Decls) (A : Adapter) (first last : Nat)
    (w : World) (busy : Nat → Nat)
    (hhalted : w.bank.target.state = D.TARGET_HALTED)
    (hbit : (A.read_result w.reads).2 &&& 1 ≠ 0)
    (hw : ∀ n, w.writes ≤ n → n < w.writes + 27 → A.write_result n = D.ERROR_OK)
    (hp : polls_observe_finished D A busy (w.reads + 1) 7) :
    ht32f165x_protect D A 1 first last w =
        (D.ERROR_OK,
          { w with
            trace := w.trace ++
              ([Access.read CPSR] ++
                page_erase_writes 0x1FF00000 ++ poll_traffic (busy 0) ++
                word_program_writes (0x1FF00000 + 0) 0x00000000 ++ poll_traffic (busy 1) ++
                word_program_writes (0x1FF00000 + 4) 0xFFFFFFFF ++ poll_traffic (busy 2) ++
                word_program_writes (0x1FF00000 + 8) 0xFFFFFFFF ++ poll_traffic (busy 3) ++
                word_program_writes (0x1FF00000 + 12) 0xFFFFFFFF ++ poll_traffic (busy 4) ++
                word_program_writes (0x1FF00000 + 0x10) 0xFFFFFFFE ++ poll_traffic (busy 5) ++
                word_program_writes (0x1FF00000 + 0x20) 0xFFFFFFFB ++ poll_traffic (busy 6))
            writes := w.writes + 27
            reads := poll_start busy (w.reads + 1) 7 }) ∧
      writes_of
          ([Access.read CPSR] ++
            page_erase_writes 0x1FF00000 ++ poll_traffic (busy 0) ++
            word_program_writes (0x1FF00000 + 0) 0x00000000 ++ poll_traffic (busy 1) ++
            word_program_writes (0x1FF00000 + 4) 0xFFFFFFFF ++ poll_traffic (busy 2) ++
            word_program_writes (0x1FF00000 + 8) 0xFFFFFFFF ++ poll_traffic (busy 3) ++
            word_program_writes (0x1FF00000 + 12) 0xFFFFFFFF ++ poll_traffic (busy 4) ++
            word_program_writes (0x1FF00000 + 0x10) 0xFFFFFFFE ++ poll_traffic (busy 5) ++
            word_program_writes (0x1FF00000 + 0x20) 0xFFFFFFFB ++ poll_traffic (busy 6)) =
        option_byte_writes 0x00000000 0xFFFFFFFF 0xFFFFFFFF 0xFFFFFFFF 0xFFFFFFFE 0xFFFFFFFB := by
  constructor
  · obtain ⟨hn, hbusy, hfin⟩ := polls_observe_finished_head D A busy (w.reads + 1) 6 hp
    have hset : ¬ ((1 : Int) = 0) := by decide
    rw [protect_unfold, if_neg (by simp [hhalted]), if_neg (not_or.mpr ⟨hbit, hset⟩),
      page_erase_command_after_busy D A 0x1FF00000 (busy 0)
        { w with trace := w.trace ++ [Access.read CPSR], reads := w.reads + 1 }
        (fun n h1 h2 => hw n h1 (by simp only at h2; omega)) hn hbusy hfin]
    simp only [ne_eq, not_true_eq_false, if_false]
    have e : option_byte_words =
        (List.range 6).map (fun k => option_byte_words.getD k (0, 0)) := by decide
    have r6 : List.range 6 = [0, 1, 2, 3, 4, 5] := by decide
    rw [protect_program_eq_program_words, e,
      program_words_all_ok D A 6 _ (fun j => busy (j + 1)) _
        (fun n h1 h2 => hw n (by simp only at h1; omega) (by simp only at h1 h2; omega))
        (polls_observe_finished_tail D A busy (w.reads + 1) 6 hp)]
    simp only [poll_start_shift, r6]
    simp [option_byte_words]
  · simp only [writes_of_append, writes_of_poll_traffic, List.append_nil]
    rfl

/-- C8 on the sample bank, with a status that alternates between the commit pattern
and finished: the poll of the page erase finishes at once, each of the six other polls
after one busy round; 27 register writes and 14 register reads. -/
theorem protect_issues_option_byte_sequences_witness :
    ∃ w1,
      ht32f165x_protect sample_decls busy_once_adapter 1 0 0 halted_world = (0, w1) ∧
      writes_of w1.trace =
        option_byte_writes 0x00000000 0xFFFFFFFF 0xFFFFFFFF 0xFFFFFFFF 0xFFFFFFFE 0xFFFFFFFB ∧
      w1.writes = 27 ∧ w1.reads = 14 :=
  ⟨_, (protect_issues_option_byte_sequences sample_decls busy_once_adapter 0 0 halted_world
      (fun k => if k = 0 then 0 else 1) (by decide) (by show (0x15 : Nat) &&& 1 ≠ 0; decide)
      (fun _ _ _ => rfl)
      (by
        simp only [polls_observe_finished, poll_busy, poll_finished]
        decide)).1,
    by decide, by decide, by decide⟩

/-- A word-program command in which write number `j` of its four is the first to
fail returns that write's code right after it. -/
theorem program_word_write_fails (D : Decls) (A : Adapter) (addr value j : Nat) (w : World)
    (hj : j < 4) (hok : ∀ i, i < j → A.write_result (w.writes + i) = D.ERROR_OK)
    (hne : A.write_result (w.writes + j) ≠ D.ERROR_OK) :
    ht32f165x_program_word D A addr value w =
      (A.write_result (w.writes + j),
        { w with
          trace := w.trace ++ (word_program_writes addr value).take (j + 1)
          writes := w.writes + (j + 1) }) := by
  rcases program_word_cases D A addr value w with ⟨j2, hj2, hok2, hne2, hrun⟩ | ⟨hall, _⟩
  · have hjj : j2 = j := by
      rcases Nat.lt_trichotomy j2 j with h | h | h
      · exact absurd (hok j2 h) hne2
      · exact h
      · exact absurd (hok2 j h) hne
    subst hjj
    exact hrun
  · exact absurd (hall j hj) hne

/-- A word-program command whose four writes succeed is those writes followed by the
poll, whose result it returns. -/
theorem program_word_polls (D : Decls) (A : Adapter) (addr value : Nat) (w : World)
    (hall : ∀ i, i < 4 → A.write_result (w.writes + i) = D.ERROR_OK) :
    ht32f165x_program_word D A addr value w =
      ht32f165x_wait_status_busy D A 1000
        { w with
          trace := w.trace ++ word_program_writes addr value
          writes := w.writes + 4 } := by
  rcases program_word_cases D A addr value w with ⟨j, hj, _, hne, _⟩ | ⟨_, hrun⟩
  · exact absurd (hall j hj) hne
  · exact hrun

/-- When the words before word `k` are programmed with success, reaching the world
`wk`, and the command for word `k` fails there, `ht32f165x_write` returns the result
of that command. -/
theorem write_returns_failing_command (D : Decls) (A : Adapter) (fuel : Nat)
    (buffer : List Nat) (offset count : Nat) (w wk : World) (k : Nat)
    (hhalted : w.bank.target.state = D.TARGET_HALTED)
    (hoff32 : offset < 2 ^ 32) (hcnt32 : count < 2 ^ 32)
    (hoffset : offset % 4 = 0) (hcount : count % 4 = 0)
    (hlen : buffer.length = count) (hbytes : ∀ b ∈ buffer, b < 256)
    (hfuel : count / 4 < fuel) (hk : k < count / 4)
    (hpre : program_words D A (buffer_words buffer offset k) w = (D.ERROR_OK, wk))
    (hfail : (ht32f165x_program_word D A ((offset + 4 * k) % 2 ^ 32) (le_word buffer k) wk).1 ≠
      D.ERROR_OK) :
    ht32f165x_write D A fuel buffer offset count w =
      Outcome.ret
        (ht32f165x_program_word D A ((offset + 4 * k) % 2 ^ 32) (le_word buffer k) wk).1
        (ht32f165x_program_word D A ((offset + 4 * k) % 2 ^ 32) (le_word buffer k) wk).2 := by
  have hget : (buffer_words buffer offset (count / 4))[k]? =
      some ((offset + 4 * k) % 2 ^ 32, le_word buffer k) := by
    simp [buffer_words, List.getElem?_map, List.getElem?_range hk]
  have htake := buffer_words_take buffer offset (count / 4) k (by omega)
  rw [write_eq_program_words D A fuel buffer offset count w hhalted hoff32 hcnt32 hoffset
    hcount hlen hbytes hfuel,
    program_words_stops D A (buffer_words buffer offset (count / 4)) k _ w hget
      (by rw [htake, hpre]) (by rw [htake, hpre]; exact hfail),
    htake, hpre]

/-- C17: in a run of `ht32f165x_write` on a halted target with aligned arguments, let
the first failure occur in the sequence of word `k`: the `4 k` register writes of the
words before it succeed and their `k` polls observe finished.  If write number `j` of
the four writes of word `k` is the first to fail, `ht32f165x_write` returns the code of
that write, and the traffic of the run is the complete sequences of the words
`0 .. k - 1` followed by the first `j + 1` writes of word `k`, and nothing more.  If the
four writes of word `k` succeed and its poll fails, `ht32f165x_write` returns the code of
the poll and the run ends where the poll ends, the poll itself issuing no register
write. -/
theorem write_stops_at_first_failure (D : Decls) (A : Adapter) (fuel : Nat) (buffer : List Nat)
    (offset count : Nat) (w : World) (busy : Nat → Nat) (k : Nat)
    (hhalted : w.bank.target.state = D.TARGET_HALTED)
    (hoff32 : offset < 2 ^ 32) (hcnt32 : count < 2 ^ 32)
    (hoffset : offset % 4 = 0) (hcount : count % 4 = 0)
    (hlen : buffer.length = count) (hbytes : ∀ b ∈ buffer, b < 256)
    (hfuel : count / 4 < fuel) (hk : k < count / 4)
    (hw : ∀ n, w.writes ≤ n → n < w.writes + 4 * k → A.write_result n = D.ERROR_OK)
    (hp : polls_observe_finished D A busy w.reads k) :
    (∀ j, j < 4 →
      (∀ i, i < j → A.write_result (w.writes + 4 * k + i) = D.ERROR_OK) →
      A.write_result (w.writes + 4 * k + j) ≠ D.ERROR_OK →
      ht32f165x_write D A fuel buffer offset count w =
        Outcome.ret (A.write_result (w.writes + 4 * k + j))
          { w with
            trace := w.trace ++
              ((List.range k).flatMap
                  (fun i =>
                    word_program_writes ((offset + 4 * i) % 2 ^ 32) (le_word buffer i) ++
                      poll_traffic (busy i)) ++
                (word_program_writes ((offset + 4 * k) % 2 ^ 32) (le_word buffer k)).take
                  (j + 1))
            writes := w.writes + 4 * k + (j + 1)
            reads := poll_start busy w.reads k }) ∧
    ((∀ i, i < 4 → A.write_result (w.writes + 4 * k + i) = D.ERROR_OK) →
      (ht32f165x_wait_status_busy D A 1000
          { w with
            trace := w.trace ++
              ((List.range k).flatMap
                  (fun i =>
                    word_program_writes ((offset + 4 * i) % 2 ^ 32) (le_word buffer i) ++
                      poll_traffic (busy i)) ++
                word_program_writes ((offset + 4 * k) % 2 ^ 32) (le_word buffer k))
            writes := w.writes + 4 * k + 4
            reads := poll_start busy w.reads k }).1 ≠ D.ERROR_OK →
      ht32f165x_write D A fuel buffer offset count w =
          Outcome.ret
            (ht32f165x_wait_status_busy D A 1000
              { w with
                trace := w.trace ++
                  ((List.range k).flatMap
                      (fun i =>
                        word_program_writes ((offset + 4 * i) % 2 ^ 32) (le_word buffer i) ++
                          poll_traffic (busy i)) ++
                    word_program_writes ((offset + 4 * k) % 2 ^ 32) (le_word buffer k))
                writes := w.writes + 4 * k + 4
                reads := poll_start busy w.reads k }).1
            (ht32f165x_wait_status_busy D A 1000
              { w with
                trace := w.trace ++
                  ((List.range k).flatMap
                      (fun i =>
                        word_program_writes ((offset + 4 * i) % 2 ^ 32) (le_word buffer i) ++
                          poll_traffic (busy i)) ++
                    word_program_writes ((offset + 4 * k) % 2 ^ 32) (le_word buffer k))
                writes := w.writes + 4 * k + 4
                reads := poll_start busy w.reads k }).2 ∧
        ∃ ext,
          (ht32f165x_wait_status_busy D A 1000
              { w with
                trace := w.trace ++
                  ((List.range k).flatMap
                      (fun i =>
                        word_program_writes ((offset + 4 * i) % 2 ^ 32) (le_word buffer i) ++
                          poll_traffic (busy i)) ++
                    word_program_writes ((offset + 4 * k) % 2 ^ 32) (le_word buffer k))
                writes := w.writes + 4 * k + 4
                reads := poll_start busy w.reads k }).2.trace =
            w.trace ++
              ((List.range k).flatMap
                  (fun i =>
                    word_program_writes ((offset + 4 * i) % 2 ^ 32) (le_word buffer i) ++
                      poll_traffic (busy i)) ++
                word_program_writes ((offset + 4 * k) % 2 ^ 32) (le_word buffer k)) ++ ext ∧
          writes_of ext = []) := by
  have hpre : program_words D A (buffer_words buffer offset k) w =
      (D.ERROR_OK,
        { w with
          trace := w.trace ++ (List.range k).flatMap
            (fun i =>
              word_program_writes ((offset + 4 * i) % 2 ^ 32) (le_word buffer i) ++
                poll_traffic (busy i))
          writes := w.writes + 4 * k
          reads := poll_start busy w.reads k }) :=
    program_words_all_ok D A k (fun i => ((offset + 4 * i) % 2 ^ 32, le_word buffer i)) busy w
      hw hp
  constructor
  · intro j hj hok hne
    have hcmd := program_word_write_fails D A ((offset + 4 * k) % 2 ^ 32) (le_word buffer k) j
      { w with
        trace := w.trace ++ (List.range k).flatMap
          (fun i =>
            word_program_writes ((offset + 4 * i) % 2 ^ 32) (le_word buffer i) ++
              poll_traffic (busy i))
        writes := w.writes + 4 * k
        reads := poll_start busy w.reads k } hj hok hne
    rw [write_returns_failing_command D A fuel buffer offset count w _ k hhalted hoff32 hcnt32
      hoffset hcount hlen hbytes hfuel hk hpre (by rw [hcmd]; exact hne), hcmd]
    simp only [List.append_assoc]
  · intro hall hfail
    have hcmd := program_word_polls D A ((offset + 4 * k) % 2 ^ 32) (le_word buffer k)
      { w with
        trace := w.trace ++ (List.range k).flatMap
          (fun i =>
            word_program_writes ((offset + 4 * i) % 2 ^ 32) (le_word buffer i) ++
              poll_traffic (busy i))
        writes := w.writes + 4 * k
        reads := poll_start busy w.reads k } hall
    simp only [List.append_assoc] at hcmd
    constructor
    · rw [write_returns_failing_command D A fuel buffer offset count w _ k hhalted hoff32
        hcnt32 hoffset hcount hlen hbytes hfuel hk hpre (by rw [hcmd]; exact hfail), hcmd]
    · obtain ⟨_, _, ext, htr, hext⟩ := wait_frame D A _ 1000
        { w with
          trace := w.trace ++
            ((List.range k).flatMap
                (fun i =>
                  word_program_writes ((offset + 4 * i) % 2 ^ 32) (le_word buffer i) ++
                    poll_traffic (busy i)) ++
              word_program_writes ((offset + 4 * k) % 2 ^ 32) (le_word buffer k))
          writes := w.writes + 4 * k + 4
          reads := poll_start busy w.reads k } rfl
      exact ⟨ext, htr, hext⟩

/-- C17 on two runs.  In the first the write to WRDR for the second word fails with
-4: the run returns -4 after the complete sequence of the first word and the writes to
TADR and WRDR of the second.  In the second every status read fails with -4: the run
returns -4 after the four writes and the one status read of the first word. -/
theorem write_stops_at_first_failure_witness :
    ht32f165x_write sample_decls sixth_write_failing_adapter 3 (List.range 8) 0 8
          halted_world =
        Outcome.ret (-4)
          { halted_world with
            trace :=
              [Access.write TADR 0, Access.write WRDR 0x03020100, Access.write OCMR 4,
                Access.write OPCR 0x14, Access.read OPCR,
                Access.write TADR 4, Access.write WRDR 0x07060504]
            writes := 6
            reads := 1 } ∧
      ht32f165x_write sample_decls failing_read_adapter 3 (List.range 8) 0 8 halted_world =
        Outcome.ret (-4)
          { halted_world with
            trace :=
              [Access.write TADR 0, Access.write WRDR 0x03020100, Access.write OCMR 4,
                Access.write OPCR 0x14, Access.read OPCR]
            writes := 4
            reads := 1 } := by
  constructor
  · exact ((write_stops_at_first_failure sample_decls sixth_write_failing_adapter 3
        (List.range 8) 0 8 halted_world (fun _ => 0) 1 (by decide) (by decide) (by decide)
        (by decide) (by decide) (by decide) (by decide) (by decide) (by decide)
        (fun n _ h2 => by
          have h : n ≠ 5 := by
            have h3 : n < 4 := h2
            omega
          simp [sixth_write_failing_adapter, sample_decls, h])
        (by
          simp only [polls_observe_finished, poll_busy, poll_finished]
          decide)).1 1 (by decide)
        (fun i hi => by
          have hi0 : i = 0 := Nat.lt_one_iff.mp hi
          subst hi0
          rfl)
        (by decide)).trans (by decide)
  · have h := (write_stops_at_first_failure sample_decls failing_read_adapter 3
        (List.range 8) 0 8 halted_world (fun _ => 0) 0 (by decide) (by decide) (by decide)
        (by decide) (by decide) (by decide) (by decide) (by decide) (by decide)
        (fun n _ h2 => absurd (show n < 0 from h2) (Nat.not_lt_zero n))
        (fun k hk => absurd hk (Nat.not_lt_zero k))).2 (fun _ _ => rfl)
        (by rw [wait_unfold, if_pos (by decide)]; decide)
    rw [wait_unfold, if_pos (by decide)] at h
    exact h.1.trans (by decide)

end HT32F165x
